import Mathlib

/-!
# secp192r1 field arithmetic of nettle (`ecc-192.c`)

A shallow embedding of the prime-specific reduction `ecc_192_modp` (both limb
widths), the zero test `ecc_192_zero_p` and the square root `ecc_192_sqrt`,
together with theorems about them.

Limb arrays are lists of naturals, least significant limb first; a limb of
width `w` is a natural below `2 ^ w` and machine arithmetic is written with an
explicit `% 2 ^ w`.  In-place updates of `rp` are explicit `load`/`store`
steps on the list.  A failing `assert` is the result `none`.
-/

namespace Nettle

/-! ## Limb arrays -/

/-- The field prime of secp192r1. -/
def p192 : Nat := 2 ^ 192 - 2 ^ 64 - 1

/-- The integer held by a little-endian array of `w`-bit limbs. -/
def limbs_val (w : Nat) : List Nat → Nat
  | [] => 0
  | x :: xs => x + 2 ^ w * limbs_val w xs

/-- Every entry of the array is a `w`-bit machine word. -/
def limbs_ok (w : Nat) (l : List Nat) : Prop := ∀ x ∈ l, x < 2 ^ w

instance (w : Nat) (l : List Nat) : Decidable (limbs_ok w l) := by
  unfold limbs_ok; infer_instance

/-- The `n` limbs of `X`, least significant first (how a caller lays out an integer). -/
def to_limbs (w : Nat) : Nat → Nat → List Nat
  | 0, _ => []
  | n + 1, X => X % 2 ^ w :: to_limbs w n (X / 2 ^ w)

/-- Read `n` limbs at `rp + off`. -/
def load (rp : List Nat) (off n : Nat) : List Nat := (rp.drop off).take n

/-- Write the limbs `v` at `rp + off`. -/
def store (rp : List Nat) (off : Nat) (v : List Nat) : List Nat :=
  rp.take off ++ v ++ rp.drop (off + v.length)

/-! ## Primitives used by the reduction

`mpn_add_n` is GMP's; `sec_add_1`, `cnd_add_n` and the constant `ecc_Bmodp`
belong to nettle but live outside `ecc-192.c`. -/

/-- Modelled from the spec: the arbitrary-precision collaborator's `mpn_add_n`
(not in `ecc-192.c`): limb-wise addition of two equally long arrays with a
carry rippling upwards; gives the sum limbs and the carry out. `cy` is the
carry in, `0` at the call. -/
def mpn_add_n_aux (w : Nat) : List Nat → List Nat → Nat → List Nat × Nat
  | a :: as, b :: bs, cy =>
    let s := a + b + cy
    let r := mpn_add_n_aux w as bs (s / 2 ^ w)
    (s % 2 ^ w :: r.1, r.2)
  | _, _, cy => ([], cy)

/-- Modelled from the spec: `mpn_add_n (rp, ap, bp, n)` of the arbitrary-precision
collaborator, as sum limbs and returned carry. -/
def mpn_add_n (w : Nat) (ap bp : List Nat) : List Nat × Nat := mpn_add_n_aux w ap bp 0

/-- Modelled from the spec: nettle's `sec_add_1 (rp, ap, n, b)` (not in
`ecc-192.c`): adds the single limb `b` to an `n`-limb array without branching,
`r = ap[i] + b; b = (r < b); rp[i] = r`, and returns the final `b`. -/
def sec_add_1 (w : Nat) : List Nat → Nat → List Nat × Nat
  | [], b => ([], b)
  | a :: as, b =>
    let r := (a + b) % 2 ^ w
    let rest := sec_add_1 w as (if r < b then 1 else 0)
    (r :: rest.1, rest.2)

/-- Modelled from the spec: nettle's `cnd_add_n (cnd, rp, ap, n)` (not in
`ecc-192.c`), the carry-selected conditional add: `rp += ap` when `cnd` is
non-zero, `rp` unchanged otherwise; returns the carry out. -/
def cnd_add_n (w : Nat) (cnd : Nat) (rp ap : List Nat) : List Nat × Nat :=
  if cnd ≠ 0 then mpn_add_n w rp ap else (rp, 0)

/-- Modelled from the spec: the constant `ecc_Bmodp` of the generated header
`ecc-192.h`, the modulus's complement `2^192 mod p = 2^64 + 1`, as three
64-bit limbs. -/
def ecc_Bmodp : List Nat := [1, 1, 0]

/-- Modelled from the spec: `ecc_Bmodp` of the generated header for 32-bit
limbs, `2^64 + 1` as six 32-bit limbs. -/
def ecc_Bmodp32 : List Nat := [1, 0, 1, 0, 0, 0]

/-! ## `ecc_192_modp` -/

/-- `ecc_192_modp`, `GMP_NUMB_BITS == 64`: `p = B^3 - B - 1`. The argument and
the result are the six limbs of `rp`; `none` is a failed `assert`. -/
def ecc_192_modp (rp : List Nat) : Option (List Nat) :=
  -- Reduce from 6 to 5 limbs (top limb small)
  let a1 := mpn_add_n 64 (load rp 1 2) (load rp 4 2)
  let rp := store rp 1 a1.1
  let a2 := sec_add_1 64 (load rp 3 1) a1.2
  let rp := store rp 3 a2.1
  let a3 := mpn_add_n 64 (load rp 2 2) (load rp 4 2)
  let rp := store rp 2 a3.1
  let cy := (a2.2 + a3.2) % 2 ^ 64
  if cy ≤ 2 then
    let rp := store rp 4 [cy]
    -- Reduce from 5 to 4 limbs (high limb small)
    let b1 := mpn_add_n 64 (load rp 0 2) (load rp 3 2)
    let rp := store rp 0 b1.1
    let b2 := sec_add_1 64 (load rp 2 1) b1.2
    let rp := store rp 2 b2.1
    let b3 := mpn_add_n 64 (load rp 1 2) (load rp 3 2)
    let rp := store rp 1 b3.1
    let cy := (b2.2 + b3.2) % 2 ^ 64
    if cy ≤ 1 then
      let c := cnd_add_n 64 cy (load rp 0 3) ecc_Bmodp
      let rp := store rp 0 c.1
      if c.2 = 0 then some rp else none
    else none
  else none

/-- `ecc_192_modp`, `GMP_NUMB_BITS == 32`: `p = B^6 - B^2 - 1`. The argument
and the result are the twelve limbs of `rp`; `none` is a failed `assert`. -/
def ecc_192_modp32 (rp : List Nat) : Option (List Nat) :=
  -- Reduce from 12 to 9 limbs (top limb small)
  let a1 := mpn_add_n 32 (load rp 2 4) (load rp 8 4)
  let rp := store rp 2 a1.1
  let a2 := sec_add_1 32 (load rp 6 2) a1.2
  let rp := store rp 6 a2.1
  let a3 := mpn_add_n 32 (load rp 4 4) (load rp 8 4)
  let rp := store rp 4 a3.1
  let cy := (a2.2 + a3.2) % 2 ^ 32
  if cy ≤ 2 then
    let rp := store rp 8 [cy]
    -- Reduce from 9 to 6 limbs
    let b1 := mpn_add_n 32 (load rp 0 3) (load rp 6 3)
    let rp := store rp 0 b1.1
    let b2 := sec_add_1 32 (load rp 3 2) b1.2
    let rp := store rp 3 b2.1
    let b3 := mpn_add_n 32 (load rp 2 3) (load rp 6 3)
    let rp := store rp 2 b3.1
    let cy := (b2.2 + b3.2) % 2 ^ 32
    let b4 := sec_add_1 32 (load rp 5 1) cy
    let rp := store rp 5 b4.1
    let cy := b4.2
    if cy ≤ 1 then
      let c := cnd_add_n 32 cy (load rp 0 6) ecc_Bmodp32
      let rp := store rp 0 c.1
      if c.2 = 0 then some rp else none
    else none
  else none

/-- What the two folds and the final carry-selected add of `ecc_192_modp`
compute on the integer `X` held by the double-width input: `2^256` is folded as
`2^128 + 2^64`, then `2^192` as `2^64 + 1`, and one `p` is taken off when the
sum reached `2^192`. -/
def fold192 (X : Nat) : Nat :=
  let V1 := X % 2 ^ 256 + X / 2 ^ 256 * (2 ^ 128 + 2 ^ 64)
  let V2 := V1 % 2 ^ 192 + V1 / 2 ^ 192 * (2 ^ 64 + 1)
  if V2 < 2 ^ 192 then V2 else V2 - p192

/-! ## Modulus descriptor, zero test and square root -/

/-- The members of `struct ecc_modulo` that `ecc-192.c` fills in or reads:
bit size, limb count and the limbs `m` of the modulus. -/
structure ecc_modulo where
  bit_size : Nat
  size : Nat
  m : List Nat

/-- Modelled from the spec: `ECC_LIMB_SIZE` of the generated header `ecc-192.h`
for 64-bit limbs; the guard `ECC_LIMB_SIZE * GMP_NUMB_BITS == 192` fixes it. -/
def ECC_LIMB_SIZE : Nat := 3

/-- Modelled from the spec: the constant `ecc_p` of the generated header
`ecc-192.h`, the limbs of `p = 2^192 - 2^64 - 1`. -/
def ecc_p : List Nat := [0xffffffffffffffff, 0xfffffffffffffffe, 0xffffffffffffffff]

/-- The field modulus of `_nettle_secp_192r1` (its first `struct ecc_modulo`). -/
def secp_192r1_p : ecc_modulo := { bit_size := 192, size := ECC_LIMB_SIZE, m := ecc_p }

/-- `ecc_192_zero_p`: OR-accumulates `rp[i]` and `rp[i] ^ p->m[i]` over the
`ECC_LIMB_SIZE` limbs and tests both accumulators at the end. -/
def ecc_192_zero_p (p : ecc_modulo) (rp : List Nat) : Nat :=
  let acc := (List.range ECC_LIMB_SIZE).foldl
    (fun (acc : Nat × Nat) i =>
      (acc.1 ||| rp.getD i 0, acc.2 ||| (rp.getD i 0 ^^^ p.m.getD i 0))) (0, 0)
  (if acc.1 = 0 then 1 else 0) ||| (if acc.2 = 0 then 1 else 0)

/-- The field helpers of `ecc-mod-arith.c` called by `ecc_192_sqrt`. They are
not part of `ecc-192.c` and are parameters of the embedding. The arguments are
the modulus and the source operands (then `k`, then the scratch operand `tp`
where the C function has one); the result is the limbs written to the
destination, paired with what is left in the scratch operand. -/
structure ecc_mod_arith where
  ecc_mod_pow_2k_mul : ecc_modulo → List Nat → Nat → List Nat → List Nat → List Nat × List Nat
  ecc_mod_pow_2k : ecc_modulo → List Nat → Nat → List Nat → List Nat × List Nat
  ecc_mod_sqr : ecc_modulo → List Nat → List Nat
  ecc_mod_sub : ecc_modulo → List Nat → List Nat → List Nat

/-- The caller-owned memory `ecc_192_sqrt` writes: the three temporaries carved
out of `scratch` and the result `rp`. -/
structure sqrt_mem where
  TA : List Nat
  TB : List Nat
  TC : List Nat
  rp : List Nat

/-- The statements of `ecc_192_sqrt` before the `return`, in source order, each
as an update of the memory. -/
def ecc_192_sqrt_steps (F : ecc_mod_arith) (p : ecc_modulo) (cp : List Nat) :
    List (sqrt_mem → sqrt_mem) :=
  [ fun s => let r := F.ecc_mod_pow_2k_mul p cp 1 cp s.TB; { s with TA := r.1, TB := r.2 },
    fun s => let r := F.ecc_mod_pow_2k_mul p s.TA 2 s.TA s.TC; { s with TB := r.1, TC := r.2 },
    fun s => let r := F.ecc_mod_pow_2k_mul p s.TB 4 s.TB s.TC; { s with TA := r.1, TC := r.2 },
    fun s => let r := F.ecc_mod_pow_2k_mul p s.TA 8 s.TA s.TC; { s with TB := r.1, TC := r.2 },
    fun s => let r := F.ecc_mod_pow_2k_mul p s.TB 16 s.TB s.TC; { s with TA := r.1, TC := r.2 },
    fun s => let r := F.ecc_mod_pow_2k_mul p s.TA 32 s.TA s.TC; { s with TB := r.1, TC := r.2 },
    fun s => let r := F.ecc_mod_pow_2k_mul p s.TB 64 s.TB s.TA; { s with TC := r.1, TA := r.2 },
    fun s => let r := F.ecc_mod_pow_2k p s.TC 62 s.TA; { s with rp := r.1, TA := r.2 },
    fun s => { s with TA := F.ecc_mod_sqr p s.rp },
    fun s => { s with TA := F.ecc_mod_sub p s.TA cp } ]

/-- The memory after the first `n` statements of `ecc_192_sqrt`. -/
def ecc_192_sqrt_after (n : Nat) (F : ecc_mod_arith) (p : ecc_modulo) (s : sqrt_mem)
    (cp : List Nat) : sqrt_mem :=
  ((ecc_192_sqrt_steps F p cp).take n).foldl (fun s f => f s) s

/-- `ecc_192_sqrt`: runs all statements on the memory `s` the caller passes in
and returns the final memory (with the root in `rp`) and the `int` result of
`ecc_192_zero_p (p, TA)`. -/
def ecc_192_sqrt (F : ecc_mod_arith) (p : ecc_modulo) (s : sqrt_mem) (cp : List Nat) :
    sqrt_mem × Nat :=
  let s := (ecc_192_sqrt_steps F p cp).foldl (fun s f => f s) s
  (s, ecc_192_zero_p p s.TA)

/-- An `ECC_LIMB_SIZE`-limb array of 64-bit words. -/
def field_limbs (l : List Nat) : Prop := l.length = ECC_LIMB_SIZE ∧ limbs_ok 64 l

instance (l : List Nat) : Decidable (field_limbs l) := by
  unfold field_limbs; infer_instance

/-- The assumption on the field helpers: on `ECC_LIMB_SIZE`-limb operands, and
whatever the scratch operand holds, each writes an `ECC_LIMB_SIZE`-limb result
that is congruent modulo the modulus `p->m` to `x^(2^k) * y`, `x^(2^k)`, `x^2`
and `a - b` respectively (any representative, not only the least one). -/
structure helpers_correct (F : ecc_mod_arith) (p : ecc_modulo) : Prop where
  pow_2k_mul : ∀ x k y t, field_limbs x → field_limbs y →
    field_limbs (F.ecc_mod_pow_2k_mul p x k y t).1 ∧
    limbs_val 64 (F.ecc_mod_pow_2k_mul p x k y t).1 % limbs_val 64 p.m
      = (limbs_val 64 x ^ 2 ^ k * limbs_val 64 y) % limbs_val 64 p.m
  pow_2k : ∀ x k t, field_limbs x →
    field_limbs (F.ecc_mod_pow_2k p x k t).1 ∧
    limbs_val 64 (F.ecc_mod_pow_2k p x k t).1 % limbs_val 64 p.m
      = (limbs_val 64 x ^ 2 ^ k) % limbs_val 64 p.m
  sqr : ∀ x, field_limbs x →
    field_limbs (F.ecc_mod_sqr p x) ∧
    limbs_val 64 (F.ecc_mod_sqr p x) % limbs_val 64 p.m
      = (limbs_val 64 x * limbs_val 64 x) % limbs_val 64 p.m
  sub : ∀ a b, field_limbs a → field_limbs b →
    field_limbs (F.ecc_mod_sub p a b) ∧
    (limbs_val 64 (F.ecc_mod_sub p a b) + limbs_val 64 b) % limbs_val 64 p.m
      = limbs_val 64 a % limbs_val 64 p.m

/-- Repeated squaring modulo `m`: `x ↦ x^(2^k) mod m` in `k` squarings. -/
def sqr_iter (m : Nat) : Nat → Nat → Nat
  | 0, x => x % m
  | k + 1, x => sqr_iter m k (x * x % m)

/-- Modelled from the spec: one implementation of the field helpers of
`ecc-mod-arith.c` (absent from the sources at hand), writing least residues and
leaving the scratch operand alone. -/
def canonical_arith : ecc_mod_arith where
  ecc_mod_pow_2k_mul p x k y t :=
    (to_limbs 64 ECC_LIMB_SIZE
      (sqr_iter (limbs_val 64 p.m) k (limbs_val 64 x) * limbs_val 64 y % limbs_val 64 p.m), t)
  ecc_mod_pow_2k p x k t :=
    (to_limbs 64 ECC_LIMB_SIZE (sqr_iter (limbs_val 64 p.m) k (limbs_val 64 x)), t)
  ecc_mod_sqr p x :=
    to_limbs 64 ECC_LIMB_SIZE (limbs_val 64 x * limbs_val 64 x % limbs_val 64 p.m)
  ecc_mod_sub p a b :=
    to_limbs 64 ECC_LIMB_SIZE
      ((limbs_val 64 a + (limbs_val 64 p.m - limbs_val 64 b % limbs_val 64 p.m))
        % limbs_val 64 p.m)

/-- Memory with nothing written yet. -/
def sqrt_mem_zero : sqrt_mem := { TA := [], TB := [], TC := [], rp := [] }

/-- Square-and-multiply modulo `m`, `fuel` bits of the exponent `e` from the
bottom: `acc * a^e mod m` once `e < 2^fuel`. Used to check primality
certificates. -/
def powmod_aux (m : Nat) : Nat → Nat → Nat → Nat → Nat
  | 0, _, _, acc => acc % m
  | fuel + 1, a, e, acc =>
    powmod_aux m fuel (a * a % m) (e / 2) (if e % 2 = 1 then acc * a % m else acc)

/-- `a^e mod m` for `e < 2^200`. -/
def powmod (a e m : Nat) : Nat := powmod_aux m 200 a e 1

/-! ## The assertions of `ecc_192_modp`

The reduction cut at its `assert`s: each part gives `rp` and `cy` as they are
when the assertion that follows is evaluated. -/

/-- The statements of the 64-bit `ecc_192_modp` before `assert (cy <= 2)`: the
fold from 6 to 5 limbs. -/
def ecc_192_modp_fold1 (rp : List Nat) : List Nat × Nat :=
  let a1 := mpn_add_n 64 (load rp 1 2) (load rp 4 2)
  let rp := store rp 1 a1.1
  let a2 := sec_add_1 64 (load rp 3 1) a1.2
  let rp := store rp 3 a2.1
  let a3 := mpn_add_n 64 (load rp 2 2) (load rp 4 2)
  let rp := store rp 2 a3.1
  (rp, (a2.2 + a3.2) % 2 ^ 64)

/-- The statements of the 64-bit `ecc_192_modp` between `assert (cy <= 2)` and
`assert (cy <= 1)`: `rp[4] = cy` and the fold from 5 to 4 limbs. -/
def ecc_192_modp_fold2 (rp : List Nat) (cy : Nat) : List Nat × Nat :=
  let rp := store rp 4 [cy]
  let b1 := mpn_add_n 64 (load rp 0 2) (load rp 3 2)
  let rp := store rp 0 b1.1
  let b2 := sec_add_1 64 (load rp 2 1) b1.2
  let rp := store rp 2 b2.1
  let b3 := mpn_add_n 64 (load rp 1 2) (load rp 3 2)
  let rp := store rp 1 b3.1
  (rp, (b2.2 + b3.2) % 2 ^ 64)

/-- The statement `cy = cnd_add_n (cy, rp, ecc_Bmodp, 3)` of the 64-bit
`ecc_192_modp`, before `assert (cy == 0)`. -/
def ecc_192_modp_final (rp : List Nat) (cy : Nat) : List Nat × Nat :=
  let c := cnd_add_n 64 cy (load rp 0 3) ecc_Bmodp
  (store rp 0 c.1, c.2)

/-- The statements of the 32-bit `ecc_192_modp` before `assert (cy <= 2)`: the
fold from 12 to 9 limbs. -/
def ecc_192_modp32_fold1 (rp : List Nat) : List Nat × Nat :=
  let a1 := mpn_add_n 32 (load rp 2 4) (load rp 8 4)
  let rp := store rp 2 a1.1
  let a2 := sec_add_1 32 (load rp 6 2) a1.2
  let rp := store rp 6 a2.1
  let a3 := mpn_add_n 32 (load rp 4 4) (load rp 8 4)
  let rp := store rp 4 a3.1
  (rp, (a2.2 + a3.2) % 2 ^ 32)

/-- The statements of the 32-bit `ecc_192_modp` between `assert (cy <= 2)` and
`assert (cy <= 1)`: `rp[8] = cy` and the fold from 9 to 6 limbs, ending with
the carry out of limb 5. -/
def ecc_192_modp32_fold2 (rp : List Nat) (cy : Nat) : List Nat × Nat :=
  let rp := store rp 8 [cy]
  let b1 := mpn_add_n 32 (load rp 0 3) (load rp 6 3)
  let rp := store rp 0 b1.1
  let b2 := sec_add_1 32 (load rp 3 2) b1.2
  let rp := store rp 3 b2.1
  let b3 := mpn_add_n 32 (load rp 2 3) (load rp 6 3)
  let rp := store rp 2 b3.1
  let cy := (b2.2 + b3.2) % 2 ^ 32
  let b4 := sec_add_1 32 (load rp 5 1) cy
  let rp := store rp 5 b4.1
  (rp, b4.2)

/-- The statement `cy = cnd_add_n (cy, rp, ecc_Bmodp, 6)` of the 32-bit
`ecc_192_modp`, before `assert (cy == 0)`. -/
def ecc_192_modp32_final (rp : List Nat) (cy : Nat) : List Nat × Nat :=
  let c := cnd_add_n 32 cy (load rp 0 6) ecc_Bmodp32
  (store rp 0 c.1, c.2)

/-- The 64-bit `ecc_192_modp` at `assert (cy <= 1)`: `rp` and `cy` after both
folds. -/
def ecc_192_modp_at_assert2 (rp : List Nat) : List Nat × Nat :=
  ecc_192_modp_fold2 (ecc_192_modp_fold1 rp).1 (ecc_192_modp_fold1 rp).2

/-- The 64-bit `ecc_192_modp` at `assert (cy == 0)`: `rp` and `cy` after the
conditional add. -/
def ecc_192_modp_at_assert3 (rp : List Nat) : List Nat × Nat :=
  ecc_192_modp_final (ecc_192_modp_at_assert2 rp).1 (ecc_192_modp_at_assert2 rp).2

/-- The 32-bit `ecc_192_modp` at `assert (cy <= 1)`. -/
def ecc_192_modp32_at_assert2 (rp : List Nat) : List Nat × Nat :=
  ecc_192_modp32_fold2 (ecc_192_modp32_fold1 rp).1 (ecc_192_modp32_fold1 rp).2

/-- The 32-bit `ecc_192_modp` at `assert (cy == 0)`. -/
def ecc_192_modp32_at_assert3 (rp : List Nat) : List Nat × Nat :=
  ecc_192_modp32_final (ecc_192_modp32_at_assert2 rp).1 (ecc_192_modp32_at_assert2 rp).2

/-- The five-limb integer in `rp[0..4]` after the first fold of the 64-bit
`ecc_192_modp` and `rp[4] = cy`. -/
def first_fold_value (rp : List Nat) : Nat :=
  limbs_val 64 ((store (ecc_192_modp_fold1 rp).1 4 [(ecc_192_modp_fold1 rp).2]).take 5)

/-- The exact integer after the second fold, in the words of the description:
the low 192 bits of the first-fold result plus `2^64 + 1` times its bits above
bit 192. -/
def second_fold_value (rp : List Nat) : Nat :=
  first_fold_value rp % 2 ^ 192 + (2 ^ 64 + 1) * (first_fold_value rp / 2 ^ 192)

/-! ## The curve descriptor -/

/-- The two `struct ecc_modulo` members at the head of `struct ecc_curve`. -/
structure ecc_curve where
  p : ecc_modulo
  q : ecc_modulo

/-- The initialiser `_nettle_secp_192r1`, as far as `struct ecc_modulo` is
modelled: both moduli get bit size `192` and limb count `ECC_LIMB_SIZE`. The
macro `ECC_LIMB_SIZE` and the limb tables `ecc_p`, `ecc_q` come from the
generated header `ecc-192.h` and are parameters here. -/
def _nettle_secp_192r1 (limb_size : Nat) (p_limbs q_limbs : List Nat) : ecc_curve :=
  { p := { bit_size := 192, size := limb_size, m := p_limbs },
    q := { bit_size := 192, size := limb_size, m := q_limbs } }

/-! ## The execution path of `ecc_192_sqrt`

An instrumented copy of `ecc_192_sqrt`: every statement appends to a log the
call it makes and the field operations the helper reports for that call. The
helpers report what they did on the operands they were given, so a log may
depend on the data; whether it does is what is to be proved. -/

/-- The operands of the helper calls in `ecc_192_sqrt`. -/
inductive sqrt_reg where
  | TA
  | TB
  | TC
  | rp
  | cp
  deriving DecidableEq

/-- One call made by `ecc_192_sqrt`, with its operands in the order of the C
argument list (destination first, then sources, `k`, scratch). -/
inductive sqrt_call where
  | pow_2k_mul (r x : sqrt_reg) (k : Nat) (y t : sqrt_reg)
  | pow_2k (r x : sqrt_reg) (k : Nat) (t : sqrt_reg)
  | sqr (r x : sqrt_reg)
  | sub (r a b : sqrt_reg)
  | zero_p (x : sqrt_reg)
  deriving DecidableEq

/-- A field operation done inside a helper. -/
inductive field_op where
  | sqr
  | mul
  | sub
  deriving DecidableEq

/-- What is observable of one run: a call made by `ecc_192_sqrt`, a field
operation reported by the helper called, or iteration `i` of the loop of
`ecc_192_zero_p`. -/
inductive sqrt_event where
  | call (c : sqrt_call)
  | op (o : field_op)
  | limb (i : Nat)
  deriving DecidableEq

/-- The field helpers of `ecc-mod-arith.c` together with the field operations
each call performs, in order. The operations reported are a function of all the
arguments, operands included: nothing here makes a helper constant-time. -/
structure ecc_mod_arith_traced where
  ecc_mod_pow_2k_mul : ecc_modulo → List Nat → Nat → List Nat → List Nat →
    (List Nat × List Nat) × List field_op
  ecc_mod_pow_2k : ecc_modulo → List Nat → Nat → List Nat →
    (List Nat × List Nat) × List field_op
  ecc_mod_sqr : ecc_modulo → List Nat → List Nat × List field_op
  ecc_mod_sub : ecc_modulo → List Nat → List Nat → List Nat × List field_op

/-- The helpers without their reports. -/
def ecc_mod_arith_traced.values (T : ecc_mod_arith_traced) : ecc_mod_arith where
  ecc_mod_pow_2k_mul p x k y t := (T.ecc_mod_pow_2k_mul p x k y t).1
  ecc_mod_pow_2k p x k t := (T.ecc_mod_pow_2k p x k t).1
  ecc_mod_sqr p x := (T.ecc_mod_sqr p x).1
  ecc_mod_sub p a b := (T.ecc_mod_sub p a b).1

/-- The memory `ecc_192_sqrt` writes, and the log of the run so far. -/
structure sqrt_run where
  mem : sqrt_mem
  log : List sqrt_event

/-- `ecc_192_zero_p` with a log: one entry per iteration of its loop. -/
def ecc_192_zero_p_traced (p : ecc_modulo) (rp : List Nat) : Nat × List sqrt_event :=
  let acc := (List.range ECC_LIMB_SIZE).foldl
    (fun (acc : (Nat × Nat) × List sqrt_event) i =>
      ((acc.1.1 ||| rp.getD i 0, acc.1.2 ||| (rp.getD i 0 ^^^ p.m.getD i 0)),
        acc.2 ++ [sqrt_event.limb i])) ((0, 0), [])
  ((if acc.1.1 = 0 then 1 else 0) ||| (if acc.1.2 = 0 then 1 else 0), acc.2)

/-- The statements of `ecc_192_sqrt` before the `return`, in source order, each
as an update of memory and log: the call is logged, then what the helper
reports for the operands it was actually given. -/
def ecc_192_sqrt_traced_steps (T : ecc_mod_arith_traced) (p : ecc_modulo) (cp : List Nat) :
    List (sqrt_run → sqrt_run) :=
  [ fun r => let o := T.ecc_mod_pow_2k_mul p cp 1 cp r.mem.TB
      { mem := { r.mem with TA := o.1.1, TB := o.1.2 },
        log := r.log ++ sqrt_event.call (.pow_2k_mul .TA .cp 1 .cp .TB)
          :: o.2.map sqrt_event.op },
    fun r => let o := T.ecc_mod_pow_2k_mul p r.mem.TA 2 r.mem.TA r.mem.TC
      { mem := { r.mem with TB := o.1.1, TC := o.1.2 },
        log := r.log ++ sqrt_event.call (.pow_2k_mul .TB .TA 2 .TA .TC)
          :: o.2.map sqrt_event.op },
    fun r => let o := T.ecc_mod_pow_2k_mul p r.mem.TB 4 r.mem.TB r.mem.TC
      { mem := { r.mem with TA := o.1.1, TC := o.1.2 },
        log := r.log ++ sqrt_event.call (.pow_2k_mul .TA .TB 4 .TB .TC)
          :: o.2.map sqrt_event.op },
    fun r => let o := T.ecc_mod_pow_2k_mul p r.mem.TA 8 r.mem.TA r.mem.TC
      { mem := { r.mem with TB := o.1.1, TC := o.1.2 },
        log := r.log ++ sqrt_event.call (.pow_2k_mul .TB .TA 8 .TA .TC)
          :: o.2.map sqrt_event.op },
    fun r => let o := T.ecc_mod_pow_2k_mul p r.mem.TB 16 r.mem.TB r.mem.TC
      { mem := { r.mem with TA := o.1.1, TC := o.1.2 },
        log := r.log ++ sqrt_event.call (.pow_2k_mul .TA .TB 16 .TB .TC)
          :: o.2.map sqrt_event.op },
    fun r => let o := T.ecc_mod_pow_2k_mul p r.mem.TA 32 r.mem.TA r.mem.TC
      { mem := { r.mem with TB := o.1.1, TC := o.1.2 },
        log := r.log ++ sqrt_event.call (.pow_2k_mul .TB .TA 32 .TA .TC)
          :: o.2.map sqrt_event.op },
    fun r => let o := T.ecc_mod_pow_2k_mul p r.mem.TB 64 r.mem.TB r.mem.TA
      { mem := { r.mem with TC := o.1.1, TA := o.1.2 },
        log := r.log ++ sqrt_event.call (.pow_2k_mul .TC .TB 64 .TB .TA)
          :: o.2.map sqrt_event.op },
    fun r => let o := T.ecc_mod_pow_2k p r.mem.TC 62 r.mem.TA
      { mem := { r.mem with rp := o.1.1, TA := o.1.2 },
        log := r.log ++ sqrt_event.call (.pow_2k .rp .TC 62 .TA) :: o.2.map sqrt_event.op },
    fun r => let o := T.ecc_mod_sqr p r.mem.rp
      { mem := { r.mem with TA := o.1 },
        log := r.log ++ sqrt_event.call (.sqr .TA .rp) :: o.2.map sqrt_event.op },
    fun r => let o := T.ecc_mod_sub p r.mem.TA cp
      { mem := { r.mem with TA := o.1 },
        log := r.log ++ sqrt_event.call (.sub .TA .TA .cp) :: o.2.map sqrt_event.op } ]

/-- Memory and log after the first `n` statements. -/
def ecc_192_sqrt_traced_after (n : Nat) (T : ecc_mod_arith_traced) (p : ecc_modulo)
    (s : sqrt_mem) (cp : List Nat) : sqrt_run :=
  ((ecc_192_sqrt_traced_steps T p cp).take n).foldl (fun r f => f r) { mem := s, log := [] }

/-- The instrumented `ecc_192_sqrt`: final memory, returned `int`, and the log
of the whole run, the `return ecc_192_zero_p (p, TA)` included. -/
def ecc_192_sqrt_traced (T : ecc_mod_arith_traced) (p : ecc_modulo) (s : sqrt_mem)
    (cp : List Nat) : (sqrt_mem × Nat) × List sqrt_event :=
  let r := (ecc_192_sqrt_traced_steps T p cp).foldl (fun r f => f r) { mem := s, log := [] }
  let z := ecc_192_zero_p_traced p r.mem.TA
  ((r.mem, z.1), r.log ++ sqrt_event.call (.zero_p .TA) :: z.2)

/-- The calls in a log, in order. -/
def calls_of : List sqrt_event → List sqrt_call
  | [] => []
  | .call c :: l => c :: calls_of l
  | _ :: l => calls_of l

/-- The field operations in a log, in order. -/
def ops_of : List sqrt_event → List field_op
  | [] => []
  | .op o :: l => o :: ops_of l
  | _ :: l => ops_of l

/-- The assumption that the helpers are constant-time: the operations a call
performs depend on the modulus and on `k` only, not on the operands or on the
contents of the scratch operand. -/
structure helpers_constant_time (T : ecc_mod_arith_traced) (p : ecc_modulo) : Prop where
  pow_2k_mul : ∀ k x y t x' y' t',
    (T.ecc_mod_pow_2k_mul p x k y t).2 = (T.ecc_mod_pow_2k_mul p x' k y' t').2
  pow_2k : ∀ k x t x' t', (T.ecc_mod_pow_2k p x k t).2 = (T.ecc_mod_pow_2k p x' k t').2
  sqr : ∀ x x', (T.ecc_mod_sqr p x).2 = (T.ecc_mod_sqr p x').2
  sub : ∀ a b a' b', (T.ecc_mod_sub p a b).2 = (T.ecc_mod_sub p a' b').2

/-- Modelled from the spec: what the helpers of `ecc-mod-arith.c` (absent from
the sources at hand) do in field operations: `ecc_mod_pow_2k_mul` squares `k`
times and multiplies once, `ecc_mod_pow_2k` squares `k` times, `ecc_mod_sqr`
squares once, `ecc_mod_sub` subtracts once. -/
structure helpers_as_described (T : ecc_mod_arith_traced) (p : ecc_modulo) : Prop where
  pow_2k_mul : ∀ x k y t,
    (T.ecc_mod_pow_2k_mul p x k y t).2 = List.replicate k field_op.sqr ++ [field_op.mul]
  pow_2k : ∀ x k t, (T.ecc_mod_pow_2k p x k t).2 = List.replicate k field_op.sqr
  sqr : ∀ x, (T.ecc_mod_sqr p x).2 = [field_op.sqr]
  sub : ∀ a b, (T.ecc_mod_sub p a b).2 = [field_op.sub]

/-- Repeated squaring modulo `m` that logs each squaring as it is done. -/
def sqr_iter_traced (m : Nat) : Nat → Nat → Nat × List field_op
  | 0, x => (x % m, [])
  | k + 1, x =>
    let r := sqr_iter_traced m k (x * x % m)
    (r.1, field_op.sqr :: r.2)

/-- Modelled from the spec: the reference helpers `canonical_arith` with the
field operations they perform logged as they are done. -/
def canonical_traced : ecc_mod_arith_traced where
  ecc_mod_pow_2k_mul p x k y t :=
    let a := sqr_iter_traced (limbs_val 64 p.m) k (limbs_val 64 x)
    ((to_limbs 64 ECC_LIMB_SIZE (a.1 * limbs_val 64 y % limbs_val 64 p.m), t),
      a.2 ++ [field_op.mul])
  ecc_mod_pow_2k p x k t :=
    let a := sqr_iter_traced (limbs_val 64 p.m) k (limbs_val 64 x)
    ((to_limbs 64 ECC_LIMB_SIZE a.1, t), a.2)
  ecc_mod_sqr p x :=
    (to_limbs 64 ECC_LIMB_SIZE (limbs_val 64 x * limbs_val 64 x % limbs_val 64 p.m),
      [field_op.sqr])
  ecc_mod_sub p a b :=
    (to_limbs 64 ECC_LIMB_SIZE
      ((limbs_val 64 a + (limbs_val 64 p.m - limbs_val 64 b % limbs_val 64 p.m))
        % limbs_val 64 p.m), [field_op.sub])

/-- Helpers with the values of `canonical_traced` whose squaring takes a
different path on even and on odd operands: an example of helpers that are not
constant-time. -/
def leaky_traced : ecc_mod_arith_traced where
  ecc_mod_pow_2k_mul := canonical_traced.ecc_mod_pow_2k_mul
  ecc_mod_pow_2k := canonical_traced.ecc_mod_pow_2k
  ecc_mod_sqr p x :=
    ((canonical_traced.ecc_mod_sqr p x).1,
      if limbs_val 64 x % 2 = 1 then [field_op.sqr] else [field_op.sqr, field_op.mul])
  ecc_mod_sub := canonical_traced.ecc_mod_sub

/-- A variant of `ecc_192_sqrt` that is NOT the source: after statement [7] it
computes the candidate in `TB`, checks it, and calls `ecc_mod_pow_2k` to write
`rp` only when the check succeeds. It is here to show that the log tells such a
program from the real one. -/
def sqrt_early_exit_traced (T : ecc_mod_arith_traced) (p : ecc_modulo) (s : sqrt_mem)
    (cp : List Nat) : (sqrt_mem × Nat) × List sqrt_event :=
  let r := ecc_192_sqrt_traced_after 7 T p s cp
  let o := T.ecc_mod_pow_2k p r.mem.TC 62 r.mem.TA
  let q := T.ecc_mod_sqr p o.1.1
  let d := T.ecc_mod_sub p q.1 cp
  let z := ecc_192_zero_p_traced p d.1
  let log := r.log ++ sqrt_event.call (.pow_2k .TB .TC 62 .TA) :: o.2.map sqrt_event.op
    ++ sqrt_event.call (.sqr .TA .TB) :: q.2.map sqrt_event.op
    ++ sqrt_event.call (.sub .TA .TA .cp) :: d.2.map sqrt_event.op
    ++ sqrt_event.call (.zero_p .TA) :: z.2
  if z.1 = 1 then
    let w := T.ecc_mod_pow_2k p r.mem.TC 62 d.1
    (({ r.mem with rp := w.1.1, TB := o.1.1, TA := w.1.2 }, 1),
      log ++ sqrt_event.call (.pow_2k .rp .TC 62 .TA) :: w.2.map sqrt_event.op)
  else (({ r.mem with TB := o.1.1, TA := d.1 }, 0), log)

/-! ## Carry propagation -/

theorem mpn_add_n_aux_spec (w : Nat) : ∀ (a b : List Nat) (cy : Nat), a.length = b.length →
    limbs_ok w a → limbs_ok w b → cy ≤ 1 →
    (mpn_add_n_aux w a b cy).1.length = a.length ∧ limbs_ok w (mpn_add_n_aux w a b cy).1 ∧
    (mpn_add_n_aux w a b cy).2 ≤ 1 ∧
    limbs_val w (mpn_add_n_aux w a b cy).1 + 2 ^ (w * a.length) * (mpn_add_n_aux w a b cy).2
      = limbs_val w a + limbs_val w b + cy := by
  intro a
  induction a with
  | nil =>
    intro b cy hl _ _ hcy
    cases b with
    | nil => simp [mpn_add_n_aux, limbs_val, limbs_ok, hcy]
    | cons y ys => simp at hl
  | cons x xs ih =>
    intro b cy hl ha hb hcy
    cases b with
    | nil => simp at hl
    | cons y ys =>
      have hx : x < 2 ^ w := ha x (by simp)
      have hy : y < 2 ^ w := hb y (by simp)
      have hpos : 0 < 2 ^ w := Nat.two_pow_pos w
      have hc : (x + y + cy) / 2 ^ w ≤ 1 := by
        have : x + y + cy < 2 * 2 ^ w := by omega
        have := (Nat.div_lt_iff_lt_mul hpos).2 this
        omega
      have hxs : limbs_ok w xs := fun z hz => ha z (by simp [hz])
      have hys : limbs_ok w ys := fun z hz => hb z (by simp [hz])
      obtain ⟨h1, h2, h3, h4⟩ := ih ys ((x + y + cy) / 2 ^ w) (by simpa using hl) hxs hys hc
      refine ⟨by simp [mpn_add_n_aux, h1], ?_, by simpa [mpn_add_n_aux] using h3, ?_⟩
      · intro z hz
        simp only [mpn_add_n_aux, List.mem_cons] at hz
        rcases hz with rfl | hz
        · exact Nat.mod_lt _ hpos
        · exact h2 z hz
      · simp only [mpn_add_n_aux, limbs_val, List.length_cons]
        have hm := Nat.mod_add_div (x + y + cy) (2 ^ w)
        have e : 2 ^ (w * (xs.length + 1)) = 2 ^ w * 2 ^ (w * xs.length) := by
          rw [Nat.mul_succ, Nat.pow_add, Nat.mul_comm]
        rw [e]
        linear_combination hm + 2 ^ w * h4

theorem sec_add_1_spec (w : Nat) : ∀ (a : List Nat) (b : Nat), limbs_ok w a → b < 2 ^ w →
    (sec_add_1 w a b).1.length = a.length ∧ limbs_ok w (sec_add_1 w a b).1 ∧
    (a ≠ [] → (sec_add_1 w a b).2 ≤ 1) ∧
    limbs_val w (sec_add_1 w a b).1 + 2 ^ (w * a.length) * (sec_add_1 w a b).2
      = limbs_val w a + b := by
  intro a
  induction a with
  | nil => intro b _ _; simp [sec_add_1, limbs_val, limbs_ok]
  | cons x xs ih =>
    intro b ha hb
    have hx : x < 2 ^ w := ha x (by simp)
    have hpos : 0 < 2 ^ w := Nat.two_pow_pos w
    have hxs : limbs_ok w xs := fun z hz => ha z (by simp [hz])
    have hc1 : (if (x + b) % 2 ^ w < b then 1 else 0) ≤ 1 := by split <;> omega
    have hc : (if (x + b) % 2 ^ w < b then 1 else 0) < 2 ^ w := by
      have : 1 < 2 ^ w ∨ w = 0 := by
        rcases Nat.eq_zero_or_pos w with h | h
        · exact Or.inr h
        · exact Or.inl (Nat.one_lt_two_pow (by omega))
      rcases this with h | h
      · omega
      · subst h; simp at hx hb ⊢; omega
    obtain ⟨h1, h2, h3, h4⟩ := ih (if (x + b) % 2 ^ w < b then 1 else 0) hxs hc
    have hcar : (x + b) % 2 ^ w + 2 ^ w * (if (x + b) % 2 ^ w < b then 1 else 0) = x + b := by
      have hm := Nat.mod_add_div (x + b) (2 ^ w)
      have hd : (x + b) / 2 ^ w ≤ 1 := by
        have : x + b < 2 * 2 ^ w := by omega
        have := (Nat.div_lt_iff_lt_mul hpos).2 this
        omega
      rcases Nat.lt_or_ge (x + b) (2 ^ w) with hlt | hge
      · rw [Nat.mod_eq_of_lt hlt]
        have : ¬ x + b < b := by omega
        simp [this]
      · have hd1 : (x + b) / 2 ^ w = 1 := by
          have : 1 ≤ (x + b) / 2 ^ w := (Nat.one_le_div_iff hpos).2 hge
          omega
        rw [hd1] at hm
        have : (x + b) % 2 ^ w < b := by omega
        simp [this]; omega
    refine ⟨by simp [sec_add_1, h1], ?_, ?_, ?_⟩
    · intro z hz
      simp only [sec_add_1, List.mem_cons] at hz
      rcases hz with rfl | hz
      · exact Nat.mod_lt _ hpos
      · exact h2 z hz
    · intro _
      simp only [sec_add_1]
      cases xs with
      | nil => simpa [sec_add_1] using hc1
      | cons y ys => exact h3 (by simp)
    · simp only [sec_add_1, limbs_val, List.length_cons]
      have e : 2 ^ (w * (xs.length + 1)) = 2 ^ w * 2 ^ (w * xs.length) := by
        rw [Nat.mul_succ, Nat.pow_add, Nat.mul_comm]
      rw [e]
      linear_combination hcar + 2 ^ w * h4


theorem add64_2 (a b c d : Nat) (ha : a < 2 ^ 64) (hb : b < 2 ^ 64) (hc : c < 2 ^ 64)
    (hd : d < 2 ^ 64) : ∃ x y cy, mpn_add_n 64 [a, b] [c, d] = ([x, y], cy) ∧ x < 2 ^ 64 ∧
      y < 2 ^ 64 ∧ cy ≤ 1 ∧ x + 2 ^ 64 * y + 2 ^ 128 * cy = a + 2 ^ 64 * b + (c + 2 ^ 64 * d) := by
  refine ⟨_, _, _, rfl, ?_, ?_, ?_, ?_⟩ <;> (try simp only [mpn_add_n, mpn_add_n_aux]) <;> omega

theorem add64_3 (a b c d e f : Nat) (ha : a < 2 ^ 64) (hb : b < 2 ^ 64) (hc : c < 2 ^ 64)
    (hd : d < 2 ^ 64) (he : e < 2 ^ 64) (hf : f < 2 ^ 64) :
    ∃ x y z cy, mpn_add_n 64 [a, b, c] [d, e, f] = ([x, y, z], cy) ∧ x < 2 ^ 64 ∧
      y < 2 ^ 64 ∧ z < 2 ^ 64 ∧ cy ≤ 1 ∧
      x + 2 ^ 64 * y + 2 ^ 128 * z + 2 ^ 192 * cy
        = a + 2 ^ 64 * b + 2 ^ 128 * c + (d + 2 ^ 64 * e + 2 ^ 128 * f) := by
  refine ⟨_, _, _, _, rfl, ?_, ?_, ?_, ?_, ?_⟩ <;> (try simp only [mpn_add_n, mpn_add_n_aux]) <;> omega

theorem sec64_1 (a b : Nat) (ha : a < 2 ^ 64) (hb : b < 2 ^ 64) :
    ∃ x cy, sec_add_1 64 [a] b = ([x], cy) ∧ x < 2 ^ 64 ∧ cy ≤ 1 ∧
      x + 2 ^ 64 * cy = a + b := by
  refine ⟨_, _, rfl, ?_, ?_, ?_⟩ <;> (try simp only [sec_add_1])
  · omega
  · split <;> omega
  · split <;> omega



theorem fold1_val (a0 a1 a2 a3 a4 a5 x1 x2 x3 y2 y3 c1 c2 c3 : Nat)
    (v1 : x1 + 2 ^ 64 * x2 + 2 ^ 128 * c1 = a1 + 2 ^ 64 * a2 + (a4 + 2 ^ 64 * a5))
    (v2 : x3 + 2 ^ 64 * c2 = a3 + c1)
    (v3 : y2 + 2 ^ 64 * y3 + 2 ^ 128 * c3 = x2 + 2 ^ 64 * x3 + (a4 + 2 ^ 64 * a5)) :
    a0 + 2 ^ 64 * x1 + 2 ^ 128 * y2 + 2 ^ 192 * (y3 + 2 ^ 64 * (c2 + c3))
      = a0 + 2 ^ 64 * a1 + 2 ^ 128 * a2 + 2 ^ 192 * a3 + (a4 + 2 ^ 64 * a5) * (2 ^ 128 + 2 ^ 64) := by
  omega

theorem fold2_val (a0 x1 y2 y3 cy z0 z1 z2 u1 u2 d1 d2 d3 : Nat)
    (w1 : z0 + 2 ^ 64 * z1 + 2 ^ 128 * d1 = a0 + 2 ^ 64 * x1 + (y3 + 2 ^ 64 * cy))
    (w2 : z2 + 2 ^ 64 * d2 = y2 + d1)
    (w3 : u1 + 2 ^ 64 * u2 + 2 ^ 128 * d3 = z1 + 2 ^ 64 * z2 + (y3 + 2 ^ 64 * cy)) :
    z0 + 2 ^ 64 * u1 + 2 ^ 128 * u2 + 2 ^ 192 * (d2 + d3)
      = a0 + 2 ^ 64 * x1 + 2 ^ 128 * y2 + (y3 + 2 ^ 64 * cy) * (2 ^ 64 + 1) := by
  omega

theorem fold2_carry (z0 u1 u2 d a0 x1 y2 y3 cy : Nat) (h0 : a0 < 2 ^ 64) (h1 : x1 < 2 ^ 64)
    (h2 : y2 < 2 ^ 64) (h3 : y3 < 2 ^ 64) (hc : cy ≤ 2)
    (tot : z0 + 2 ^ 64 * u1 + 2 ^ 128 * u2 + 2 ^ 192 * d
      = a0 + 2 ^ 64 * x1 + 2 ^ 128 * y2 + (y3 + 2 ^ 64 * cy) * (2 ^ 64 + 1)) : d ≤ 1 := by
  omega

/-- The value-level description of the two folds and the final carry-selected add. -/
theorem fold192_eq (L H lo hi r : Nat) (d : Nat) (hL : L < 2 ^ 256) (hlo : lo < 2 ^ 192)
    (hV1 : lo + 2 ^ 192 * hi = L + H * (2 ^ 128 + 2 ^ 64))
    (hr : r < 2 ^ 192) (hd : d ≤ 1)
    (hV2 : r + 2 ^ 192 * d = lo + hi * (2 ^ 64 + 1)) :
    (if d = 0 then r else r + (2 ^ 64 + 1)) = fold192 (L + 2 ^ 256 * H) := by
  have e1 : (L + 2 ^ 256 * H) % 2 ^ 256 = L := by omega
  have e2 : (L + 2 ^ 256 * H) / 2 ^ 256 = H := by omega
  have e3 : (L + H * (2 ^ 128 + 2 ^ 64)) % 2 ^ 192 = lo := by omega
  have e4 : (L + H * (2 ^ 128 + 2 ^ 64)) / 2 ^ 192 = hi := by omega
  simp only [fold192, e1, e2, e3, e4, p192]
  split <;> split <;> omega

theorem val3_lt (a b c : Nat) (ha : a < 2 ^ 64) (hb : b < 2 ^ 64) (hc : c < 2 ^ 64) :
    a + 2 ^ 64 * b + 2 ^ 128 * c < 2 ^ 192 := by omega

theorem val4_lt (a b c d : Nat) (ha : a < 2 ^ 64) (hb : b < 2 ^ 64) (hc : c < 2 ^ 64)
    (hd : d < 2 ^ 64) : a + 2 ^ 64 * b + 2 ^ 128 * c + 2 ^ 192 * d < 2 ^ 256 := by omega

theorem carry_sum_lt (c d : Nat) (hc : c ≤ 1) (hd : d ≤ 1) : c + d < 2 ^ 64 := by omega

theorem carry_lt (c : Nat) (hc : c ≤ 1) : c < 2 ^ 64 := by omega

theorem final_carry (z0 u1 u2 r0 r1 r2 c4 lo hi : Nat) (hlo : lo < 2 ^ 192) (hhi : hi < 3 * 2 ^ 64)
    (V2 : z0 + 2 ^ 64 * u1 + 2 ^ 128 * u2 + 2 ^ 192 * 1 = lo + hi * (2 ^ 64 + 1))
    (w4 : r0 + 2 ^ 64 * r1 + 2 ^ 128 * r2 + 2 ^ 192 * c4
        = z0 + 2 ^ 64 * u1 + 2 ^ 128 * u2 + (1 + 2 ^ 64 * 1 + 2 ^ 128 * 0)) :
    c4 = 0 ∧ r0 + 2 ^ 64 * r1 + 2 ^ 128 * r2 = z0 + 2 ^ 64 * u1 + 2 ^ 128 * u2 + (2 ^ 64 + 1) := by
  omega

theorem hi_lt (y3 cy : Nat) (h : y3 < 2 ^ 64) (hc : cy ≤ 2) : y3 + 2 ^ 64 * cy < 3 * 2 ^ 64 := by
  omega

theorem modp64_limbs (a0 a1 a2 a3 a4 a5 : Nat) (h0 : a0 < 2 ^ 64) (h1 : a1 < 2 ^ 64)
    (h2 : a2 < 2 ^ 64) (h3 : a3 < 2 ^ 64) (h4 : a4 < 2 ^ 64) (h5 : a5 < 2 ^ 64) :
    ∃ r0 r1 r2 t3 t4, ecc_192_modp [a0, a1, a2, a3, a4, a5] = some [r0, r1, r2, t3, t4, a5] ∧
      r0 < 2 ^ 64 ∧ r1 < 2 ^ 64 ∧ r2 < 2 ^ 64 ∧ t3 < 2 ^ 64 ∧ t4 ≤ 2 ∧
      r0 + 2 ^ 64 * r1 + 2 ^ 128 * r2
        = fold192 (a0 + 2 ^ 64 * a1 + 2 ^ 128 * a2 + 2 ^ 192 * a3 + 2 ^ 256 * (a4 + 2 ^ 64 * a5)) := by
  obtain ⟨x1, x2, c1, e1, hx1, hx2, hc1, v1⟩ := add64_2 a1 a2 a4 a5 h1 h2 h4 h5
  obtain ⟨x3, c2, e2, hx3, hc2, v2⟩ := sec64_1 a3 c1 h3 (carry_lt c1 hc1)
  obtain ⟨y2, y3, c3, e3, hy2, hy3, hc3, v3⟩ := add64_2 x2 x3 a4 a5 hx2 hx3 h4 h5
  have hcy : (c2 + c3) % 2 ^ 64 = c2 + c3 := Nat.mod_eq_of_lt (carry_sum_lt c2 c3 hc2 hc3)
  have hcy2 : c2 + c3 ≤ 2 := Nat.add_le_add hc2 hc3
  obtain ⟨z0, z1, d1, f1, hz0, hz1, hd1, w1⟩ :=
    add64_2 a0 x1 y3 (c2 + c3) h0 hx1 hy3 (carry_sum_lt c2 c3 hc2 hc3)
  obtain ⟨z2, d2, f2, hz2, hd2, w2⟩ := sec64_1 y2 d1 hy2 (carry_lt d1 hd1)
  obtain ⟨u1, u2, d3, f3, hu1, hu2, hd3, w3⟩ :=
    add64_2 z1 z2 y3 (c2 + c3) hz1 hz2 hy3 (carry_sum_lt c2 c3 hc2 hc3)
  have V1 := fold1_val a0 a1 a2 a3 a4 a5 x1 x2 x3 y2 y3 c1 c2 c3 v1 v2 v3
  have V2 := fold2_val a0 x1 y2 y3 (c2 + c3) z0 z1 z2 u1 u2 d1 d2 d3 w1 w2 w3
  have hdy1 : d2 + d3 ≤ 1 :=
    fold2_carry z0 u1 u2 (d2 + d3) a0 x1 y2 y3 (c2 + c3) h0 hx1 hy2 hy3 hcy2 V2
  have hdy : (d2 + d3) % 2 ^ 64 = d2 + d3 := Nat.mod_eq_of_lt (carry_sum_lt d2 d3 hd2 hd3)
  have hL := val4_lt a0 a1 a2 a3 h0 h1 h2 h3
  have hlo := val3_lt a0 x1 y2 h0 hx1 hy2
  have hr := val3_lt z0 u1 u2 hz0 hu1 hu2
  have F := fold192_eq _ (a4 + 2 ^ 64 * a5) _ (y3 + 2 ^ 64 * (c2 + c3)) _ (d2 + d3) hL hlo V1 hr hdy1 V2
  have pre : ecc_192_modp [a0, a1, a2, a3, a4, a5]
      = (let c := cnd_add_n 64 (d2 + d3) [z0, u1, u2] ecc_Bmodp
         if c.2 = 0 then some (store [z0, u1, u2, y3, c2 + c3, a5] 0 c.1) else none) := by
    simp only [ecc_192_modp, load, store, List.drop_succ_cons, List.drop_zero, List.take_succ_cons,
      List.take_zero, List.take_nil, List.drop_nil, List.cons_append, List.nil_append,
      List.length_cons, List.length_nil, List.append_nil, e1, e2, e3, hcy, hcy2, f1, f2, f3, hdy,
      hdy1, if_true, Nat.reduceAdd]
  rw [pre]
  rcases Nat.eq_zero_or_pos (d2 + d3) with hz | hp
  · rw [hz] at F ⊢
    refine ⟨z0, u1, u2, y3, c2 + c3, ?_, hz0, hu1, hu2, hy3, hcy2, ?_⟩
    · simp [cnd_add_n, store]
    · simpa using F
  · have hone : d2 + d3 = 1 := Nat.le_antisymm hdy1 hp
    rw [hone] at F V2 ⊢
    obtain ⟨r0, r1, r2, c4, g, hr0, hr1, hr2, hc4, w4⟩ := add64_3 z0 u1 u2 1 1 0 hz0 hu1 hu2
      (by norm_num) (by norm_num) (by norm_num)
    obtain ⟨hc40, hv⟩ := final_carry z0 u1 u2 r0 r1 r2 c4 _ _ hlo (hi_lt y3 _ hy3 hcy2) V2 w4
    subst hc40
    refine ⟨r0, r1, r2, y3, c2 + c3, ?_, hr0, hr1, hr2, hy3, hcy2, ?_⟩
    · simp [cnd_add_n, store, ecc_Bmodp, g]
    · rw [← F, hv]; simp

/-! ## Primality of the modulus -/

theorem powmod_aux_eq (m : Nat) : ∀ (fuel a e acc : Nat), e < 2 ^ fuel →
    powmod_aux m fuel a e acc = (acc * a ^ e) % m := by
  intro fuel
  induction fuel with
  | zero =>
    intro a e acc he
    have : e = 0 := by simpa using he
    subst this
    simp [powmod_aux]
  | succ n ih =>
    intro a e acc he
    have he2 : e / 2 < 2 ^ n := by
      rw [Nat.div_lt_iff_lt_mul (by decide)]
      rw [Nat.pow_succ] at he
      exact he
    rw [powmod_aux, ih _ _ _ he2]
    have hsplit : a ^ e = (a * a) ^ (e / 2) * a ^ (e % 2) := by
      rw [← pow_two, ← pow_mul, ← pow_add, Nat.div_add_mod]
    have hsq : ((a * a % m) ^ (e / 2)) % m = ((a * a) ^ (e / 2)) % m := by
      rw [Nat.pow_mod, Nat.mod_mod, ← Nat.pow_mod]
    rcases Nat.mod_two_eq_zero_or_one e with h | h
    · simp only [h, hsplit, pow_zero, mul_one]
      rw [if_neg (by decide), Nat.mul_mod, hsq, ← Nat.mul_mod]
    · simp only [h, hsplit, pow_one, if_true]
      rw [Nat.mul_mod, Nat.mod_mod, hsq, ← Nat.mul_mod]
      congr 1
      ring

theorem powmod_eq (a e m : Nat) (he : e < 2 ^ 200) : powmod a e m = a ^ e % m := by
  rw [powmod, powmod_aux_eq m 200 a e 1 he, one_mul]

/-- Lucas' test with the prime factors of `p - 1` given as a list and the powers
evaluated by `powmod`. -/
theorem prime_of_cert (p a : Nat) (fs : List Nat) (hp : 1 < p) (hlt : p < 2 ^ 200)
    (hfs : ∀ q ∈ fs, q.Prime) (hprod : fs.prod = p - 1)
    (h1 : powmod a (p - 1) p = 1)
    (hq : ∀ q ∈ fs, powmod a ((p - 1) / q) p ≠ 1) : p.Prime := by
  have cast : ∀ e : Nat, e < 2 ^ 200 → (((a : ZMod p)) ^ e = 1 ↔ powmod a e p = 1) := by
    intro e he
    rw [powmod_eq a e p he, ← Nat.cast_pow, ← Nat.cast_one, ZMod.natCast_eq_natCast_iff',
      Nat.mod_eq_of_lt hp]
  refine lucas_primality p (a : ZMod p) ((cast _ (by omega)).2 h1) ?_
  intro q hqp hqd
  rw [← hprod] at hqd
  obtain ⟨r, hr, hqr⟩ := (Nat.Prime.prime hqp).dvd_prod_iff.1 hqd
  have : q = r := (Nat.prime_dvd_prime_iff_eq hqp (hfs r hr)).1 hqr
  subst this
  rw [Ne, cast _ (lt_of_le_of_lt (Nat.div_le_self _ _) (by omega))]
  exact hq q hr

theorem prime_252396031 : Nat.Prime 252396031 := by
  refine prime_of_cert 252396031 3 [2, 3, 5, 8413201] (by norm_num) (by norm_num) ?_ (by decide)
    (by decide!) (by decide!)
  intro q hq
  simp only [List.mem_cons, List.mem_singleton, List.not_mem_nil, or_false] at hq
  rcases hq with rfl | rfl | rfl | rfl <;> norm_num

theorem prime_455827231987 : Nat.Prime 455827231987 := by
  refine prime_of_cert 455827231987 2 [2, 3, 7, 43, 252396031] (by norm_num) (by norm_num) ?_
    (by decide) (by decide!) (by decide!)
  intro q hq
  simp only [List.mem_cons, List.mem_singleton, List.not_mem_nil, or_false] at hq
  rcases hq with rfl | rfl | rfl | rfl | rfl
  · norm_num
  · norm_num
  · norm_num
  · norm_num
  · exact prime_252396031

theorem prime_108341181769254293 : Nat.Prime 108341181769254293 := by
  refine prime_of_cert 108341181769254293 2 [2, 2, 17, 43, 2477, 54251, 275729] (by norm_num)
    (by norm_num) ?_ (by decide) (by decide!) (by decide!)
  intro q hq
  simp only [List.mem_cons, List.mem_singleton, List.not_mem_nil, or_false] at hq
  rcases hq with rfl | rfl | rfl | rfl | rfl | rfl | rfl <;> norm_num

theorem prime_5933177618131140283 : Nat.Prime 5933177618131140283 := by
  refine prime_of_cert 5933177618131140283 2 [2, 3, 3, 723127, 455827231987] (by norm_num)
    (by norm_num) ?_ (by decide) (by decide!) (by decide!)
  intro q hq
  simp only [List.mem_cons, List.mem_singleton, List.not_mem_nil, or_false] at hq
  rcases hq with rfl | rfl | rfl | rfl | rfl
  · norm_num
  · norm_num
  · norm_num
  · norm_num
  · exact prime_455827231987

theorem prime_288626509448065367648032903 : Nat.Prime 288626509448065367648032903 := by
  refine prime_of_cert 288626509448065367648032903 6 [2, 3, 19, 19, 37, 607, 5933177618131140283]
    (by norm_num) (by norm_num) ?_ (by decide) (by decide!) (by decide!)
  intro q hq
  simp only [List.mem_cons, List.mem_singleton, List.not_mem_nil, or_false] at hq
  rcases hq with rfl | rfl | rfl | rfl | rfl | rfl | rfl
  · norm_num
  · norm_num
  · norm_num
  · norm_num
  · norm_num
  · norm_num
  · exact prime_5933177618131140283

theorem p192_eq : p192 = 6277101735386680763835789423207666416083908700390324961279 := by
  decide

/-- The modulus `2^192 - 2^64 - 1` is prime. -/
theorem p192_prime : Nat.Prime p192 := by
  rw [p192_eq]
  refine prime_of_cert _ 11
    [2, 59, 149309, 11393611, 108341181769254293, 288626509448065367648032903]
    (by norm_num) (by norm_num) ?_ (by decide) (by decide!) (by decide!)
  intro q hq
  simp only [List.mem_cons, List.mem_singleton, List.not_mem_nil, or_false] at hq
  rcases hq with rfl | rfl | rfl | rfl | rfl | rfl
  · norm_num
  · norm_num
  · norm_num
  · norm_num
  · exact prime_108341181769254293
  · exact prime_288626509448065367648032903

/-! ## The reduction on arbitrary limb arrays -/

theorem fold192_mod (X : Nat) : fold192 X % p192 = X % p192 := by
  simp only [fold192, p192]
  split <;> omega

theorem limbs_val_six (a0 a1 a2 a3 a4 a5 : Nat) : limbs_val 64 [a0, a1, a2, a3, a4, a5]
    = a0 + 2 ^ 64 * a1 + 2 ^ 128 * a2 + 2 ^ 192 * a3 + 2 ^ 256 * (a4 + 2 ^ 64 * a5) := by
  simp only [limbs_val]
  ring

theorem limbs_val_three (a0 a1 a2 : Nat) :
    limbs_val 64 [a0, a1, a2] = a0 + 2 ^ 64 * a1 + 2 ^ 128 * a2 := by
  simp only [limbs_val]
  ring

theorem length_six {l : List Nat} (h : l.length = 6) :
    ∃ a0 a1 a2 a3 a4 a5, l = [a0, a1, a2, a3, a4, a5] := by
  match l, h with
  | [a0, a1, a2, a3, a4, a5], _ => exact ⟨a0, a1, a2, a3, a4, a5, rfl⟩

/-- The 64-bit `ecc_192_modp` passes its assertions on every six-limb input and
leaves `fold192` of the input value in the three low limbs. -/
theorem modp64_spec (rp : List Nat) (hlen : rp.length = 6) (hok : limbs_ok 64 rp) :
    ∃ out, ecc_192_modp rp = some out ∧ out.length = 6 ∧ limbs_ok 64 out ∧
      limbs_val 64 (out.take 3) = fold192 (limbs_val 64 rp) := by
  obtain ⟨a0, a1, a2, a3, a4, a5, rfl⟩ := length_six hlen
  have h0 := hok a0 (by simp)
  have h1 := hok a1 (by simp)
  have h2 := hok a2 (by simp)
  have h3 := hok a3 (by simp)
  have h4 := hok a4 (by simp)
  have h5 := hok a5 (by simp)
  obtain ⟨r0, r1, r2, t3, t4, e, hr0, hr1, hr2, ht3, ht4, hv⟩ :=
    modp64_limbs a0 a1 a2 a3 a4 a5 h0 h1 h2 h3 h4 h5
  refine ⟨_, e, rfl, ?_, ?_⟩
  · intro x hx
    simp only [List.mem_cons, List.mem_singleton, List.not_mem_nil, or_false] at hx
    rcases hx with rfl | rfl | rfl | rfl | rfl | rfl
    · exact hr0
    · exact hr1
    · exact hr2
    · exact ht3
    · exact lt_of_le_of_lt ht4 (by norm_num)
    · exact h5
  · rw [limbs_val_six, ← hv]
    exact limbs_val_three r0 r1 r2

theorem limbs_val_lt (w : Nat) : ∀ l : List Nat, limbs_ok w l →
    limbs_val w l < 2 ^ (w * l.length) := by
  intro l
  induction l with
  | nil => intro _; simp [limbs_val]
  | cons x xs ih =>
    intro h
    have hx : x < 2 ^ w := h x (by simp)
    have hxs := ih (fun z hz => h z (by simp [hz]))
    have e : 2 ^ (w * (xs.length + 1)) = 2 ^ w * 2 ^ (w * xs.length) := by
      rw [Nat.mul_succ, Nat.pow_add, Nat.mul_comm]
    simp only [limbs_val, List.length_cons, e]
    have h1 : 2 ^ w * (limbs_val w xs + 1) ≤ 2 ^ w * 2 ^ (w * xs.length) :=
      Nat.mul_le_mul_left _ hxs
    have h2 : 2 ^ w * (limbs_val w xs + 1) = 2 ^ w * limbs_val w xs + 2 ^ w := by ring
    omega

theorem limbs_ok_take (w : Nat) (l : List Nat) (n : Nat) (h : limbs_ok w l) :
    limbs_ok w (l.take n) := fun x hx => h x (List.mem_of_mem_take hx)

theorem to_limbs_length (w : Nat) : ∀ n X, (to_limbs w n X).length = n := by
  intro n
  induction n with
  | zero => intro X; rfl
  | succ n ih => intro X; simp [to_limbs, ih]

theorem to_limbs_ok (w : Nat) : ∀ n X, limbs_ok w (to_limbs w n X) := by
  intro n
  induction n with
  | zero => intro X x hx; simp [to_limbs] at hx
  | succ n ih =>
    intro X x hx
    simp only [to_limbs, List.mem_cons] at hx
    rcases hx with rfl | hx
    · exact Nat.mod_lt _ (Nat.two_pow_pos w)
    · exact ih _ x hx

theorem limbs_val_to_limbs (w : Nat) : ∀ n X, limbs_val w (to_limbs w n X) = X % 2 ^ (w * n) := by
  intro n
  induction n with
  | zero => intro X; simp [to_limbs, limbs_val, Nat.mod_one]
  | succ n ih =>
    intro X
    simp only [to_limbs, limbs_val, ih]
    rw [Nat.mul_succ, Nat.add_comm (w * n) w, Nat.pow_add, Nat.mod_mul]

theorem to_limbs_limbs_val (w : Nat) : ∀ l : List Nat, limbs_ok w l →
    to_limbs w l.length (limbs_val w l) = l := by
  intro l
  induction l with
  | nil => intro _; rfl
  | cons x xs ih =>
    intro h
    have hx : x < 2 ^ w := h x (by simp)
    have hxs := ih (fun z hz => h z (by simp [hz]))
    simp only [List.length_cons, to_limbs, limbs_val]
    rw [Nat.add_mul_mod_self_left, Nat.mod_eq_of_lt hx, Nat.add_mul_div_left _ _ (Nat.two_pow_pos w),
      Nat.div_eq_of_lt hx, Nat.zero_add, hxs]

/-! ## The 32-bit variant -/

theorem add32_3 (a b c d e f : Nat) (ha : a < 2 ^ 32) (hb : b < 2 ^ 32) (hc : c < 2 ^ 32)
    (hd : d < 2 ^ 32) (he : e < 2 ^ 32) (hf : f < 2 ^ 32) :
    ∃ x y z cy, mpn_add_n 32 [a, b, c] [d, e, f] = ([x, y, z], cy) ∧ x < 2 ^ 32 ∧
      y < 2 ^ 32 ∧ z < 2 ^ 32 ∧ cy ≤ 1 ∧
      x + 2 ^ 32 * y + 2 ^ 64 * z + 2 ^ 96 * cy
        = a + 2 ^ 32 * b + 2 ^ 64 * c + (d + 2 ^ 32 * e + 2 ^ 64 * f) := by
  refine ⟨_, _, _, _, rfl, ?_, ?_, ?_, ?_, ?_⟩ <;>
    (try simp only [mpn_add_n, mpn_add_n_aux]) <;> omega

theorem add32_4 (a b c d e f g h : Nat) (ha : a < 2 ^ 32) (hb : b < 2 ^ 32) (hc : c < 2 ^ 32)
    (hd : d < 2 ^ 32) (he : e < 2 ^ 32) (hf : f < 2 ^ 32) (hg : g < 2 ^ 32) (hh : h < 2 ^ 32) :
    ∃ x y z t cy, mpn_add_n 32 [a, b, c, d] [e, f, g, h] = ([x, y, z, t], cy) ∧ x < 2 ^ 32 ∧
      y < 2 ^ 32 ∧ z < 2 ^ 32 ∧ t < 2 ^ 32 ∧ cy ≤ 1 ∧
      x + 2 ^ 32 * y + 2 ^ 64 * z + 2 ^ 96 * t + 2 ^ 128 * cy
        = a + 2 ^ 32 * b + 2 ^ 64 * c + 2 ^ 96 * d
          + (e + 2 ^ 32 * f + 2 ^ 64 * g + 2 ^ 96 * h) := by
  refine ⟨_, _, _, _, _, rfl, ?_, ?_, ?_, ?_, ?_, ?_⟩ <;>
    (try simp only [mpn_add_n, mpn_add_n_aux]) <;> omega

theorem add32_Bmodp (a b c d e f : Nat) (ha : a < 2 ^ 32) (hb : b < 2 ^ 32) (hc : c < 2 ^ 32)
    (hd : d < 2 ^ 32) (he : e < 2 ^ 32) (hf : f < 2 ^ 32) :
    ∃ x y z t u v cy, mpn_add_n 32 [a, b, c, d, e, f] ecc_Bmodp32 = ([x, y, z, t, u, v], cy) ∧
      x < 2 ^ 32 ∧ y < 2 ^ 32 ∧ z < 2 ^ 32 ∧ t < 2 ^ 32 ∧ u < 2 ^ 32 ∧ v < 2 ^ 32 ∧ cy ≤ 1 ∧
      x + 2 ^ 32 * y + 2 ^ 64 * z + 2 ^ 96 * t + 2 ^ 128 * u + 2 ^ 160 * v + 2 ^ 192 * cy
        = a + 2 ^ 32 * b + 2 ^ 64 * c + 2 ^ 96 * d + 2 ^ 128 * e + 2 ^ 160 * f + (2 ^ 64 + 1) := by
  refine ⟨_, _, _, _, _, _, _, rfl, ?_, ?_, ?_, ?_, ?_, ?_, ?_, ?_⟩ <;>
    (try simp only [mpn_add_n, mpn_add_n_aux]) <;> omega

theorem sec32_1 (a b : Nat) (ha : a < 2 ^ 32) (hb : b < 2 ^ 32) :
    ∃ x cy, sec_add_1 32 [a] b = ([x], cy) ∧ x < 2 ^ 32 ∧ cy ≤ 1 ∧
      x + 2 ^ 32 * cy = a + b := by
  refine ⟨_, _, rfl, ?_, ?_, ?_⟩ <;> (try simp only [sec_add_1])
  · omega
  · split <;> omega
  · split <;> omega

theorem sec32_2 (a b c : Nat) (ha : a < 2 ^ 32) (hb : b < 2 ^ 32) (hc : c < 2 ^ 32) :
    ∃ x y cy, sec_add_1 32 [a, b] c = ([x, y], cy) ∧ x < 2 ^ 32 ∧ y < 2 ^ 32 ∧ cy ≤ 1 ∧
      x + 2 ^ 32 * y + 2 ^ 64 * cy = a + 2 ^ 32 * b + c := by
  refine ⟨_, _, _, rfl, ?_, ?_, ?_, ?_⟩ <;> (try simp only [sec_add_1])
  · omega
  · omega
  · split <;> split <;> omega
  · split <;> split <;> omega

theorem fold1_val32 (a0 a1 a2 a3 a4 a5 a6 a7 H x2 x3 x4 x5 x6 x7 y4 y5 y6 y7 c1 c2 c3 : Nat)
    (v1 : x2 + 2 ^ 32 * x3 + 2 ^ 64 * x4 + 2 ^ 96 * x5 + 2 ^ 128 * c1
      = a2 + 2 ^ 32 * a3 + 2 ^ 64 * a4 + 2 ^ 96 * a5 + H)
    (v2 : x6 + 2 ^ 32 * x7 + 2 ^ 64 * c2 = a6 + 2 ^ 32 * a7 + c1)
    (v3 : y4 + 2 ^ 32 * y5 + 2 ^ 64 * y6 + 2 ^ 96 * y7 + 2 ^ 128 * c3
      = x4 + 2 ^ 32 * x5 + 2 ^ 64 * x6 + 2 ^ 96 * x7 + H) :
    a0 + 2 ^ 32 * a1 + 2 ^ 64 * x2 + 2 ^ 96 * x3 + 2 ^ 128 * y4 + 2 ^ 160 * y5
        + 2 ^ 192 * (y6 + 2 ^ 32 * y7 + 2 ^ 64 * (c2 + c3))
      = a0 + 2 ^ 32 * a1 + 2 ^ 64 * a2 + 2 ^ 96 * a3 + 2 ^ 128 * a4 + 2 ^ 160 * a5 + 2 ^ 192 * a6
        + 2 ^ 224 * a7 + H * (2 ^ 128 + 2 ^ 64) := by
  omega

theorem fold2_val32 (a0 a1 x2 x3 y4 y5 hi z0 z1 z2 z3 z4 u2 u3 u4 u5 d1 d2 d3 d4 : Nat)
    (w1 : z0 + 2 ^ 32 * z1 + 2 ^ 64 * z2 + 2 ^ 96 * d1 = a0 + 2 ^ 32 * a1 + 2 ^ 64 * x2 + hi)
    (w2 : z3 + 2 ^ 32 * z4 + 2 ^ 64 * d2 = x3 + 2 ^ 32 * y4 + d1)
    (w3 : u2 + 2 ^ 32 * u3 + 2 ^ 64 * u4 + 2 ^ 96 * d3 = z2 + 2 ^ 32 * z3 + 2 ^ 64 * z4 + hi)
    (w4 : u5 + 2 ^ 32 * d4 = y5 + (d2 + d3)) :
    z0 + 2 ^ 32 * z1 + 2 ^ 64 * u2 + 2 ^ 96 * u3 + 2 ^ 128 * u4 + 2 ^ 160 * u5 + 2 ^ 192 * d4
      = a0 + 2 ^ 32 * a1 + 2 ^ 64 * x2 + 2 ^ 96 * x3 + 2 ^ 128 * y4 + 2 ^ 160 * y5
        + hi * (2 ^ 64 + 1) := by
  omega

theorem val6_lt32 (a b c d e f : Nat) (ha : a < 2 ^ 32) (hb : b < 2 ^ 32) (hc : c < 2 ^ 32)
    (hd : d < 2 ^ 32) (he : e < 2 ^ 32) (hf : f < 2 ^ 32) :
    a + 2 ^ 32 * b + 2 ^ 64 * c + 2 ^ 96 * d + 2 ^ 128 * e + 2 ^ 160 * f < 2 ^ 192 := by omega

theorem val8_lt32 (a b c d e f g h : Nat) (ha : a < 2 ^ 32) (hb : b < 2 ^ 32) (hc : c < 2 ^ 32)
    (hd : d < 2 ^ 32) (he : e < 2 ^ 32) (hf : f < 2 ^ 32) (hg : g < 2 ^ 32) (hh : h < 2 ^ 32) :
    a + 2 ^ 32 * b + 2 ^ 64 * c + 2 ^ 96 * d + 2 ^ 128 * e + 2 ^ 160 * f + 2 ^ 192 * g
      + 2 ^ 224 * h < 2 ^ 256 := by omega

theorem hi_lt32 (y6 y7 cy : Nat) (h6 : y6 < 2 ^ 32) (h7 : y7 < 2 ^ 32) (hc : cy ≤ 2) :
    y6 + 2 ^ 32 * y7 + 2 ^ 64 * cy < 3 * 2 ^ 64 := by omega

theorem fold2_carry32 (r d lo hi : Nat) (hlo : lo < 2 ^ 192) (hhi : hi < 3 * 2 ^ 64)
    (tot : r + 2 ^ 192 * d = lo + hi * (2 ^ 64 + 1)) : d ≤ 1 := by
  omega

theorem final_carry32 (r s c4 lo hi : Nat) (hlo : lo < 2 ^ 192) (hhi : hi < 3 * 2 ^ 64)
    (V2 : r + 2 ^ 192 * 1 = lo + hi * (2 ^ 64 + 1))
    (w4 : s + 2 ^ 192 * c4 = r + (2 ^ 64 + 1)) :
    c4 = 0 ∧ s = r + (2 ^ 64 + 1) := by
  omega

theorem carry_sum_lt32 (c d : Nat) (hc : c ≤ 1) (hd : d ≤ 1) : c + d < 2 ^ 32 := by omega

theorem carry_lt32 (c : Nat) (hc : c ≤ 1) : c < 2 ^ 32 := by omega

theorem modp32_limbs (a0 a1 a2 a3 a4 a5 a6 a7 a8 a9 a10 a11 : Nat) (h0 : a0 < 2 ^ 32)
    (h1 : a1 < 2 ^ 32) (h2 : a2 < 2 ^ 32) (h3 : a3 < 2 ^ 32) (h4 : a4 < 2 ^ 32)
    (h5 : a5 < 2 ^ 32) (h6 : a6 < 2 ^ 32) (h7 : a7 < 2 ^ 32) (h8 : a8 < 2 ^ 32)
    (h9 : a9 < 2 ^ 32) (h10 : a10 < 2 ^ 32) (h11 : a11 < 2 ^ 32) :
    ∃ r0 r1 r2 r3 r4 r5 t6 t7 t8,
      ecc_192_modp32 [a0, a1, a2, a3, a4, a5, a6, a7, a8, a9, a10, a11]
        = some [r0, r1, r2, r3, r4, r5, t6, t7, t8, a9, a10, a11] ∧
      r0 < 2 ^ 32 ∧ r1 < 2 ^ 32 ∧ r2 < 2 ^ 32 ∧ r3 < 2 ^ 32 ∧ r4 < 2 ^ 32 ∧ r5 < 2 ^ 32 ∧
      t6 < 2 ^ 32 ∧ t7 < 2 ^ 32 ∧ t8 ≤ 2 ∧
      r0 + 2 ^ 32 * r1 + 2 ^ 64 * r2 + 2 ^ 96 * r3 + 2 ^ 128 * r4 + 2 ^ 160 * r5
        = fold192 (a0 + 2 ^ 32 * a1 + 2 ^ 64 * a2 + 2 ^ 96 * a3 + 2 ^ 128 * a4 + 2 ^ 160 * a5
            + 2 ^ 192 * a6 + 2 ^ 224 * a7
            + 2 ^ 256 * (a8 + 2 ^ 32 * a9 + 2 ^ 64 * a10 + 2 ^ 96 * a11)) := by
  obtain ⟨x2, x3, x4, x5, c1, e1, hx2, hx3, hx4, hx5, hc1, v1⟩ :=
    add32_4 a2 a3 a4 a5 a8 a9 a10 a11 h2 h3 h4 h5 h8 h9 h10 h11
  obtain ⟨x6, x7, c2, e2, hx6, hx7, hc2, v2⟩ := sec32_2 a6 a7 c1 h6 h7 (carry_lt32 c1 hc1)
  obtain ⟨y4, y5, y6, y7, c3, e3, hy4, hy5, hy6, hy7, hc3, v3⟩ :=
    add32_4 x4 x5 x6 x7 a8 a9 a10 a11 hx4 hx5 hx6 hx7 h8 h9 h10 h11
  have hcyl := carry_sum_lt32 c2 c3 hc2 hc3
  have hcy : (c2 + c3) % 2 ^ 32 = c2 + c3 := Nat.mod_eq_of_lt hcyl
  have hcy2 : c2 + c3 ≤ 2 := Nat.add_le_add hc2 hc3
  obtain ⟨z0, z1, z2, d1, f1, hz0, hz1, hz2, hd1, w1⟩ :=
    add32_3 a0 a1 x2 y6 y7 (c2 + c3) h0 h1 hx2 hy6 hy7 hcyl
  obtain ⟨z3, z4, d2, f2, hz3, hz4, hd2, w2⟩ := sec32_2 x3 y4 d1 hx3 hy4 (carry_lt32 d1 hd1)
  obtain ⟨u2, u3, u4, d3, f3, hu2, hu3, hu4, hd3, w3⟩ :=
    add32_3 z2 z3 z4 y6 y7 (c2 + c3) hz2 hz3 hz4 hy6 hy7 hcyl
  have hdyl := carry_sum_lt32 d2 d3 hd2 hd3
  have hdy : (d2 + d3) % 2 ^ 32 = d2 + d3 := Nat.mod_eq_of_lt hdyl
  obtain ⟨u5, d4, f4, hu5, hd4, w4⟩ := sec32_1 y5 (d2 + d3) hy5 hdyl
  have V1 := fold1_val32 a0 a1 a2 a3 a4 a5 a6 a7 _ x2 x3 x4 x5 x6 x7 y4 y5 y6 y7 c1 c2 c3 v1 v2 v3
  have V2 := fold2_val32 a0 a1 x2 x3 y4 y5 _ z0 z1 z2 z3 z4 u2 u3 u4 u5 d1 d2 d3 d4 w1 w2 w3 w4
  have hL := val8_lt32 a0 a1 a2 a3 a4 a5 a6 a7 h0 h1 h2 h3 h4 h5 h6 h7
  have hlo := val6_lt32 a0 a1 x2 x3 y4 y5 h0 h1 hx2 hx3 hy4 hy5
  have hr := val6_lt32 z0 z1 u2 u3 u4 u5 hz0 hz1 hu2 hu3 hu4 hu5
  have hhi := hi_lt32 y6 y7 (c2 + c3) hy6 hy7 hcy2
  have F := fold192_eq _ (a8 + 2 ^ 32 * a9 + 2 ^ 64 * a10 + 2 ^ 96 * a11) _
    (y6 + 2 ^ 32 * y7 + 2 ^ 64 * (c2 + c3)) _ d4 hL hlo V1 hr hd4 V2
  have pre : ecc_192_modp32 [a0, a1, a2, a3, a4, a5, a6, a7, a8, a9, a10, a11]
      = (let c := cnd_add_n 32 d4 [z0, z1, u2, u3, u4, u5] ecc_Bmodp32
         if c.2 = 0 then
           some (store [z0, z1, u2, u3, u4, u5, y6, y7, c2 + c3, a9, a10, a11] 0 c.1)
         else none) := by
    simp only [ecc_192_modp32, load, store, List.drop_succ_cons, List.drop_zero,
      List.take_succ_cons, List.take_zero, List.take_nil, List.drop_nil, List.cons_append,
      List.nil_append, List.length_cons, List.length_nil, List.append_nil, e1, e2, e3, hcy, hcy2,
      f1, f2, f3, f4, hdy, hd4, if_true, Nat.reduceAdd]
  rw [pre]
  rcases Nat.eq_zero_or_pos d4 with hz | hp
  · rw [hz] at F ⊢
    refine ⟨z0, z1, u2, u3, u4, u5, y6, y7, c2 + c3, ?_, hz0, hz1, hu2, hu3, hu4, hu5, hy6, hy7,
      hcy2, ?_⟩
    · simp [cnd_add_n, store]
    · simpa using F
  · have hone : d4 = 1 := Nat.le_antisymm hd4 hp
    rw [hone] at F V2 ⊢
    obtain ⟨r0, r1, r2, r3, r4, r5, c4, g, hr0, hr1, hr2, hr3, hr4, hr5, hc4, w5⟩ :=
      add32_Bmodp z0 z1 u2 u3 u4 u5 hz0 hz1 hu2 hu3 hu4 hu5
    obtain ⟨hc40, hv⟩ := final_carry32 _ _ c4 _ _ hlo hhi V2 w5
    subst hc40
    refine ⟨r0, r1, r2, r3, r4, r5, y6, y7, c2 + c3, ?_, hr0, hr1, hr2, hr3, hr4, hr5, hy6, hy7,
      hcy2, ?_⟩
    · simp [cnd_add_n, store, g]
    · rw [← F, hv]; simp

theorem limbs_val_twelve (a0 a1 a2 a3 a4 a5 a6 a7 a8 a9 a10 a11 : Nat) :
    limbs_val 32 [a0, a1, a2, a3, a4, a5, a6, a7, a8, a9, a10, a11]
      = a0 + 2 ^ 32 * a1 + 2 ^ 64 * a2 + 2 ^ 96 * a3 + 2 ^ 128 * a4 + 2 ^ 160 * a5
        + 2 ^ 192 * a6 + 2 ^ 224 * a7
        + 2 ^ 256 * (a8 + 2 ^ 32 * a9 + 2 ^ 64 * a10 + 2 ^ 96 * a11) := by
  simp only [limbs_val]
  ring

theorem limbs_val_six32 (a0 a1 a2 a3 a4 a5 : Nat) : limbs_val 32 [a0, a1, a2, a3, a4, a5]
    = a0 + 2 ^ 32 * a1 + 2 ^ 64 * a2 + 2 ^ 96 * a3 + 2 ^ 128 * a4 + 2 ^ 160 * a5 := by
  simp only [limbs_val]
  ring

theorem length_twelve {l : List Nat} (h : l.length = 12) :
    ∃ a0 a1 a2 a3 a4 a5 a6 a7 a8 a9 a10 a11,
      l = [a0, a1, a2, a3, a4, a5, a6, a7, a8, a9, a10, a11] := by
  match l, h with
  | [a0, a1, a2, a3, a4, a5, a6, a7, a8, a9, a10, a11], _ =>
    exact ⟨a0, a1, a2, a3, a4, a5, a6, a7, a8, a9, a10, a11, rfl⟩

/-- The 32-bit `ecc_192_modp` passes its assertions on every twelve-limb input
and leaves `fold192` of the input value in the six low limbs. -/
theorem modp32_spec (rp : List Nat) (hlen : rp.length = 12) (hok : limbs_ok 32 rp) :
    ∃ out, ecc_192_modp32 rp = some out ∧ out.length = 12 ∧ limbs_ok 32 out ∧
      limbs_val 32 (out.take 6) = fold192 (limbs_val 32 rp) := by
  obtain ⟨a0, a1, a2, a3, a4, a5, a6, a7, a8, a9, a10, a11, rfl⟩ := length_twelve hlen
  have h0 := hok a0 (by simp)
  have h1 := hok a1 (by simp)
  have h2 := hok a2 (by simp)
  have h3 := hok a3 (by simp)
  have h4 := hok a4 (by simp)
  have h5 := hok a5 (by simp)
  have h6 := hok a6 (by simp)
  have h7 := hok a7 (by simp)
  have h8 := hok a8 (by simp)
  have h9 := hok a9 (by simp)
  have h10 := hok a10 (by simp)
  have h11 := hok a11 (by simp)
  obtain ⟨r0, r1, r2, r3, r4, r5, t6, t7, t8, e, hr0, hr1, hr2, hr3, hr4, hr5, ht6, ht7, ht8, hv⟩ :=
    modp32_limbs a0 a1 a2 a3 a4 a5 a6 a7 a8 a9 a10 a11 h0 h1 h2 h3 h4 h5 h6 h7 h8 h9 h10 h11
  refine ⟨_, e, rfl, ?_, ?_⟩
  · intro x hx
    simp only [List.mem_cons, List.mem_singleton, List.not_mem_nil, or_false] at hx
    rcases hx with rfl | rfl | rfl | rfl | rfl | rfl | rfl | rfl | rfl | rfl | rfl | rfl
    · exact hr0
    · exact hr1
    · exact hr2
    · exact hr3
    · exact hr4
    · exact hr5
    · exact ht6
    · exact ht7
    · exact lt_of_le_of_lt ht8 (by norm_num)
    · exact h9
    · exact h10
    · exact h11
  · rw [limbs_val_twelve, ← hv]
    exact limbs_val_six32 r0 r1 r2 r3 r4 r5

theorem two_p192_gt : 2 ^ 192 < 2 * p192 := by decide

theorem p192_lt : p192 < 2 ^ 192 := by decide

/-- A value below `2^192` is its least residue modulo `p`, or that plus `p`. -/
theorem residue_or_plus_p (r X : Nat) (hr : r < 2 ^ 192) (h : r % p192 = X % p192) :
    r = X % p192 ∨ r = X % p192 + p192 := by
  simp only [p192] at h ⊢
  omega

/-! ## Properties of `ecc_192_modp` -/

/-- C1: for every six-limb input `rp` of 64-bit limbs, `ecc_192_modp` returns
(no assertion fails) and the integer left in `rp[0..2]` is congruent modulo
`p = 2^192 - 2^64 - 1` to the integer `X` the six limbs held. -/
theorem ecc_192_modp_congruent (rp : List Nat) (hlen : rp.length = 6) (hok : limbs_ok 64 rp) :
    ∃ out, ecc_192_modp rp = some out ∧
      limbs_val 64 (out.take 3) % p192 = limbs_val 64 rp % p192 := by
  obtain ⟨out, e, _, _, hv⟩ := modp64_spec rp hlen hok
  exact ⟨out, e, by rw [hv, fold192_mod]⟩

/-- C1 at the input `[1, 2, 3, 4, 5, 6]`. -/
theorem ecc_192_modp_congruent_witness :
    ([1, 2, 3, 4, 5, 6].length = 6 ∧ limbs_ok 64 [1, 2, 3, 4, 5, 6]) ∧
    ∃ out, ecc_192_modp [1, 2, 3, 4, 5, 6] = some out ∧
      limbs_val 64 (out.take 3) % p192 = limbs_val 64 [1, 2, 3, 4, 5, 6] % p192 :=
  ⟨⟨rfl, by decide⟩, ecc_192_modp_congruent [1, 2, 3, 4, 5, 6] rfl (by decide)⟩

/-- C5, as stated, fails: on the double-width array holding `X = p` (below
`2p^2`) `ecc_192_modp` does not leave `X mod p = 0` in the low limbs. -/
theorem ecc_192_modp_not_least_residue :
    ¬ (∀ rp : List Nat, rp.length = 6 → limbs_ok 64 rp →
        limbs_val 64 rp < 2 * p192 ^ 2 →
        ∃ out, ecc_192_modp rp = some out ∧
          limbs_val 64 (out.take 3) = limbs_val 64 rp % p192) := by
  intro h
  obtain ⟨out, e, hv⟩ := h (ecc_p ++ [0, 0, 0]) (by decide) (by decide) (by decide)
  have e2 : ecc_192_modp (ecc_p ++ [0, 0, 0]) = some (ecc_p ++ [0, 0, 0]) := by decide
  rw [e2] at e
  cases e
  revert hv
  decide

/-- C5, amended: for every double-width input `X` (those below `2p^2` included)
`ecc_192_modp` returns and leaves in the low limbs a value below `2^192` that is
congruent to `X` modulo `p`; it is the least residue `X mod p` or `X mod p + p`,
so it agrees with a reduction to least residues once canonicalised. -/
theorem ecc_192_modp_residue_class (rp : List Nat) (hlen : rp.length = 6)
    (hok : limbs_ok 64 rp) :
    ∃ out, ecc_192_modp rp = some out ∧
      limbs_val 64 (out.take 3) < 2 ^ 192 ∧
      limbs_val 64 (out.take 3) % p192 = limbs_val 64 rp % p192 ∧
      (limbs_val 64 (out.take 3) = limbs_val 64 rp % p192 ∨
        limbs_val 64 (out.take 3) = limbs_val 64 rp % p192 + p192) := by
  obtain ⟨out, e, hl, ho, hv⟩ := modp64_spec rp hlen hok
  have hlt : limbs_val 64 (out.take 3) < 2 ^ 192 := by
    have := limbs_val_lt 64 (out.take 3) (limbs_ok_take 64 out 3 ho)
    rwa [List.length_take, hl] at this
  have hc : limbs_val 64 (out.take 3) % p192 = limbs_val 64 rp % p192 := by
    rw [hv, fold192_mod]
  exact ⟨out, e, hlt, hc, residue_or_plus_p _ _ hlt hc⟩

/-- C5 (amended) at the input `[1, 2, 3, 4, 5, 0]`. -/
theorem ecc_192_modp_residue_class_witness :
    ([1, 2, 3, 4, 5, 0].length = 6 ∧ limbs_ok 64 [1, 2, 3, 4, 5, 0]) ∧
    ∃ out, ecc_192_modp [1, 2, 3, 4, 5, 0] = some out ∧
      limbs_val 64 (out.take 3) < 2 ^ 192 ∧
      limbs_val 64 (out.take 3) % p192 = limbs_val 64 [1, 2, 3, 4, 5, 0] % p192 ∧
      (limbs_val 64 (out.take 3) = limbs_val 64 [1, 2, 3, 4, 5, 0] % p192 ∨
        limbs_val 64 (out.take 3) = limbs_val 64 [1, 2, 3, 4, 5, 0] % p192 + p192) :=
  ⟨⟨rfl, by decide⟩, ecc_192_modp_residue_class [1, 2, 3, 4, 5, 0] rfl (by decide)⟩

/-- C6: for every double-width input of 64-bit limbs, `ecc_192_modp` returns and
the integer left in the low `ECC_LIMB_SIZE` limbs is below twice the modulus. -/
theorem ecc_192_modp_below_2p (rp : List Nat) (hlen : rp.length = 6) (hok : limbs_ok 64 rp) :
    ∃ out, ecc_192_modp rp = some out ∧ limbs_val 64 (out.take ECC_LIMB_SIZE) < 2 * p192 := by
  obtain ⟨out, e, hl, ho, _⟩ := modp64_spec rp hlen hok
  refine ⟨out, e, ?_⟩
  have := limbs_val_lt 64 (out.take 3) (limbs_ok_take 64 out 3 ho)
  rw [List.length_take, hl] at this
  exact lt_trans this two_p192_gt

/-- C6 at an input with all high limbs set. -/
theorem ecc_192_modp_below_2p_witness :
    ([7, 0, 9, 2 ^ 64 - 1, 2 ^ 64 - 1, 2 ^ 64 - 1].length = 6 ∧
      limbs_ok 64 [7, 0, 9, 2 ^ 64 - 1, 2 ^ 64 - 1, 2 ^ 64 - 1]) ∧
    ∃ out, ecc_192_modp [7, 0, 9, 2 ^ 64 - 1, 2 ^ 64 - 1, 2 ^ 64 - 1] = some out ∧
      limbs_val 64 (out.take ECC_LIMB_SIZE) < 2 * p192 :=
  ⟨⟨rfl, by decide⟩,
    ecc_192_modp_below_2p [7, 0, 9, 2 ^ 64 - 1, 2 ^ 64 - 1, 2 ^ 64 - 1] rfl (by decide)⟩

/-- C7, as stated, fails: applied to the limbs of `p^2`, `ecc_192_modp` does
not leave the value `0` in the low limbs. -/
theorem ecc_192_modp_p_squared_nonzero :
    ¬ ∃ out, ecc_192_modp (to_limbs 64 6 (p192 * p192)) = some out ∧
      limbs_val 64 (out.take 3) = 0 := by
  decide

/-- C7, amended: applied to the limbs of `p^2`, `ecc_192_modp` (either limb
width) leaves the value `p` itself in the low limbs: congruent to `0` modulo
`p`, but not the least residue. -/
theorem ecc_192_modp_p_squared :
    (∃ out, ecc_192_modp (to_limbs 64 6 (p192 * p192)) = some out ∧
      limbs_val 64 (out.take 3) = p192 ∧ limbs_val 64 (out.take 3) % p192 = 0) ∧
    (∃ out, ecc_192_modp32 (to_limbs 32 12 (p192 * p192)) = some out ∧
      limbs_val 32 (out.take 6) = p192 ∧ limbs_val 32 (out.take 6) % p192 = 0) := by
  decide

/-- C8, as stated, fails: applied to the limbs of `(p-1)^2`, `ecc_192_modp`
does not leave a value below `p` in the low limbs. -/
theorem ecc_192_modp_pm1_squared_not_canonical :
    ¬ ∃ out, ecc_192_modp (to_limbs 64 6 ((p192 - 1) * (p192 - 1))) = some out ∧
      limbs_val 64 (out.take 3) < p192 := by
  decide

/-- C8, amended: applied to the limbs of `(p-1)^2`, `ecc_192_modp` (either limb
width) leaves `p + 1` in the low limbs: congruent to `(p-1)^2 ≡ 1` modulo `p` and
below `2p`, but not below `p`. -/
theorem ecc_192_modp_pm1_squared :
    (∃ out, ecc_192_modp (to_limbs 64 6 ((p192 - 1) * (p192 - 1))) = some out ∧
      limbs_val 64 (out.take 3) = p192 + 1 ∧
      limbs_val 64 (out.take 3) % p192 = ((p192 - 1) * (p192 - 1)) % p192 ∧
      limbs_val 64 (out.take 3) < 2 * p192) ∧
    (∃ out, ecc_192_modp32 (to_limbs 32 12 ((p192 - 1) * (p192 - 1))) = some out ∧
      limbs_val 32 (out.take 6) = p192 + 1) := by
  decide

/-- C10: for every integer `X < 2^384`, the 32-bit `ecc_192_modp` on the twelve
32-bit limbs of `X` and the 64-bit `ecc_192_modp` on the six 64-bit limbs of `X`
both return, and their low limbs (six 32-bit, three 64-bit) are the limbs of one
and the same integer `r < 2^192`. -/
theorem ecc_192_modp_widths_agree (X : Nat) (hX : X < 2 ^ 384) :
    ∃ o32 o64 r, ecc_192_modp32 (to_limbs 32 12 X) = some o32 ∧
      ecc_192_modp (to_limbs 64 6 X) = some o64 ∧ r < 2 ^ 192 ∧
      limbs_val 32 (o32.take 6) = r ∧ limbs_val 64 (o64.take 3) = r ∧
      o32.take 6 = to_limbs 32 6 r ∧ o64.take 3 = to_limbs 64 3 r := by
  obtain ⟨o32, e32, l32, k32, v32⟩ :=
    modp32_spec (to_limbs 32 12 X) (to_limbs_length 32 12 X) (to_limbs_ok 32 12 X)
  obtain ⟨o64, e64, l64, k64, v64⟩ :=
    modp64_spec (to_limbs 64 6 X) (to_limbs_length 64 6 X) (to_limbs_ok 64 6 X)
  have h32 : X < 2 ^ (32 * 12) := by rw [show 32 * 12 = 384 from rfl]; exact hX
  have h64 : X < 2 ^ (64 * 6) := by rw [show 64 * 6 = 384 from rfl]; exact hX
  rw [limbs_val_to_limbs, Nat.mod_eq_of_lt h32] at v32
  rw [limbs_val_to_limbs, Nat.mod_eq_of_lt h64] at v64
  have len32 : (o32.take 6).length = 6 := by rw [List.length_take, l32]; rfl
  have len64 : (o64.take 3).length = 3 := by rw [List.length_take, l64]; rfl
  have t32 := to_limbs_limbs_val 32 (o32.take 6) (limbs_ok_take 32 o32 6 k32)
  have t64 := to_limbs_limbs_val 64 (o64.take 3) (limbs_ok_take 64 o64 3 k64)
  have hlt := limbs_val_lt 64 (o64.take 3) (limbs_ok_take 64 o64 3 k64)
  rw [len32, v32] at t32
  rw [len64, v64] at t64 hlt
  exact ⟨o32, o64, fold192 X, e32, e64, by simpa using hlt, v32, v64, t32.symm, t64.symm⟩

/-- C10 at the largest double-width value. -/
theorem ecc_192_modp_widths_agree_witness :
    2 ^ 384 - 1 < 2 ^ 384 ∧
    ∃ o32 o64 r, ecc_192_modp32 (to_limbs 32 12 (2 ^ 384 - 1)) = some o32 ∧
      ecc_192_modp (to_limbs 64 6 (2 ^ 384 - 1)) = some o64 ∧ r < 2 ^ 192 ∧
      limbs_val 32 (o32.take 6) = r ∧ limbs_val 64 (o64.take 3) = r ∧
      o32.take 6 = to_limbs 32 6 r ∧ o64.take 3 = to_limbs 64 3 r :=
  ⟨by norm_num, ecc_192_modp_widths_agree (2 ^ 384 - 1) (by norm_num)⟩

/-! ## The zero test and the square root -/

theorem lor_eq_zero (a b : Nat) : a ||| b = 0 ↔ a = 0 ∧ b = 0 := by
  constructor
  · intro h
    have hb : ∀ i, (a ||| b).testBit i = false := by
      intro i
      rw [h]
      exact Nat.zero_testBit i
    constructor
    · apply Nat.eq_of_testBit_eq
      intro i
      have := hb i
      rw [Nat.testBit_or, Bool.or_eq_false_iff] at this
      rw [this.1, Nat.zero_testBit]
    · apply Nat.eq_of_testBit_eq
      intro i
      have := hb i
      rw [Nat.testBit_or, Bool.or_eq_false_iff] at this
      rw [this.2, Nat.zero_testBit]
  · rintro ⟨rfl, rfl⟩
    rfl

theorem val_ecc_p : limbs_val 64 secp_192r1_p.m = p192 := by decide

theorem length_three {l : List Nat} (h : l.length = 3) : ∃ a b c, l = [a, b, c] := by
  match l, h with
  | [a, b, c], _ => exact ⟨a, b, c, rfl⟩

theorem val3_zero_or_p (a b c : Nat) (ha : a < 2 ^ 64) (hb : b < 2 ^ 64) (hc : c < 2 ^ 64) :
    (a + 2 ^ 64 * b + 2 ^ 128 * c) % p192 = 0 ↔
      (a = 0 ∧ b = 0 ∧ c = 0) ∨
      (a = 0xffffffffffffffff ∧ b = 0xfffffffffffffffe ∧ c = 0xffffffffffffffff) := by
  have hv := val3_lt a b c ha hb hc
  constructor
  · intro h
    have h0 : (a + 2 ^ 64 * b + 2 ^ 128 * c) % p192 = 0 % p192 := by rw [h]; rfl
    rcases residue_or_plus_p _ 0 hv h0 with h | h
    · left
      rw [Nat.zero_mod] at h
      omega
    · right
      rw [Nat.zero_mod, p192_eq] at h
      omega
  · rintro (⟨rfl, rfl, rfl⟩ | ⟨rfl, rfl, rfl⟩) <;> decide

/-- On an `ECC_LIMB_SIZE`-limb array, `ecc_192_zero_p` is `1` exactly when the
value held is divisible by `p`, and `0` otherwise. -/
theorem zero_p_spec (t : List Nat) (ht : field_limbs t) :
    ecc_192_zero_p secp_192r1_p t = if limbs_val 64 t % p192 = 0 then 1 else 0 := by
  obtain ⟨a, b, c, rfl⟩ := length_three ht.1
  have ha := ht.2 a (by simp)
  have hb := ht.2 b (by simp)
  have hc := ht.2 c (by simp)
  rw [limbs_val_three]
  have key := val3_zero_or_p a b c ha hb hc
  have e : ecc_192_zero_p secp_192r1_p [a, b, c]
      = (if a ||| b ||| c = 0 then 1 else 0) |||
        (if (a ^^^ 0xffffffffffffffff) ||| (b ^^^ 0xfffffffffffffffe)
            ||| (c ^^^ 0xffffffffffffffff) = 0 then 1 else 0) := by
    simp [ecc_192_zero_p, ECC_LIMB_SIZE, secp_192r1_p, ecc_p, List.range, List.range.loop]
  rw [e]
  simp only [lor_eq_zero, Nat.xor_eq_zero]
  by_cases h1 : (a = 0 ∧ b = 0) ∧ c = 0
  · have : (a + 2 ^ 64 * b + 2 ^ 128 * c) % p192 = 0 := key.2 (Or.inl ⟨h1.1.1, h1.1.2, h1.2⟩)
    rw [if_pos h1, if_pos this]
    split <;> rfl
  · by_cases h2 : (a = 0xffffffffffffffff ∧ b = 0xfffffffffffffffe) ∧ c = 0xffffffffffffffff
    · have : (a + 2 ^ 64 * b + 2 ^ 128 * c) % p192 = 0 := key.2 (Or.inr ⟨h2.1.1, h2.1.2, h2.2⟩)
      rw [if_neg h1, if_pos h2, if_pos this]
      rfl
    · have : ¬ (a + 2 ^ 64 * b + 2 ^ 128 * c) % p192 = 0 := by
        intro h
        rcases key.1 h with h | h
        · exact h1 ⟨⟨h.1, h.2.1⟩, h.2.2⟩
        · exact h2 ⟨⟨h.1, h.2.1⟩, h.2.2⟩
      rw [if_neg h1, if_neg h2, if_neg this]
      rfl

theorem after_succ (n : Nat) (F : ecc_mod_arith) (p : ecc_modulo) (s : sqrt_mem)
    (cp : List Nat) :
    ecc_192_sqrt_after (n + 1) F p s cp
      = ((ecc_192_sqrt_steps F p cp)[n]?.getD id) (ecc_192_sqrt_after n F p s cp) := by
  simp only [ecc_192_sqrt_after, List.take_succ, List.foldl_append]
  cases (ecc_192_sqrt_steps F p cp)[n]? <;> rfl

theorem sqrt_eq_after (F : ecc_mod_arith) (p : ecc_modulo) (s : sqrt_mem) (cp : List Nat) :
    ecc_192_sqrt F p s cp
      = (ecc_192_sqrt_after 10 F p s cp, ecc_192_zero_p p (ecc_192_sqrt_after 10 F p s cp).TA) :=
  rfl

/-- One `ecc_mod_pow_2k_mul (p, rp, xp, k, xp, tp)` step of the chain: from
`x ≡ c^e` to `x^(2^k) * x ≡ c^(e * 2^k + e)`. -/
theorem pow_step (F : ecc_mod_arith) (hF : helpers_correct F secp_192r1_p) (x t : List Nat)
    (k e c : Nat) (hx : field_limbs x) (hv : limbs_val 64 x % p192 = c ^ e % p192) :
    field_limbs (F.ecc_mod_pow_2k_mul secp_192r1_p x k x t).1 ∧
    limbs_val 64 (F.ecc_mod_pow_2k_mul secp_192r1_p x k x t).1 % p192
      = c ^ (e * 2 ^ k + e) % p192 := by
  obtain ⟨h1, h2⟩ := hF.pow_2k_mul x k x t hx hx
  rw [val_ecc_p] at h2
  refine ⟨h1, ?_⟩
  rw [h2, pow_add, pow_mul]
  have hm : limbs_val 64 x ≡ c ^ e [MOD p192] := hv
  exact (hm.pow (2 ^ k)).mul hm

/-- The values written by the eight exponentiation steps of `ecc_192_sqrt`. -/
theorem sqrt_chain (F : ecc_mod_arith) (hF : helpers_correct F secp_192r1_p) (s : sqrt_mem)
    (cp : List Nat) (hc : field_limbs cp) :
    (field_limbs (ecc_192_sqrt_after 1 F secp_192r1_p s cp).TA ∧
      limbs_val 64 (ecc_192_sqrt_after 1 F secp_192r1_p s cp).TA % p192
        = limbs_val 64 cp ^ 3 % p192) ∧
    (field_limbs (ecc_192_sqrt_after 2 F secp_192r1_p s cp).TB ∧
      limbs_val 64 (ecc_192_sqrt_after 2 F secp_192r1_p s cp).TB % p192
        = limbs_val 64 cp ^ (2 ^ 4 - 1) % p192) ∧
    (field_limbs (ecc_192_sqrt_after 3 F secp_192r1_p s cp).TA ∧
      limbs_val 64 (ecc_192_sqrt_after 3 F secp_192r1_p s cp).TA % p192
        = limbs_val 64 cp ^ (2 ^ 8 - 1) % p192) ∧
    (field_limbs (ecc_192_sqrt_after 4 F secp_192r1_p s cp).TB ∧
      limbs_val 64 (ecc_192_sqrt_after 4 F secp_192r1_p s cp).TB % p192
        = limbs_val 64 cp ^ (2 ^ 16 - 1) % p192) ∧
    (field_limbs (ecc_192_sqrt_after 5 F secp_192r1_p s cp).TA ∧
      limbs_val 64 (ecc_192_sqrt_after 5 F secp_192r1_p s cp).TA % p192
        = limbs_val 64 cp ^ (2 ^ 32 - 1) % p192) ∧
    (field_limbs (ecc_192_sqrt_after 6 F secp_192r1_p s cp).TB ∧
      limbs_val 64 (ecc_192_sqrt_after 6 F secp_192r1_p s cp).TB % p192
        = limbs_val 64 cp ^ (2 ^ 64 - 1) % p192) ∧
    (field_limbs (ecc_192_sqrt_after 7 F secp_192r1_p s cp).TC ∧
      limbs_val 64 (ecc_192_sqrt_after 7 F secp_192r1_p s cp).TC % p192
        = limbs_val 64 cp ^ (2 ^ 128 - 1) % p192) ∧
    (field_limbs (ecc_192_sqrt_after 8 F secp_192r1_p s cp).rp ∧
      limbs_val 64 (ecc_192_sqrt_after 8 F secp_192r1_p s cp).rp % p192
        = limbs_val 64 cp ^ (2 ^ 190 - 2 ^ 62) % p192) := by
  have h0 : limbs_val 64 cp % p192 = limbs_val 64 cp ^ 1 % p192 := by rw [pow_one]
  have a1 : ecc_192_sqrt_after 1 F secp_192r1_p s cp
      = ((ecc_192_sqrt_steps F secp_192r1_p cp)[0]?.getD id) (ecc_192_sqrt_after 0 F secp_192r1_p s cp) :=
    after_succ 0 F secp_192r1_p s cp
  have a2 : ecc_192_sqrt_after 2 F secp_192r1_p s cp
      = ((ecc_192_sqrt_steps F secp_192r1_p cp)[1]?.getD id) (ecc_192_sqrt_after 1 F secp_192r1_p s cp) :=
    after_succ 1 F secp_192r1_p s cp
  have a3 : ecc_192_sqrt_after 3 F secp_192r1_p s cp
      = ((ecc_192_sqrt_steps F secp_192r1_p cp)[2]?.getD id) (ecc_192_sqrt_after 2 F secp_192r1_p s cp) :=
    after_succ 2 F secp_192r1_p s cp
  have a4 : ecc_192_sqrt_after 4 F secp_192r1_p s cp
      = ((ecc_192_sqrt_steps F secp_192r1_p cp)[3]?.getD id) (ecc_192_sqrt_after 3 F secp_192r1_p s cp) :=
    after_succ 3 F secp_192r1_p s cp
  have a5 : ecc_192_sqrt_after 5 F secp_192r1_p s cp
      = ((ecc_192_sqrt_steps F secp_192r1_p cp)[4]?.getD id) (ecc_192_sqrt_after 4 F secp_192r1_p s cp) :=
    after_succ 4 F secp_192r1_p s cp
  have a6 : ecc_192_sqrt_after 6 F secp_192r1_p s cp
      = ((ecc_192_sqrt_steps F secp_192r1_p cp)[5]?.getD id) (ecc_192_sqrt_after 5 F secp_192r1_p s cp) :=
    after_succ 5 F secp_192r1_p s cp
  have a7 : ecc_192_sqrt_after 7 F secp_192r1_p s cp
      = ((ecc_192_sqrt_steps F secp_192r1_p cp)[6]?.getD id) (ecc_192_sqrt_after 6 F secp_192r1_p s cp) :=
    after_succ 6 F secp_192r1_p s cp
  have a8 : ecc_192_sqrt_after 8 F secp_192r1_p s cp
      = ((ecc_192_sqrt_steps F secp_192r1_p cp)[7]?.getD id) (ecc_192_sqrt_after 7 F secp_192r1_p s cp) :=
    after_succ 7 F secp_192r1_p s cp
  have r1 : field_limbs (ecc_192_sqrt_after 1 F secp_192r1_p s cp).TA ∧
      limbs_val 64 (ecc_192_sqrt_after 1 F secp_192r1_p s cp).TA % p192 = limbs_val 64 cp ^ (3) % p192 := by
    rw [a1]
    exact pow_step F hF cp (ecc_192_sqrt_after 0 F secp_192r1_p s cp).TB 1 1 _ hc h0
  have r2 : field_limbs (ecc_192_sqrt_after 2 F secp_192r1_p s cp).TB ∧
      limbs_val 64 (ecc_192_sqrt_after 2 F secp_192r1_p s cp).TB % p192 = limbs_val 64 cp ^ (2 ^ 4 - 1) % p192 := by
    rw [a2]
    exact pow_step F hF (ecc_192_sqrt_after 1 F secp_192r1_p s cp).TA (ecc_192_sqrt_after 1 F secp_192r1_p s cp).TC 2 3 _ r1.1 r1.2
  have r3 : field_limbs (ecc_192_sqrt_after 3 F secp_192r1_p s cp).TA ∧
      limbs_val 64 (ecc_192_sqrt_after 3 F secp_192r1_p s cp).TA % p192 = limbs_val 64 cp ^ (2 ^ 8 - 1) % p192 := by
    rw [a3]
    exact pow_step F hF (ecc_192_sqrt_after 2 F secp_192r1_p s cp).TB (ecc_192_sqrt_after 2 F secp_192r1_p s cp).TC 4 (2 ^ 4 - 1) _ r2.1 r2.2
  have r4 : field_limbs (ecc_192_sqrt_after 4 F secp_192r1_p s cp).TB ∧
      limbs_val 64 (ecc_192_sqrt_after 4 F secp_192r1_p s cp).TB % p192 = limbs_val 64 cp ^ (2 ^ 16 - 1) % p192 := by
    rw [a4]
    exact pow_step F hF (ecc_192_sqrt_after 3 F secp_192r1_p s cp).TA (ecc_192_sqrt_after 3 F secp_192r1_p s cp).TC 8 (2 ^ 8 - 1) _ r3.1 r3.2
  have r5 : field_limbs (ecc_192_sqrt_after 5 F secp_192r1_p s cp).TA ∧
      limbs_val 64 (ecc_192_sqrt_after 5 F secp_192r1_p s cp).TA % p192 = limbs_val 64 cp ^ (2 ^ 32 - 1) % p192 := by
    rw [a5]
    exact pow_step F hF (ecc_192_sqrt_after 4 F secp_192r1_p s cp).TB (ecc_192_sqrt_after 4 F secp_192r1_p s cp).TC 16 (2 ^ 16 - 1) _ r4.1 r4.2
  have r6 : field_limbs (ecc_192_sqrt_after 6 F secp_192r1_p s cp).TB ∧
      limbs_val 64 (ecc_192_sqrt_after 6 F secp_192r1_p s cp).TB % p192 = limbs_val 64 cp ^ (2 ^ 64 - 1) % p192 := by
    rw [a6]
    exact pow_step F hF (ecc_192_sqrt_after 5 F secp_192r1_p s cp).TA (ecc_192_sqrt_after 5 F secp_192r1_p s cp).TC 32 (2 ^ 32 - 1) _ r5.1 r5.2
  have r7 : field_limbs (ecc_192_sqrt_after 7 F secp_192r1_p s cp).TC ∧
      limbs_val 64 (ecc_192_sqrt_after 7 F secp_192r1_p s cp).TC % p192 = limbs_val 64 cp ^ (2 ^ 128 - 1) % p192 := by
    rw [a7]
    exact pow_step F hF (ecc_192_sqrt_after 6 F secp_192r1_p s cp).TB (ecc_192_sqrt_after 6 F secp_192r1_p s cp).TA 64 (2 ^ 64 - 1) _ r6.1 r6.2
  obtain ⟨t8, v8⟩ := hF.pow_2k (ecc_192_sqrt_after 7 F secp_192r1_p s cp).TC 62
    (ecc_192_sqrt_after 7 F secp_192r1_p s cp).TA r7.1
  rw [val_ecc_p] at v8
  have r8 : field_limbs (ecc_192_sqrt_after 8 F secp_192r1_p s cp).rp ∧
      limbs_val 64 (ecc_192_sqrt_after 8 F secp_192r1_p s cp).rp % p192
        = limbs_val 64 cp ^ (2 ^ 190 - 2 ^ 62) % p192 := by
    rw [a8]
    refine ⟨t8, v8.trans ?_⟩
    have hm : limbs_val 64 (ecc_192_sqrt_after 7 F secp_192r1_p s cp).TC
        ≡ limbs_val 64 cp ^ (2 ^ 128 - 1) [MOD p192] := r7.2
    have := hm.pow (2 ^ 62)
    rw [← pow_mul, show ((2 ^ 128 - 1) * 2 ^ 62 : Nat) = 2 ^ 190 - 2 ^ 62 from rfl] at this
    exact this
  exact ⟨r1, r2, r3, r4, r5, r6, r7, r8⟩

/-- The root `ecc_192_sqrt` leaves in `rp` is the value written by statement
[8], and the returned flag is `1` exactly when its square is congruent to `c`. -/
theorem sqrt_result (F : ecc_mod_arith) (hF : helpers_correct F secp_192r1_p) (s : sqrt_mem)
    (cp : List Nat) (hc : field_limbs cp) :
    (ecc_192_sqrt F secp_192r1_p s cp).1.rp = (ecc_192_sqrt_after 8 F secp_192r1_p s cp).rp ∧
    (ecc_192_sqrt F secp_192r1_p s cp).2
      = if (limbs_val 64 (ecc_192_sqrt_after 8 F secp_192r1_p s cp).rp
            * limbs_val 64 (ecc_192_sqrt_after 8 F secp_192r1_p s cp).rp) % p192
          = limbs_val 64 cp % p192 then 1 else 0 := by
  have hr := (sqrt_chain F hF s cp hc).2.2.2.2.2.2.2.1
  have a9 : ecc_192_sqrt_after 9 F secp_192r1_p s cp
      = ((ecc_192_sqrt_steps F secp_192r1_p cp)[8]?.getD id)
          (ecc_192_sqrt_after 8 F secp_192r1_p s cp) := after_succ 8 F secp_192r1_p s cp
  have a10 : ecc_192_sqrt_after 10 F secp_192r1_p s cp
      = ((ecc_192_sqrt_steps F secp_192r1_p cp)[9]?.getD id)
          (ecc_192_sqrt_after 9 F secp_192r1_p s cp) := after_succ 9 F secp_192r1_p s cp
  obtain ⟨t9, v9⟩ := hF.sqr (ecc_192_sqrt_after 8 F secp_192r1_p s cp).rp hr
  have t9b : field_limbs (ecc_192_sqrt_after 9 F secp_192r1_p s cp).TA := by rw [a9]; exact t9
  have v9b : limbs_val 64 (ecc_192_sqrt_after 9 F secp_192r1_p s cp).TA % p192
      = (limbs_val 64 (ecc_192_sqrt_after 8 F secp_192r1_p s cp).rp
          * limbs_val 64 (ecc_192_sqrt_after 8 F secp_192r1_p s cp).rp) % p192 := by
    rw [a9]; rw [val_ecc_p] at v9; exact v9
  obtain ⟨t10, v10⟩ := hF.sub (ecc_192_sqrt_after 9 F secp_192r1_p s cp).TA cp t9b hc
  rw [val_ecc_p] at v10
  have t10b : field_limbs (ecc_192_sqrt_after 10 F secp_192r1_p s cp).TA := by
    rw [a10]; exact t10
  have v10b : (limbs_val 64 (ecc_192_sqrt_after 10 F secp_192r1_p s cp).TA + limbs_val 64 cp)
      % p192 = limbs_val 64 (ecc_192_sqrt_after 9 F secp_192r1_p s cp).TA % p192 := by
    rw [a10]; exact v10
  have hrp : (ecc_192_sqrt_after 10 F secp_192r1_p s cp).rp
      = (ecc_192_sqrt_after 8 F secp_192r1_p s cp).rp := by rw [a10, a9]; rfl
  rw [sqrt_eq_after]
  refine ⟨hrp, ?_⟩
  show ecc_192_zero_p secp_192r1_p (ecc_192_sqrt_after 10 F secp_192r1_p s cp).TA = _
  rw [zero_p_spec _ t10b]
  have hiff : limbs_val 64 (ecc_192_sqrt_after 10 F secp_192r1_p s cp).TA % p192 = 0 ↔
      (limbs_val 64 (ecc_192_sqrt_after 8 F secp_192r1_p s cp).rp
          * limbs_val 64 (ecc_192_sqrt_after 8 F secp_192r1_p s cp).rp) % p192
        = limbs_val 64 cp % p192 := by
    rw [← v9b, ← v10b]
    constructor
    · intro h
      rw [Nat.add_mod, h, Nat.zero_add, Nat.mod_mod]
    · intro h
      have h1 : limbs_val 64 (ecc_192_sqrt_after 10 F secp_192r1_p s cp).TA + limbs_val 64 cp
          ≡ 0 + limbs_val 64 cp [MOD p192] := by rw [Nat.zero_add]; exact h
      exact Nat.ModEq.add_right_cancel' _ h1
  by_cases h : limbs_val 64 (ecc_192_sqrt_after 10 F secp_192r1_p s cp).TA % p192 = 0
  · rw [if_pos h, if_pos (hiff.1 h)]
  · rw [if_neg h, if_neg (fun h2 => h (hiff.2 h2))]

theorem fermat_p192 (x : Nat) : x ^ p192 % p192 = x % p192 := by
  haveI : Fact (Nat.Prime p192) := ⟨p192_prime⟩
  rw [← ZMod.natCast_eq_natCast_iff', Nat.cast_pow]
  exact ZMod.pow_card _

/-- With `r ≡ c^((p+1)/4)` and `c` a square modulo `p`, `r^2 ≡ c`. -/
theorem sq_of_residue (r c x : Nat) (hr : r % p192 = c ^ (2 ^ 190 - 2 ^ 62) % p192)
    (hx : x * x % p192 = c % p192) : r * r % p192 = c % p192 := by
  have h1 : r ≡ c ^ (2 ^ 190 - 2 ^ 62) [MOD p192] := hr
  have h2 : c ≡ x * x [MOD p192] := hx.symm
  have h3 : r * r ≡ (x * x) ^ (2 ^ 190 - 2 ^ 62) * (x * x) ^ (2 ^ 190 - 2 ^ 62) [MOD p192] :=
    (h1.trans (h2.pow _)).mul (h1.trans (h2.pow _))
  have e : (x * x) ^ (2 ^ 190 - 2 ^ 62) * (x * x) ^ (2 ^ 190 - 2 ^ 62) = x ^ p192 * x := by
    have e1 : (x * x) ^ (2 ^ 190 - 2 ^ 62) = x ^ (2 * (2 ^ 190 - 2 ^ 62)) := by
      rw [← pow_two, ← pow_mul]
    have e2 : 2 * (2 ^ 190 - 2 ^ 62) + 2 * (2 ^ 190 - 2 ^ 62) = p192 + 1 := by decide
    rw [e1, ← pow_add, e2, pow_succ]
  rw [e] at h3
  have h4 : x ^ p192 * x ≡ x * x [MOD p192] := Nat.ModEq.mul_right x (fermat_p192 x)
  exact (h3.trans h4).trans h2.symm

theorem sqr_iter_eq (m : Nat) : ∀ k x, sqr_iter m k x = x ^ 2 ^ k % m := by
  intro k
  induction k with
  | zero => intro x; simp [sqr_iter]
  | succ k ih =>
    intro x
    rw [sqr_iter, ih, ← Nat.pow_mod, ← pow_two, ← pow_mul, ← pow_succ']

theorem to_limbs_field (v : Nat) : field_limbs (to_limbs 64 ECC_LIMB_SIZE v) :=
  ⟨to_limbs_length 64 ECC_LIMB_SIZE v, to_limbs_ok 64 ECC_LIMB_SIZE v⟩

theorem val_to_limbs_mod (v : Nat) :
    limbs_val 64 (to_limbs 64 ECC_LIMB_SIZE (v % p192)) = v % p192 := by
  rw [limbs_val_to_limbs]
  apply Nat.mod_eq_of_lt
  have h1 : v % p192 < p192 := Nat.mod_lt _ (by decide)
  have h2 : p192 < 2 ^ (64 * ECC_LIMB_SIZE) := by decide
  exact lt_trans h1 h2

theorem sub_mod_p192 (a b : Nat) : ((a + (p192 - b % p192)) % p192 + b) % p192 = a % p192 := by
  have hb : b % p192 < p192 := Nat.mod_lt _ (by decide)
  have h1 : (a + (p192 - b % p192)) % p192 + b ≡ a + (p192 - b % p192) + b % p192 [MOD p192] :=
    Nat.ModEq.add (Nat.mod_modEq _ _) (Nat.mod_modEq _ _).symm
  have h2 : a + (p192 - b % p192) + b % p192 = a + p192 := by omega
  rw [h2] at h1
  exact h1.trans (by simp [Nat.ModEq])

/-- The reference helpers satisfy the assumption made on the field helpers. -/
theorem canonical_correct : helpers_correct canonical_arith secp_192r1_p := by
  refine ⟨?_, ?_, ?_, ?_⟩
  · intro x k y t _ _
    refine ⟨to_limbs_field _, ?_⟩
    simp only [canonical_arith, val_ecc_p]
    rw [val_to_limbs_mod, Nat.mod_mod, sqr_iter_eq, Nat.mod_mul_mod]
  · intro x k t _
    refine ⟨to_limbs_field _, ?_⟩
    simp only [canonical_arith, val_ecc_p]
    rw [sqr_iter_eq, val_to_limbs_mod, Nat.mod_mod]
  · intro x _
    refine ⟨to_limbs_field _, ?_⟩
    simp only [canonical_arith, val_ecc_p]
    rw [val_to_limbs_mod, Nat.mod_mod]
  · intro a b _ _
    refine ⟨to_limbs_field _, ?_⟩
    simp only [canonical_arith, val_ecc_p]
    rw [val_to_limbs_mod, sub_mod_p192]

/-- `p - 1` is not a square modulo `p`, as `p ≡ 3 (mod 4)`. -/
theorem neg_one_nonresidue : ¬ ∃ x : Nat, x * x % p192 = (p192 - 1) % p192 := by
  rintro ⟨x, hx⟩
  haveI : Fact (Nat.Prime p192) := ⟨p192_prime⟩
  have h1 : ((x * x : Nat) : ZMod p192) = ((p192 - 1 : Nat) : ZMod p192) :=
    (ZMod.natCast_eq_natCast_iff' _ _ _).2 hx
  have h2 : ((p192 - 1 : Nat) : ZMod p192) = -1 := by
    rw [Nat.cast_sub (by decide), ZMod.natCast_self, Nat.cast_one, zero_sub]
  have h3 : IsSquare (-1 : ZMod p192) := ⟨(x : ZMod p192), by rw [← h2, ← h1, Nat.cast_mul]⟩
  exact (ZMod.exists_sq_eq_neg_one_iff.1 h3) (by decide)

theorem one_pow_mod (c e : Nat) (hc : c = 1) : c ^ e % p192 = 1 := by
  subst hc
  rw [one_pow]
  decide

/-- On a square `c` the root squares back to `c` and the flag is `1`. -/
theorem sqrt_on_square (F : ecc_mod_arith) (hF : helpers_correct F secp_192r1_p)
    (s : sqrt_mem) {cp : List Nat} (hc : field_limbs cp)
    (hsq : ∃ x : Nat, x * x % p192 = limbs_val 64 cp % p192) :
    limbs_val 64 (ecc_192_sqrt F secp_192r1_p s cp).1.rp ^ 2 % p192 = limbs_val 64 cp % p192 ∧
    (ecc_192_sqrt F secp_192r1_p s cp).2 = 1 := by
  obtain ⟨x, hx⟩ := hsq
  obtain ⟨h1, h2⟩ := sqrt_result F hF s cp hc
  have hr := (sqrt_chain F hF s cp hc).2.2.2.2.2.2.2.2
  have hsq := sq_of_residue _ _ x hr hx
  rw [h1, h2, if_pos hsq, pow_two]
  exact ⟨hsq, rfl⟩

/-! ## Properties of `ecc_192_sqrt` -/

/-- C2: with field helpers that compute `x^(2^k)*y`, `x^(2^k)`, `x^2` and `a-b`
modulo `p = 2^192 - 2^64 - 1` (a prime, see `p192_prime`), for every field
element `c` that is a square modulo `p` the value `r` that `ecc_192_sqrt`
writes to `rp` satisfies `r^2 ≡ c (mod p)` and the function returns `1`. -/
theorem ecc_192_sqrt_of_residue (F : ecc_mod_arith) (hF : helpers_correct F secp_192r1_p)
    (s : sqrt_mem) (cp : List Nat) (hc : field_limbs cp)
    (hsq : ∃ x : Nat, x * x % p192 = limbs_val 64 cp % p192) :
    limbs_val 64 (ecc_192_sqrt F secp_192r1_p s cp).1.rp ^ 2 % p192 = limbs_val 64 cp % p192 ∧
    (ecc_192_sqrt F secp_192r1_p s cp).2 = 1 :=
  sqrt_on_square F hF s hc hsq

/-- C2 with the reference helpers at `c = 4`. -/
theorem ecc_192_sqrt_of_residue_witness :
    (helpers_correct canonical_arith secp_192r1_p ∧ field_limbs [4, 0, 0] ∧
      ∃ x : Nat, x * x % p192 = limbs_val 64 [4, 0, 0] % p192) ∧
    limbs_val 64 (ecc_192_sqrt canonical_arith secp_192r1_p sqrt_mem_zero [4, 0, 0]).1.rp ^ 2
        % p192 = limbs_val 64 [4, 0, 0] % p192 ∧
    (ecc_192_sqrt canonical_arith secp_192r1_p sqrt_mem_zero [4, 0, 0]).2 = 1 :=
  ⟨⟨canonical_correct, by decide, ⟨2, by decide⟩⟩,
    ecc_192_sqrt_of_residue canonical_arith canonical_correct sqrt_mem_zero [4, 0, 0]
      (by decide) ⟨2, by decide⟩⟩

/-- C3: for every input `c`, square or not, the seven `ecc_mod_pow_2k_mul`
statements of `ecc_192_sqrt` write in turn `c^3`, `c^(2^4-1)`, `c^(2^8-1)`,
`c^(2^16-1)`, `c^(2^32-1)`, `c^(2^64-1)`, `c^(2^128-1)` modulo `p`, the final
`ecc_mod_pow_2k` with `k = 62` writes `r ≡ c^(2^190 - 2^62)`, which is what the
function leaves in `rp`; and `2^190 - 2^62 = (p+1)/4`, `p ≡ 3 (mod 4)`. -/
theorem ecc_192_sqrt_exponent_chain (F : ecc_mod_arith)
    (hF : helpers_correct F secp_192r1_p) (s : sqrt_mem) (cp : List Nat)
    (hc : field_limbs cp) :
    limbs_val 64 (ecc_192_sqrt_after 1 F secp_192r1_p s cp).TA % p192
      = limbs_val 64 cp ^ 3 % p192 ∧
    limbs_val 64 (ecc_192_sqrt_after 2 F secp_192r1_p s cp).TB % p192
      = limbs_val 64 cp ^ (2 ^ 4 - 1) % p192 ∧
    limbs_val 64 (ecc_192_sqrt_after 3 F secp_192r1_p s cp).TA % p192
      = limbs_val 64 cp ^ (2 ^ 8 - 1) % p192 ∧
    limbs_val 64 (ecc_192_sqrt_after 4 F secp_192r1_p s cp).TB % p192
      = limbs_val 64 cp ^ (2 ^ 16 - 1) % p192 ∧
    limbs_val 64 (ecc_192_sqrt_after 5 F secp_192r1_p s cp).TA % p192
      = limbs_val 64 cp ^ (2 ^ 32 - 1) % p192 ∧
    limbs_val 64 (ecc_192_sqrt_after 6 F secp_192r1_p s cp).TB % p192
      = limbs_val 64 cp ^ (2 ^ 64 - 1) % p192 ∧
    limbs_val 64 (ecc_192_sqrt_after 7 F secp_192r1_p s cp).TC % p192
      = limbs_val 64 cp ^ (2 ^ 128 - 1) % p192 ∧
    limbs_val 64 (ecc_192_sqrt_after 8 F secp_192r1_p s cp).rp % p192
      = limbs_val 64 cp ^ (2 ^ 190 - 2 ^ 62) % p192 ∧
    limbs_val 64 (ecc_192_sqrt F secp_192r1_p s cp).1.rp % p192
      = limbs_val 64 cp ^ (2 ^ 190 - 2 ^ 62) % p192 ∧
    2 ^ 190 - 2 ^ 62 = (p192 + 1) / 4 ∧ p192 % 4 = 3 := by
  obtain ⟨r1, r2, r3, r4, r5, r6, r7, r8⟩ := sqrt_chain F hF s cp hc
  refine ⟨r1.2, r2.2, r3.2, r4.2, r5.2, r6.2, r7.2, r8.2, ?_, by decide, by decide⟩
  rw [(sqrt_result F hF s cp hc).1]
  exact r8.2

/-- C3 with the reference helpers at `c = 5`. -/
theorem ecc_192_sqrt_exponent_chain_witness :
    (helpers_correct canonical_arith secp_192r1_p ∧ field_limbs [5, 0, 0]) ∧
    limbs_val 64 (ecc_192_sqrt_after 1 canonical_arith secp_192r1_p sqrt_mem_zero [5, 0, 0]).TA
        % p192 = limbs_val 64 [5, 0, 0] ^ 3 % p192 ∧
    limbs_val 64 (ecc_192_sqrt_after 2 canonical_arith secp_192r1_p sqrt_mem_zero [5, 0, 0]).TB
        % p192 = limbs_val 64 [5, 0, 0] ^ (2 ^ 4 - 1) % p192 ∧
    limbs_val 64 (ecc_192_sqrt_after 3 canonical_arith secp_192r1_p sqrt_mem_zero [5, 0, 0]).TA
        % p192 = limbs_val 64 [5, 0, 0] ^ (2 ^ 8 - 1) % p192 ∧
    limbs_val 64 (ecc_192_sqrt_after 4 canonical_arith secp_192r1_p sqrt_mem_zero [5, 0, 0]).TB
        % p192 = limbs_val 64 [5, 0, 0] ^ (2 ^ 16 - 1) % p192 ∧
    limbs_val 64 (ecc_192_sqrt_after 5 canonical_arith secp_192r1_p sqrt_mem_zero [5, 0, 0]).TA
        % p192 = limbs_val 64 [5, 0, 0] ^ (2 ^ 32 - 1) % p192 ∧
    limbs_val 64 (ecc_192_sqrt_after 6 canonical_arith secp_192r1_p sqrt_mem_zero [5, 0, 0]).TB
        % p192 = limbs_val 64 [5, 0, 0] ^ (2 ^ 64 - 1) % p192 ∧
    limbs_val 64 (ecc_192_sqrt_after 7 canonical_arith secp_192r1_p sqrt_mem_zero [5, 0, 0]).TC
        % p192 = limbs_val 64 [5, 0, 0] ^ (2 ^ 128 - 1) % p192 ∧
    limbs_val 64 (ecc_192_sqrt_after 8 canonical_arith secp_192r1_p sqrt_mem_zero [5, 0, 0]).rp
        % p192 = limbs_val 64 [5, 0, 0] ^ (2 ^ 190 - 2 ^ 62) % p192 ∧
    limbs_val 64 (ecc_192_sqrt canonical_arith secp_192r1_p sqrt_mem_zero [5, 0, 0]).1.rp % p192
      = limbs_val 64 [5, 0, 0] ^ (2 ^ 190 - 2 ^ 62) % p192 ∧
    2 ^ 190 - 2 ^ 62 = (p192 + 1) / 4 ∧ p192 % 4 = 3 :=
  ⟨⟨canonical_correct, by decide⟩,
    ecc_192_sqrt_exponent_chain canonical_arith canonical_correct sqrt_mem_zero [5, 0, 0]
      (by decide)⟩

/-- C4: with field helpers correct modulo `p = 2^192 - 2^64 - 1`, for every
field element `c` that is not a square modulo `p`, `ecc_192_sqrt` returns `0`. -/
theorem ecc_192_sqrt_of_nonresidue (F : ecc_mod_arith) (hF : helpers_correct F secp_192r1_p)
    (s : sqrt_mem) (cp : List Nat) (hc : field_limbs cp)
    (hns : ¬ ∃ x : Nat, x * x % p192 = limbs_val 64 cp % p192) :
    (ecc_192_sqrt F secp_192r1_p s cp).2 = 0 := by
  rw [(sqrt_result F hF s cp hc).2, if_neg]
  intro h
  exact hns ⟨_, h⟩

/-- C4 with the reference helpers at `c = p - 1`. -/
theorem ecc_192_sqrt_of_nonresidue_witness :
    (helpers_correct canonical_arith secp_192r1_p ∧
      field_limbs [2 ^ 64 - 2, 2 ^ 64 - 2, 2 ^ 64 - 1] ∧
      ¬ ∃ x : Nat, x * x % p192 = limbs_val 64 [2 ^ 64 - 2, 2 ^ 64 - 2, 2 ^ 64 - 1] % p192) ∧
    (ecc_192_sqrt canonical_arith secp_192r1_p sqrt_mem_zero
      [2 ^ 64 - 2, 2 ^ 64 - 2, 2 ^ 64 - 1]).2 = 0 :=
  have hv : limbs_val 64 [2 ^ 64 - 2, 2 ^ 64 - 2, 2 ^ 64 - 1] = p192 - 1 := by decide
  have hn : ¬ ∃ x : Nat,
      x * x % p192 = limbs_val 64 [2 ^ 64 - 2, 2 ^ 64 - 2, 2 ^ 64 - 1] % p192 := by
    rw [hv]; exact neg_one_nonresidue
  ⟨⟨canonical_correct, by decide, hn⟩,
    ecc_192_sqrt_of_nonresidue canonical_arith canonical_correct sqrt_mem_zero
      [2 ^ 64 - 2, 2 ^ 64 - 2, 2 ^ 64 - 1] (by decide) hn⟩

/-- C9: for secp192r1 and `c = 1`, with any correct field helpers the value `r`
that `ecc_192_sqrt` writes is the root `1` of the pair `1`, `p - 1` as a residue
modulo `p`, it squares back to `1` modulo `p`, and the function returns `1`;
with helpers that write least residues `r` is the limb array of `1` itself. -/
theorem ecc_192_sqrt_one (F : ecc_mod_arith) (hF : helpers_correct F secp_192r1_p)
    (s : sqrt_mem) :
    (limbs_val 64 (ecc_192_sqrt F secp_192r1_p s [1, 0, 0]).1.rp % p192 = 1 ∨
      limbs_val 64 (ecc_192_sqrt F secp_192r1_p s [1, 0, 0]).1.rp % p192 = p192 - 1) ∧
    limbs_val 64 (ecc_192_sqrt F secp_192r1_p s [1, 0, 0]).1.rp % p192 = 1 ∧
    limbs_val 64 (ecc_192_sqrt F secp_192r1_p s [1, 0, 0]).1.rp ^ 2 % p192 = 1 ∧
    (ecc_192_sqrt F secp_192r1_p s [1, 0, 0]).2 = 1 ∧
    (ecc_192_sqrt canonical_arith secp_192r1_p s [1, 0, 0]).1.rp = [1, 0, 0] := by
  have hc : field_limbs [1, 0, 0] := by decide
  have hv : limbs_val 64 [1, 0, 0] = 1 := by decide
  have h1 := (sqrt_result F hF s [1, 0, 0] hc).1
  have hr := (sqrt_chain F hF s [1, 0, 0] hc).2.2.2.2.2.2.2.2
  have hone : 1 % p192 = 1 := by decide
  rw [one_pow_mod _ _ hv] at hr
  have hsq : ∃ x : Nat, x * x % p192 = limbs_val 64 [1, 0, 0] % p192 := ⟨1, by decide⟩
  obtain ⟨h2, h3⟩ := sqrt_on_square F hF s hc hsq
  rw [hv, hone] at h2
  refine ⟨Or.inl (h1 ▸ hr), h1 ▸ hr, h2, h3, ?_⟩
  simp only [ecc_192_sqrt, ecc_192_sqrt_steps, canonical_arith, List.foldl_cons, List.foldl_nil]
  decide!

/-- C9 with the reference helpers and untouched scratch memory. -/
theorem ecc_192_sqrt_one_witness :
    helpers_correct canonical_arith secp_192r1_p ∧
    ((limbs_val 64 (ecc_192_sqrt canonical_arith secp_192r1_p sqrt_mem_zero [1, 0, 0]).1.rp
          % p192 = 1 ∨
        limbs_val 64 (ecc_192_sqrt canonical_arith secp_192r1_p sqrt_mem_zero [1, 0, 0]).1.rp
          % p192 = p192 - 1) ∧
      limbs_val 64 (ecc_192_sqrt canonical_arith secp_192r1_p sqrt_mem_zero [1, 0, 0]).1.rp
        % p192 = 1 ∧
      limbs_val 64 (ecc_192_sqrt canonical_arith secp_192r1_p sqrt_mem_zero [1, 0, 0]).1.rp ^ 2
        % p192 = 1 ∧
      (ecc_192_sqrt canonical_arith secp_192r1_p sqrt_mem_zero [1, 0, 0]).2 = 1 ∧
      (ecc_192_sqrt canonical_arith secp_192r1_p sqrt_mem_zero [1, 0, 0]).1.rp = [1, 0, 0]) :=
  ⟨canonical_correct, ecc_192_sqrt_one canonical_arith canonical_correct sqrt_mem_zero⟩

/-! ## The assertions and the final normalisation -/

/-- `ecc_192_modp` is its three parts in sequence, `none` as soon as the
assertion after a part fails. -/
theorem ecc_192_modp_eq_parts (rp : List Nat) :
    ecc_192_modp rp =
      if (ecc_192_modp_fold1 rp).2 ≤ 2 then
        if (ecc_192_modp_fold2 (ecc_192_modp_fold1 rp).1 (ecc_192_modp_fold1 rp).2).2 ≤ 1 then
          if (ecc_192_modp_final
                (ecc_192_modp_fold2 (ecc_192_modp_fold1 rp).1 (ecc_192_modp_fold1 rp).2).1
                (ecc_192_modp_fold2 (ecc_192_modp_fold1 rp).1 (ecc_192_modp_fold1 rp).2).2).2 = 0
          then some (ecc_192_modp_final
                (ecc_192_modp_fold2 (ecc_192_modp_fold1 rp).1 (ecc_192_modp_fold1 rp).2).1
                (ecc_192_modp_fold2 (ecc_192_modp_fold1 rp).1 (ecc_192_modp_fold1 rp).2).2).1
          else none
        else none
      else none := by
  unfold ecc_192_modp ecc_192_modp_fold1 ecc_192_modp_fold2 ecc_192_modp_final
  dsimp only

theorem ecc_192_modp32_eq_parts (rp : List Nat) :
    ecc_192_modp32 rp =
      if (ecc_192_modp32_fold1 rp).2 ≤ 2 then
        if (ecc_192_modp32_fold2 (ecc_192_modp32_fold1 rp).1 (ecc_192_modp32_fold1 rp).2).2 ≤ 1
        then
          if (ecc_192_modp32_final
                (ecc_192_modp32_fold2 (ecc_192_modp32_fold1 rp).1 (ecc_192_modp32_fold1 rp).2).1
                (ecc_192_modp32_fold2 (ecc_192_modp32_fold1 rp).1
                  (ecc_192_modp32_fold1 rp).2).2).2 = 0
          then some (ecc_192_modp32_final
                (ecc_192_modp32_fold2 (ecc_192_modp32_fold1 rp).1 (ecc_192_modp32_fold1 rp).2).1
                (ecc_192_modp32_fold2 (ecc_192_modp32_fold1 rp).1
                  (ecc_192_modp32_fold1 rp).2).2).1
          else none
        else none
      else none := by
  unfold ecc_192_modp32 ecc_192_modp32_fold1 ecc_192_modp32_fold2 ecc_192_modp32_final
  dsimp only

/-- The three parts of the 64-bit `ecc_192_modp` on explicit limbs: what each
leaves in `rp`, its carry, and the exact integer identities they satisfy. -/
theorem modp64_steps (a0 a1 a2 a3 a4 a5 : Nat) (h0 : a0 < 2 ^ 64) (h1 : a1 < 2 ^ 64)
    (h2 : a2 < 2 ^ 64) (h3 : a3 < 2 ^ 64) (h4 : a4 < 2 ^ 64) (h5 : a5 < 2 ^ 64) :
    ∃ x1 y2 y3 cy z0 u1 u2 d r0 r1 r2,
      ecc_192_modp_fold1 [a0, a1, a2, a3, a4, a5] = ([a0, x1, y2, y3, a4, a5], cy) ∧
      ecc_192_modp_fold2 [a0, x1, y2, y3, a4, a5] cy = ([z0, u1, u2, y3, cy, a5], d) ∧
      ecc_192_modp_final [z0, u1, u2, y3, cy, a5] d = ([r0, r1, r2, y3, cy, a5], 0) ∧
      cy ≤ 2 ∧ d ≤ 1 ∧
      (x1 < 2 ^ 64 ∧ y2 < 2 ^ 64 ∧ y3 < 2 ^ 64) ∧
      (z0 < 2 ^ 64 ∧ u1 < 2 ^ 64 ∧ u2 < 2 ^ 64) ∧
      (r0 < 2 ^ 64 ∧ r1 < 2 ^ 64 ∧ r2 < 2 ^ 64) ∧
      a0 + 2 ^ 64 * x1 + 2 ^ 128 * y2 + 2 ^ 192 * (y3 + 2 ^ 64 * cy)
        = a0 + 2 ^ 64 * a1 + 2 ^ 128 * a2 + 2 ^ 192 * a3
          + (a4 + 2 ^ 64 * a5) * (2 ^ 128 + 2 ^ 64) ∧
      z0 + 2 ^ 64 * u1 + 2 ^ 128 * u2 + 2 ^ 192 * d
        = a0 + 2 ^ 64 * x1 + 2 ^ 128 * y2 + (y3 + 2 ^ 64 * cy) * (2 ^ 64 + 1) ∧
      r0 + 2 ^ 64 * r1 + 2 ^ 128 * r2
        = (if d = 0 then z0 + 2 ^ 64 * u1 + 2 ^ 128 * u2
           else z0 + 2 ^ 64 * u1 + 2 ^ 128 * u2 + (2 ^ 64 + 1)) := by
  obtain ⟨x1, x2, c1, e1, hx1, hx2, hc1, v1⟩ := add64_2 a1 a2 a4 a5 h1 h2 h4 h5
  obtain ⟨x3, c2, e2, hx3, hc2, v2⟩ := sec64_1 a3 c1 h3 (carry_lt c1 hc1)
  obtain ⟨y2, y3, c3, e3, hy2, hy3, hc3, v3⟩ := add64_2 x2 x3 a4 a5 hx2 hx3 h4 h5
  have hcy : (c2 + c3) % 2 ^ 64 = c2 + c3 := Nat.mod_eq_of_lt (carry_sum_lt c2 c3 hc2 hc3)
  have hcy2 : c2 + c3 ≤ 2 := Nat.add_le_add hc2 hc3
  obtain ⟨z0, z1, d1, f1, hz0, hz1, hd1, w1⟩ :=
    add64_2 a0 x1 y3 (c2 + c3) h0 hx1 hy3 (carry_sum_lt c2 c3 hc2 hc3)
  obtain ⟨z2, d2, f2, hz2, hd2, w2⟩ := sec64_1 y2 d1 hy2 (carry_lt d1 hd1)
  obtain ⟨u1, u2, d3, f3, hu1, hu2, hd3, w3⟩ :=
    add64_2 z1 z2 y3 (c2 + c3) hz1 hz2 hy3 (carry_sum_lt c2 c3 hc2 hc3)
  have V1 := fold1_val a0 a1 a2 a3 a4 a5 x1 x2 x3 y2 y3 c1 c2 c3 v1 v2 v3
  have V2 := fold2_val a0 x1 y2 y3 (c2 + c3) z0 z1 z2 u1 u2 d1 d2 d3 w1 w2 w3
  have hdy1 : d2 + d3 ≤ 1 :=
    fold2_carry z0 u1 u2 (d2 + d3) a0 x1 y2 y3 (c2 + c3) h0 hx1 hy2 hy3 hcy2 V2
  have hdy : (d2 + d3) % 2 ^ 64 = d2 + d3 := Nat.mod_eq_of_lt (carry_sum_lt d2 d3 hd2 hd3)
  have hlo := val3_lt a0 x1 y2 h0 hx1 hy2
  have p1 : ecc_192_modp_fold1 [a0, a1, a2, a3, a4, a5]
      = ([a0, x1, y2, y3, a4, a5], c2 + c3) := by
    simp only [ecc_192_modp_fold1, load, store, List.drop_succ_cons, List.drop_zero,
      List.take_succ_cons, List.take_zero, List.take_nil, List.drop_nil, List.cons_append,
      List.nil_append, List.length_cons, List.length_nil, List.append_nil, e1, e2, e3, hcy,
      Nat.reduceAdd]
  have p2 : ecc_192_modp_fold2 [a0, x1, y2, y3, a4, a5] (c2 + c3)
      = ([z0, u1, u2, y3, c2 + c3, a5], d2 + d3) := by
    simp only [ecc_192_modp_fold2, load, store, List.drop_succ_cons, List.drop_zero,
      List.take_succ_cons, List.take_zero, List.take_nil, List.drop_nil, List.cons_append,
      List.nil_append, List.length_cons, List.length_nil, List.append_nil, f1, f2, f3, hdy,
      Nat.reduceAdd]
  rcases Nat.eq_zero_or_pos (d2 + d3) with hz | hp
  · refine ⟨x1, y2, y3, c2 + c3, z0, u1, u2, d2 + d3, z0, u1, u2, p1, p2, ?_, hcy2, hdy1,
      ⟨hx1, hy2, hy3⟩, ⟨hz0, hu1, hu2⟩, ⟨hz0, hu1, hu2⟩, V1, V2, ?_⟩
    · rw [hz]
      simp [ecc_192_modp_final, cnd_add_n, load, store]
    · rw [if_pos hz]
  · have hone : d2 + d3 = 1 := Nat.le_antisymm hdy1 hp
    obtain ⟨r0, r1, r2, c4, g, hr0, hr1, hr2, hc4, w4⟩ := add64_3 z0 u1 u2 1 1 0 hz0 hu1 hu2
      (by norm_num) (by norm_num) (by norm_num)
    have V2b := V2
    rw [hone] at V2b
    obtain ⟨hc40, hv⟩ := final_carry z0 u1 u2 r0 r1 r2 c4 _ _ hlo (hi_lt y3 _ hy3 hcy2) V2b w4
    subst hc40
    refine ⟨x1, y2, y3, c2 + c3, z0, u1, u2, d2 + d3, r0, r1, r2, p1, p2, ?_, hcy2, hdy1,
      ⟨hx1, hy2, hy3⟩, ⟨hz0, hu1, hu2⟩, ⟨hr0, hr1, hr2⟩, V1, V2, ?_⟩
    · rw [hone]
      simp [ecc_192_modp_final, cnd_add_n, load, store, ecc_Bmodp, g]
    · rw [if_neg (by omega)]
      exact hv

theorem split_192 (W lo hi : Nat) (hlo : lo < 2 ^ 192) (h : W = lo + 2 ^ 192 * hi) :
    W % 2 ^ 192 = lo ∧ W / 2 ^ 192 = hi := by
  omega

theorem limbs_val_five (a0 a1 a2 a3 a4 : Nat) : limbs_val 64 [a0, a1, a2, a3, a4]
    = a0 + 2 ^ 64 * a1 + 2 ^ 128 * a2 + 2 ^ 192 * (a3 + 2 ^ 64 * a4) := by
  simp only [limbs_val]
  ring

theorem second_fold_split (V r d lo hi : Nat) (hr : r < 2 ^ 192)
    (hV : V = lo + (2 ^ 64 + 1) * hi) (h : r + 2 ^ 192 * d = lo + hi * (2 ^ 64 + 1)) :
    d = V / 2 ^ 192 ∧ r = V % 2 ^ 192 := by
  omega

theorem normalised_value (V r d s : Nat) (hr : r < 2 ^ 192) (hd : d ≤ 1)
    (h1 : d = V / 2 ^ 192) (h2 : r = V % 2 ^ 192)
    (hs : s = if d = 0 then r else r + (2 ^ 64 + 1)) (hs2 : s < 2 ^ 192) :
    s = (if d = 1 then (r + (2 ^ 64 + 1)) % 2 ^ 192 else r) ∧
    s = (if V < 2 ^ 192 then V else V - p192) := by
  simp only [p192]
  rcases Nat.eq_zero_or_pos d with h0 | h0
  · subst h0
    simp only [if_true] at hs
    subst hs
    have hV : V < 2 ^ 192 := by omega
    rw [if_neg (by decide), if_pos hV]
    omega
  · have hd1 : d = 1 := by omega
    subst hd1
    rw [if_neg (by decide)] at hs
    subst hs
    have hV : ¬ V < 2 ^ 192 := by omega
    rw [if_pos rfl, if_neg hV, Nat.mod_eq_of_lt hs2]
    omega

/-- The 64-bit `ecc_192_modp` on any six-limb array: the three carries at the
assertions are within bounds, the function returns, and the second fold and
the conditional add act on the exact integers as `second_fold_value` says. -/
theorem modp64_parts_spec (rp : List Nat) (hlen : rp.length = 6) (hok : limbs_ok 64 rp) :
    (ecc_192_modp_fold1 rp).2 ≤ 2 ∧ (ecc_192_modp_at_assert2 rp).2 ≤ 1 ∧
    (ecc_192_modp_at_assert3 rp).2 = 0 ∧
    ecc_192_modp rp = some (ecc_192_modp_at_assert3 rp).1 ∧
    (ecc_192_modp_at_assert2 rp).2 = second_fold_value rp / 2 ^ 192 ∧
    limbs_val 64 ((ecc_192_modp_at_assert2 rp).1.take 3) = second_fold_value rp % 2 ^ 192 ∧
    limbs_val 64 ((ecc_192_modp_at_assert3 rp).1.take 3)
      = (if (ecc_192_modp_at_assert2 rp).2 = 1 then
          (limbs_val 64 ((ecc_192_modp_at_assert2 rp).1.take 3) + (2 ^ 64 + 1)) % 2 ^ 192
         else limbs_val 64 ((ecc_192_modp_at_assert2 rp).1.take 3)) ∧
    limbs_val 64 ((ecc_192_modp_at_assert3 rp).1.take 3)
      = (if second_fold_value rp < 2 ^ 192 then second_fold_value rp
         else second_fold_value rp - p192) := by
  obtain ⟨a0, a1, a2, a3, a4, a5, rfl⟩ := length_six hlen
  have h0 := hok a0 (by simp)
  have h1 := hok a1 (by simp)
  have h2 := hok a2 (by simp)
  have h3 := hok a3 (by simp)
  have h4 := hok a4 (by simp)
  have h5 := hok a5 (by simp)
  obtain ⟨x1, y2, y3, cy, z0, u1, u2, d, r0, r1, r2, p1, p2, p3, hcy, hd, ⟨hx1, hy2, hy3⟩,
    ⟨hz0, hu1, hu2⟩, ⟨hr0, hr1, hr2⟩, V1, V2, hfin⟩ := modp64_steps a0 a1 a2 a3 a4 a5 h0 h1 h2 h3 h4 h5
  have q2 : ecc_192_modp_at_assert2 [a0, a1, a2, a3, a4, a5] = ([z0, u1, u2, y3, cy, a5], d) := by
    rw [ecc_192_modp_at_assert2, p1, p2]
  have q3 : ecc_192_modp_at_assert3 [a0, a1, a2, a3, a4, a5]
      = ([r0, r1, r2, y3, cy, a5], 0) := by
    rw [ecc_192_modp_at_assert3, q2, p3]
  have hW : first_fold_value [a0, a1, a2, a3, a4, a5]
      = a0 + 2 ^ 64 * x1 + 2 ^ 128 * y2 + 2 ^ 192 * (y3 + 2 ^ 64 * cy) := by
    rw [first_fold_value, p1]
    exact limbs_val_five a0 x1 y2 y3 cy
  have hlo := val3_lt a0 x1 y2 h0 hx1 hy2
  obtain ⟨hWm, hWd⟩ := split_192 _ _ _ hlo hW
  have hV : second_fold_value [a0, a1, a2, a3, a4, a5]
      = a0 + 2 ^ 64 * x1 + 2 ^ 128 * y2 + (2 ^ 64 + 1) * (y3 + 2 ^ 64 * cy) := by
    rw [second_fold_value, hWm, hWd]
  have hz := val3_lt z0 u1 u2 hz0 hu1 hu2
  have hr := val3_lt r0 r1 r2 hr0 hr1 hr2
  obtain ⟨hd1, hz1⟩ := second_fold_split _ _ d _ _ hz hV V2
  obtain ⟨n1, n2⟩ := normalised_value _ _ d _ hz hd hd1 hz1 hfin hr
  have e : ecc_192_modp [a0, a1, a2, a3, a4, a5] = some [r0, r1, r2, y3, cy, a5] := by
    have hp1 : (ecc_192_modp_fold1 [a0, a1, a2, a3, a4, a5]).2 ≤ 2 := by rw [p1]; exact hcy
    have hp2 : (ecc_192_modp_fold2 (ecc_192_modp_fold1 [a0, a1, a2, a3, a4, a5]).1
        (ecc_192_modp_fold1 [a0, a1, a2, a3, a4, a5]).2).2 ≤ 1 := by rw [p1, p2]; exact hd
    rw [ecc_192_modp_eq_parts, if_pos hp1, if_pos hp2, p1, p2, p3]
    rfl
  rw [q2, q3, p1, e]
  exact ⟨hcy, hd, rfl, rfl, hd1, (limbs_val_three z0 u1 u2).trans hz1,
    (limbs_val_three r0 r1 r2).trans ((limbs_val_three z0 u1 u2).symm ▸ n1),
    (limbs_val_three r0 r1 r2).trans n2⟩

/-- The three parts of the 32-bit `ecc_192_modp` on explicit limbs: what each
leaves in `rp` and its carry. -/
theorem modp32_steps (a0 a1 a2 a3 a4 a5 a6 a7 a8 a9 a10 a11 : Nat) (h0 : a0 < 2 ^ 32)
    (h1 : a1 < 2 ^ 32) (h2 : a2 < 2 ^ 32) (h3 : a3 < 2 ^ 32) (h4 : a4 < 2 ^ 32)
    (h5 : a5 < 2 ^ 32) (h6 : a6 < 2 ^ 32) (h7 : a7 < 2 ^ 32) (h8 : a8 < 2 ^ 32)
    (h9 : a9 < 2 ^ 32) (h10 : a10 < 2 ^ 32) (h11 : a11 < 2 ^ 32) :
    ∃ x2 x3 y4 y5 y6 y7 cy z0 z1 u2 u3 u4 u5 d r0 r1 r2 r3 r4 r5,
      ecc_192_modp32_fold1 [a0, a1, a2, a3, a4, a5, a6, a7, a8, a9, a10, a11]
        = ([a0, a1, x2, x3, y4, y5, y6, y7, a8, a9, a10, a11], cy) ∧
      ecc_192_modp32_fold2 [a0, a1, x2, x3, y4, y5, y6, y7, a8, a9, a10, a11] cy
        = ([z0, z1, u2, u3, u4, u5, y6, y7, cy, a9, a10, a11], d) ∧
      ecc_192_modp32_final [z0, z1, u2, u3, u4, u5, y6, y7, cy, a9, a10, a11] d
        = ([r0, r1, r2, r3, r4, r5, y6, y7, cy, a9, a10, a11], 0) ∧
      cy ≤ 2 ∧ d ≤ 1 := by
  obtain ⟨x2, x3, x4, x5, c1, e1, hx2, hx3, hx4, hx5, hc1, v1⟩ :=
    add32_4 a2 a3 a4 a5 a8 a9 a10 a11 h2 h3 h4 h5 h8 h9 h10 h11
  obtain ⟨x6, x7, c2, e2, hx6, hx7, hc2, v2⟩ := sec32_2 a6 a7 c1 h6 h7 (carry_lt32 c1 hc1)
  obtain ⟨y4, y5, y6, y7, c3, e3, hy4, hy5, hy6, hy7, hc3, v3⟩ :=
    add32_4 x4 x5 x6 x7 a8 a9 a10 a11 hx4 hx5 hx6 hx7 h8 h9 h10 h11
  have hcyl := carry_sum_lt32 c2 c3 hc2 hc3
  have hcy : (c2 + c3) % 2 ^ 32 = c2 + c3 := Nat.mod_eq_of_lt hcyl
  have hcy2 : c2 + c3 ≤ 2 := Nat.add_le_add hc2 hc3
  obtain ⟨z0, z1, z2, d1, f1, hz0, hz1, hz2, hd1, w1⟩ :=
    add32_3 a0 a1 x2 y6 y7 (c2 + c3) h0 h1 hx2 hy6 hy7 hcyl
  obtain ⟨z3, z4, d2, f2, hz3, hz4, hd2, w2⟩ := sec32_2 x3 y4 d1 hx3 hy4 (carry_lt32 d1 hd1)
  obtain ⟨u2, u3, u4, d3, f3, hu2, hu3, hu4, hd3, w3⟩ :=
    add32_3 z2 z3 z4 y6 y7 (c2 + c3) hz2 hz3 hz4 hy6 hy7 hcyl
  have hdyl := carry_sum_lt32 d2 d3 hd2 hd3
  have hdy : (d2 + d3) % 2 ^ 32 = d2 + d3 := Nat.mod_eq_of_lt hdyl
  obtain ⟨u5, d4, f4, hu5, hd4, w4⟩ := sec32_1 y5 (d2 + d3) hy5 hdyl
  have V2 := fold2_val32 a0 a1 x2 x3 y4 y5 _ z0 z1 z2 z3 z4 u2 u3 u4 u5 d1 d2 d3 d4 w1 w2 w3 w4
  have hlo := val6_lt32 a0 a1 x2 x3 y4 y5 h0 h1 hx2 hx3 hy4 hy5
  have hhi := hi_lt32 y6 y7 (c2 + c3) hy6 hy7 hcy2
  have p1 : ecc_192_modp32_fold1 [a0, a1, a2, a3, a4, a5, a6, a7, a8, a9, a10, a11]
      = ([a0, a1, x2, x3, y4, y5, y6, y7, a8, a9, a10, a11], c2 + c3) := by
    simp only [ecc_192_modp32_fold1, load, store, List.drop_succ_cons, List.drop_zero,
      List.take_succ_cons, List.take_zero, List.take_nil, List.drop_nil, List.cons_append,
      List.nil_append, List.length_cons, List.length_nil, List.append_nil, e1, e2, e3, hcy,
      Nat.reduceAdd]
  have p2 : ecc_192_modp32_fold2 [a0, a1, x2, x3, y4, y5, y6, y7, a8, a9, a10, a11] (c2 + c3)
      = ([z0, z1, u2, u3, u4, u5, y6, y7, c2 + c3, a9, a10, a11], d4) := by
    simp only [ecc_192_modp32_fold2, load, store, List.drop_succ_cons, List.drop_zero,
      List.take_succ_cons, List.take_zero, List.take_nil, List.drop_nil, List.cons_append,
      List.nil_append, List.length_cons, List.length_nil, List.append_nil, f1, f2, f3, f4, hdy,
      Nat.reduceAdd]
  rcases Nat.eq_zero_or_pos d4 with hz | hp
  · refine ⟨x2, x3, y4, y5, y6, y7, c2 + c3, z0, z1, u2, u3, u4, u5, d4, z0, z1, u2, u3, u4, u5,
      p1, p2, ?_, hcy2, hd4⟩
    rw [hz]
    simp [ecc_192_modp32_final, cnd_add_n, load, store]
  · have hone : d4 = 1 := Nat.le_antisymm hd4 hp
    rw [hone] at V2
    obtain ⟨r0, r1, r2, r3, r4, r5, c4, g, hr0, hr1, hr2, hr3, hr4, hr5, hc4, w5⟩ :=
      add32_Bmodp z0 z1 u2 u3 u4 u5 hz0 hz1 hu2 hu3 hu4 hu5
    obtain ⟨hc40, hv⟩ := final_carry32 _ _ c4 _ _ hlo hhi V2 w5
    subst hc40
    refine ⟨x2, x3, y4, y5, y6, y7, c2 + c3, z0, z1, u2, u3, u4, u5, d4, r0, r1, r2, r3, r4, r5,
      p1, p2, ?_, hcy2, hd4⟩
    rw [hone]
    simp [ecc_192_modp32_final, cnd_add_n, load, store, g]

/-- The 32-bit `ecc_192_modp` on any twelve-limb array: the three carries at
the assertions are within bounds and the function returns. -/
theorem modp32_parts_spec (rp : List Nat) (hlen : rp.length = 12) (hok : limbs_ok 32 rp) :
    (ecc_192_modp32_fold1 rp).2 ≤ 2 ∧ (ecc_192_modp32_at_assert2 rp).2 ≤ 1 ∧
    (ecc_192_modp32_at_assert3 rp).2 = 0 ∧
    ecc_192_modp32 rp = some (ecc_192_modp32_at_assert3 rp).1 := by
  obtain ⟨a0, a1, a2, a3, a4, a5, a6, a7, a8, a9, a10, a11, rfl⟩ := length_twelve hlen
  obtain ⟨x2, x3, y4, y5, y6, y7, cy, z0, z1, u2, u3, u4, u5, d, r0, r1, r2, r3, r4, r5, p1, p2,
    p3, hcy, hd⟩ := modp32_steps a0 a1 a2 a3 a4 a5 a6 a7 a8 a9 a10 a11 (hok a0 (by simp))
      (hok a1 (by simp)) (hok a2 (by simp)) (hok a3 (by simp)) (hok a4 (by simp))
      (hok a5 (by simp)) (hok a6 (by simp)) (hok a7 (by simp)) (hok a8 (by simp))
      (hok a9 (by simp)) (hok a10 (by simp)) (hok a11 (by simp))
  have q2 : ecc_192_modp32_at_assert2 [a0, a1, a2, a3, a4, a5, a6, a7, a8, a9, a10, a11]
      = ([z0, z1, u2, u3, u4, u5, y6, y7, cy, a9, a10, a11], d) := by
    rw [ecc_192_modp32_at_assert2, p1, p2]
  have q3 : ecc_192_modp32_at_assert3 [a0, a1, a2, a3, a4, a5, a6, a7, a8, a9, a10, a11]
      = ([r0, r1, r2, r3, r4, r5, y6, y7, cy, a9, a10, a11], 0) := by
    rw [ecc_192_modp32_at_assert3, q2, p3]
  have e : ecc_192_modp32 [a0, a1, a2, a3, a4, a5, a6, a7, a8, a9, a10, a11]
      = some [r0, r1, r2, r3, r4, r5, y6, y7, cy, a9, a10, a11] := by
    have hp1 : (ecc_192_modp32_fold1 [a0, a1, a2, a3, a4, a5, a6, a7, a8, a9, a10, a11]).2 ≤ 2 := by
      rw [p1]; exact hcy
    have hp2 : (ecc_192_modp32_fold2
        (ecc_192_modp32_fold1 [a0, a1, a2, a3, a4, a5, a6, a7, a8, a9, a10, a11]).1
        (ecc_192_modp32_fold1 [a0, a1, a2, a3, a4, a5, a6, a7, a8, a9, a10, a11]).2).2 ≤ 1 := by
      rw [p1, p2]; exact hd
    rw [ecc_192_modp32_eq_parts, if_pos hp1, if_pos hp2, p1, p2, p3]
    rfl
  rw [q2, q3, p1, e]
  exact ⟨hcy, hd, rfl, rfl⟩

theorem uniq3 (a b c a' b' c' : Nat) (ha : a < 2 ^ 64) (hb : b < 2 ^ 64)
    (ha' : a' < 2 ^ 64) (hb' : b' < 2 ^ 64)
    (h : a + 2 ^ 64 * b + 2 ^ 128 * c = a' + 2 ^ 64 * b' + 2 ^ 128 * c') :
    a = a' ∧ b = b' ∧ c = c' := by
  omega

theorem high_zero_fold1 (a0 a1 a2 x1 y2 y3 cy : Nat) (h1 : a1 < 2 ^ 64) (h2 : a2 < 2 ^ 64)
    (hx1 : x1 < 2 ^ 64) (hy2 : y2 < 2 ^ 64)
    (V1 : a0 + 2 ^ 64 * x1 + 2 ^ 128 * y2 + 2 ^ 192 * (y3 + 2 ^ 64 * cy)
      = a0 + 2 ^ 64 * a1 + 2 ^ 128 * a2 + 2 ^ 192 * 0 + (0 + 2 ^ 64 * 0) * (2 ^ 128 + 2 ^ 64)) :
    x1 = a1 ∧ y2 = a2 ∧ y3 = 0 ∧ cy = 0 := by
  omega

theorem high_zero_fold2 (a0 a1 a2 z0 u1 u2 d : Nat) (h0 : a0 < 2 ^ 64) (h1 : a1 < 2 ^ 64)
    (h2 : a2 < 2 ^ 64) (hz0 : z0 < 2 ^ 64) (hu1 : u1 < 2 ^ 64) (hu2 : u2 < 2 ^ 64)
    (V2 : z0 + 2 ^ 64 * u1 + 2 ^ 128 * u2 + 2 ^ 192 * d
      = a0 + 2 ^ 64 * a1 + 2 ^ 128 * a2 + (0 + 2 ^ 64 * 0) * (2 ^ 64 + 1)) :
    z0 = a0 ∧ u1 = a1 ∧ u2 = a2 ∧ d = 0 := by
  omega

/-- With the three high limbs zero the 64-bit `ecc_192_modp` changes nothing. -/
theorem modp64_high_zero (a0 a1 a2 : Nat) (h0 : a0 < 2 ^ 64) (h1 : a1 < 2 ^ 64)
    (h2 : a2 < 2 ^ 64) :
    ecc_192_modp [a0, a1, a2, 0, 0, 0] = some [a0, a1, a2, 0, 0, 0] := by
  have hz : (0 : Nat) < 2 ^ 64 := by norm_num
  obtain ⟨x1, y2, y3, cy, z0, u1, u2, d, r0, r1, r2, p1, p2, p3, hcy, hd, ⟨hx1, hy2, hy3⟩,
    ⟨hz0, hu1, hu2⟩, ⟨hr0, hr1, hr2⟩, V1, V2, hfin⟩ := modp64_steps a0 a1 a2 0 0 0 h0 h1 h2 hz hz hz
  obtain ⟨rfl, rfl, rfl, rfl⟩ := high_zero_fold1 a0 a1 a2 x1 y2 y3 cy h1 h2 hx1 hy2 V1
  obtain ⟨rfl, rfl, rfl, rfl⟩ := high_zero_fold2 _ _ _ z0 u1 u2 d h0 h1 h2 hz0 hu1 hu2 V2
  rw [if_pos rfl] at hfin
  obtain ⟨rfl, rfl, rfl⟩ := uniq3 r0 r1 r2 _ _ _ hr0 hr1 hz0 hu1 hfin
  have hp1 : (ecc_192_modp_fold1 [r0, r1, r2, 0, 0, 0]).2 ≤ 2 := by rw [p1]; exact hcy
  have hp2 : (ecc_192_modp_fold2 (ecc_192_modp_fold1 [r0, r1, r2, 0, 0, 0]).1
      (ecc_192_modp_fold1 [r0, r1, r2, 0, 0, 0]).2).2 ≤ 1 := by rw [p1, p2]; exact hd
  rw [ecc_192_modp_eq_parts, if_pos hp1, if_pos hp2, p1, p2, p3]
  rfl

/-! ## Further properties of `ecc_192_modp` -/

/-- C12: applied to the all-zero double-width limb array, `ecc_192_modp`
(either limb width) returns and leaves the value `0` in the low limbs. -/
theorem ecc_192_modp_zero :
    (∃ out, ecc_192_modp [0, 0, 0, 0, 0, 0] = some out ∧
      limbs_val 64 (out.take ECC_LIMB_SIZE) = 0) ∧
    (∃ out, ecc_192_modp32 [0, 0, 0, 0, 0, 0, 0, 0, 0, 0, 0, 0] = some out ∧
      limbs_val 32 (out.take 6) = 0) := by
  decide

/-- C15: the assertions of the 64-bit `ecc_192_modp` never fail. For every
six-limb input the carry at `assert (cy <= 2)` is at most `2`, the summed carry
at `assert (cy <= 1)` is at most `1`, and the conditional addition of
`ecc_Bmodp = 2^192 mod p = 2^64 + 1` leaves carry `0`; so the function returns
the array the last part produced. -/
theorem ecc_192_modp_assertions_hold (rp : List Nat) (hlen : rp.length = 6)
    (hok : limbs_ok 64 rp) :
    (ecc_192_modp_fold1 rp).2 ≤ 2 ∧
    (ecc_192_modp_at_assert2 rp).2 ≤ 1 ∧
    (ecc_192_modp_at_assert3 rp).2 = 0 ∧
    limbs_val 64 ecc_Bmodp = 2 ^ 192 % p192 ∧ 2 ^ 192 % p192 = 2 ^ 64 + 1 ∧
    ecc_192_modp rp = some (ecc_192_modp_at_assert3 rp).1 := by
  obtain ⟨h1, h2, h3, h4, _⟩ := modp64_parts_spec rp hlen hok
  exact ⟨h1, h2, h3, by decide, by decide, h4⟩

/-- C15 at the all-ones input, where the first carry is `2` and the second `1`. -/
theorem ecc_192_modp_assertions_hold_witness :
    ([2 ^ 64 - 1, 2 ^ 64 - 1, 2 ^ 64 - 1, 2 ^ 64 - 1, 2 ^ 64 - 1, 2 ^ 64 - 1].length = 6 ∧
      limbs_ok 64 [2 ^ 64 - 1, 2 ^ 64 - 1, 2 ^ 64 - 1, 2 ^ 64 - 1, 2 ^ 64 - 1, 2 ^ 64 - 1]) ∧
    ((ecc_192_modp_fold1
        [2 ^ 64 - 1, 2 ^ 64 - 1, 2 ^ 64 - 1, 2 ^ 64 - 1, 2 ^ 64 - 1, 2 ^ 64 - 1]).2 ≤ 2 ∧
    (ecc_192_modp_at_assert2
        [2 ^ 64 - 1, 2 ^ 64 - 1, 2 ^ 64 - 1, 2 ^ 64 - 1, 2 ^ 64 - 1, 2 ^ 64 - 1]).2 ≤ 1 ∧
    (ecc_192_modp_at_assert3
        [2 ^ 64 - 1, 2 ^ 64 - 1, 2 ^ 64 - 1, 2 ^ 64 - 1, 2 ^ 64 - 1, 2 ^ 64 - 1]).2 = 0 ∧
    limbs_val 64 ecc_Bmodp = 2 ^ 192 % p192 ∧ 2 ^ 192 % p192 = 2 ^ 64 + 1 ∧
    ecc_192_modp [2 ^ 64 - 1, 2 ^ 64 - 1, 2 ^ 64 - 1, 2 ^ 64 - 1, 2 ^ 64 - 1, 2 ^ 64 - 1]
      = some (ecc_192_modp_at_assert3
          [2 ^ 64 - 1, 2 ^ 64 - 1, 2 ^ 64 - 1, 2 ^ 64 - 1, 2 ^ 64 - 1, 2 ^ 64 - 1]).1) :=
  ⟨⟨rfl, by decide⟩, ecc_192_modp_assertions_hold _ rfl (by decide)⟩

/-- C16: the assertions of the 32-bit `ecc_192_modp` never fail. For every
twelve-limb input the carry at `assert (cy <= 2)` (after the fold from 12 to 9
limbs) is at most `2`, the carry out of limb 5 at `assert (cy <= 1)` is at most
`1`, and the conditional addition of `ecc_Bmodp = 2^192 mod p = 2^64 + 1` leaves
carry `0`; so the function returns the array the last part produced. -/
theorem ecc_192_modp32_assertions_hold (rp : List Nat) (hlen : rp.length = 12)
    (hok : limbs_ok 32 rp) :
    (ecc_192_modp32_fold1 rp).2 ≤ 2 ∧
    (ecc_192_modp32_at_assert2 rp).2 ≤ 1 ∧
    (ecc_192_modp32_at_assert3 rp).2 = 0 ∧
    limbs_val 32 ecc_Bmodp32 = 2 ^ 192 % p192 ∧ 2 ^ 192 % p192 = 2 ^ 64 + 1 ∧
    ecc_192_modp32 rp = some (ecc_192_modp32_at_assert3 rp).1 := by
  obtain ⟨h1, h2, h3, h4⟩ := modp32_parts_spec rp hlen hok
  exact ⟨h1, h2, h3, by decide, by decide, h4⟩

/-- C16 at the all-ones input. -/
theorem ecc_192_modp32_assertions_hold_witness :
    ((to_limbs 32 12 (2 ^ 384 - 1)).length = 12 ∧ limbs_ok 32 (to_limbs 32 12 (2 ^ 384 - 1))) ∧
    ((ecc_192_modp32_fold1 (to_limbs 32 12 (2 ^ 384 - 1))).2 ≤ 2 ∧
    (ecc_192_modp32_at_assert2 (to_limbs 32 12 (2 ^ 384 - 1))).2 ≤ 1 ∧
    (ecc_192_modp32_at_assert3 (to_limbs 32 12 (2 ^ 384 - 1))).2 = 0 ∧
    limbs_val 32 ecc_Bmodp32 = 2 ^ 192 % p192 ∧ 2 ^ 192 % p192 = 2 ^ 64 + 1 ∧
    ecc_192_modp32 (to_limbs 32 12 (2 ^ 384 - 1))
      = some (ecc_192_modp32_at_assert3 (to_limbs 32 12 (2 ^ 384 - 1))).1) :=
  ⟨⟨to_limbs_length 32 12 _, to_limbs_ok 32 12 _⟩,
    ecc_192_modp32_assertions_hold _ (to_limbs_length 32 12 _) (to_limbs_ok 32 12 _)⟩

/-- C18: the final normalisation of the 64-bit `ecc_192_modp`. With `V` the
exact integer after the second fold (`second_fold_value`), the accumulated
carry at `assert (cy <= 1)` is `floor (V / 2^192)` and the three low limbs hold
`V mod 2^192`; `ecc_Bmodp` is the complement `2^192 - p = 2^64 + 1`, added
modulo `2^192` exactly when that carry is `1`; and the three-limb result is `V`
when `V < 2^192` and `V - p` otherwise. -/
theorem ecc_192_modp_final_normalisation (rp : List Nat) (hlen : rp.length = 6)
    (hok : limbs_ok 64 rp) :
    (ecc_192_modp_at_assert2 rp).2 = second_fold_value rp / 2 ^ 192 ∧
    (ecc_192_modp_at_assert2 rp).2 ≤ 1 ∧
    limbs_val 64 ((ecc_192_modp_at_assert2 rp).1.take 3) = second_fold_value rp % 2 ^ 192 ∧
    limbs_val 64 ecc_Bmodp = 2 ^ 192 - p192 ∧ 2 ^ 192 - p192 = 2 ^ 64 + 1 ∧
    limbs_val 64 ((ecc_192_modp_at_assert3 rp).1.take 3)
      = (if (ecc_192_modp_at_assert2 rp).2 = 1 then
          (limbs_val 64 ((ecc_192_modp_at_assert2 rp).1.take 3) + (2 ^ 64 + 1)) % 2 ^ 192
         else limbs_val 64 ((ecc_192_modp_at_assert2 rp).1.take 3)) ∧
    limbs_val 64 ((ecc_192_modp_at_assert3 rp).1.take 3)
      = (if second_fold_value rp < 2 ^ 192 then second_fold_value rp
         else second_fold_value rp - p192) ∧
    ecc_192_modp rp = some (ecc_192_modp_at_assert3 rp).1 := by
  obtain ⟨_, h2, _, h4, h5, h6, h7, h8⟩ := modp64_parts_spec rp hlen hok
  exact ⟨h5, h2, h6, by decide, by decide, h7, h8, h4⟩

/-- C18 at the all-ones input, where the carry is `1` and one `p` is taken off. -/
theorem ecc_192_modp_final_normalisation_witness :
    ((to_limbs 64 6 (2 ^ 384 - 1)).length = 6 ∧ limbs_ok 64 (to_limbs 64 6 (2 ^ 384 - 1))) ∧
    ((ecc_192_modp_at_assert2 (to_limbs 64 6 (2 ^ 384 - 1))).2
        = second_fold_value (to_limbs 64 6 (2 ^ 384 - 1)) / 2 ^ 192 ∧
    (ecc_192_modp_at_assert2 (to_limbs 64 6 (2 ^ 384 - 1))).2 ≤ 1 ∧
    limbs_val 64 ((ecc_192_modp_at_assert2 (to_limbs 64 6 (2 ^ 384 - 1))).1.take 3)
      = second_fold_value (to_limbs 64 6 (2 ^ 384 - 1)) % 2 ^ 192 ∧
    limbs_val 64 ecc_Bmodp = 2 ^ 192 - p192 ∧ 2 ^ 192 - p192 = 2 ^ 64 + 1 ∧
    limbs_val 64 ((ecc_192_modp_at_assert3 (to_limbs 64 6 (2 ^ 384 - 1))).1.take 3)
      = (if (ecc_192_modp_at_assert2 (to_limbs 64 6 (2 ^ 384 - 1))).2 = 1 then
          (limbs_val 64 ((ecc_192_modp_at_assert2 (to_limbs 64 6 (2 ^ 384 - 1))).1.take 3)
            + (2 ^ 64 + 1)) % 2 ^ 192
         else limbs_val 64 ((ecc_192_modp_at_assert2 (to_limbs 64 6 (2 ^ 384 - 1))).1.take 3)) ∧
    limbs_val 64 ((ecc_192_modp_at_assert3 (to_limbs 64 6 (2 ^ 384 - 1))).1.take 3)
      = (if second_fold_value (to_limbs 64 6 (2 ^ 384 - 1)) < 2 ^ 192 then
          second_fold_value (to_limbs 64 6 (2 ^ 384 - 1))
         else second_fold_value (to_limbs 64 6 (2 ^ 384 - 1)) - p192) ∧
    ecc_192_modp (to_limbs 64 6 (2 ^ 384 - 1))
      = some (ecc_192_modp_at_assert3 (to_limbs 64 6 (2 ^ 384 - 1))).1) :=
  ⟨⟨to_limbs_length 64 6 _, to_limbs_ok 64 6 _⟩,
    ecc_192_modp_final_normalisation _ (to_limbs_length 64 6 _) (to_limbs_ok 64 6 _)⟩

/-- C19: `ecc_192_modp` does not canonicalise. For every double-width input
whose three high limbs are zero (so `X < 2^192`) the function returns the array
unchanged, the low limbs still hold `X`, and when `X` lies in `[p, 2^192)` the
result is not below `p`. -/
theorem ecc_192_modp_high_zero_unchanged (a0 a1 a2 : Nat) (h0 : a0 < 2 ^ 64)
    (h1 : a1 < 2 ^ 64) (h2 : a2 < 2 ^ 64) :
    ∃ out, ecc_192_modp [a0, a1, a2, 0, 0, 0] = some out ∧
      out.take ECC_LIMB_SIZE = [a0, a1, a2] ∧
      limbs_val 64 (out.take ECC_LIMB_SIZE) = limbs_val 64 [a0, a1, a2, 0, 0, 0] ∧
      limbs_val 64 [a0, a1, a2, 0, 0, 0] < 2 ^ 192 ∧
      (p192 ≤ limbs_val 64 [a0, a1, a2, 0, 0, 0] →
        ¬ limbs_val 64 (out.take ECC_LIMB_SIZE) < p192) := by
  have hv : limbs_val 64 [a0, a1, a2] = limbs_val 64 [a0, a1, a2, 0, 0, 0] := by
    simp [limbs_val]
  refine ⟨_, modp64_high_zero a0 a1 a2 h0 h1 h2, rfl, hv, ?_, ?_⟩
  · rw [← hv, limbs_val_three]
    exact val3_lt a0 a1 a2 h0 h1 h2
  · intro hp hlt
    have : limbs_val 64 (List.take ECC_LIMB_SIZE [a0, a1, a2, 0, 0, 0])
        = limbs_val 64 [a0, a1, a2, 0, 0, 0] := hv
    rw [this] at hlt
    exact absurd hlt (Nat.not_lt.2 hp)

/-- C19 at `X = p + 1`, a value in `[p, 2^192)`. -/
theorem ecc_192_modp_high_zero_unchanged_witness :
    ((0 : Nat) < 2 ^ 64 ∧ 2 ^ 64 - 1 < 2 ^ 64 ∧ 2 ^ 64 - 1 < 2 ^ 64) ∧
    p192 ≤ limbs_val 64 [0, 2 ^ 64 - 1, 2 ^ 64 - 1, 0, 0, 0] ∧
    ∃ out, ecc_192_modp [0, 2 ^ 64 - 1, 2 ^ 64 - 1, 0, 0, 0] = some out ∧
      out.take ECC_LIMB_SIZE = [0, 2 ^ 64 - 1, 2 ^ 64 - 1] ∧
      limbs_val 64 (out.take ECC_LIMB_SIZE)
        = limbs_val 64 [0, 2 ^ 64 - 1, 2 ^ 64 - 1, 0, 0, 0] ∧
      limbs_val 64 [0, 2 ^ 64 - 1, 2 ^ 64 - 1, 0, 0, 0] < 2 ^ 192 ∧
      (p192 ≤ limbs_val 64 [0, 2 ^ 64 - 1, 2 ^ 64 - 1, 0, 0, 0] →
        ¬ limbs_val 64 (out.take ECC_LIMB_SIZE) < p192) :=
  ⟨⟨by norm_num, by norm_num, by norm_num⟩, by decide,
    ecc_192_modp_high_zero_unchanged 0 (2 ^ 64 - 1) (2 ^ 64 - 1) (by norm_num) (by norm_num)
      (by norm_num)⟩

/-! ## Properties of `ecc_192_zero_p` and of the descriptor -/

/-- The value of `ecc_192_zero_p` on three-limb operands, accumulators spelled
out. -/
theorem zero_p_three (p : ecc_modulo) (a b c m0 m1 m2 : Nat) (hm : p.m = [m0, m1, m2]) :
    ecc_192_zero_p p [a, b, c]
      = (if a ||| b ||| c = 0 then 1 else 0) |||
        (if (a ^^^ m0) ||| (b ^^^ m1) ||| (c ^^^ m2) = 0 then 1 else 0) := by
  simp [ecc_192_zero_p, ECC_LIMB_SIZE, hm, List.range, List.range.loop]

/-- C11: for every array `rp` of `ECC_LIMB_SIZE` limbs and modulus descriptor
`p` (with `p->m` of `ECC_LIMB_SIZE` limbs), `ecc_192_zero_p` returns `1` if all
limbs of `rp` are zero or `rp` equals `p->m` limb for limb, and `0` otherwise;
its value is the OR of the two tests `is_non_zero == 0` and `is_not_p == 0`, made
once on the accumulators that OR together all `rp[i]` resp. all
`rp[i] ^ p->m[i]`. -/
theorem ecc_192_zero_p_returns (p : ecc_modulo) (rp : List Nat)
    (hrp : rp.length = ECC_LIMB_SIZE) (hm : p.m.length = ECC_LIMB_SIZE) :
    ecc_192_zero_p p rp = (if (∀ x ∈ rp, x = 0) ∨ rp = p.m then 1 else 0) ∧
    ecc_192_zero_p p rp
      = (if rp.foldl (fun acc x => acc ||| x) 0 = 0 then 1 else 0) |||
        (if (List.zipWith (fun x m => x ^^^ m) rp p.m).foldl (fun acc x => acc ||| x) 0 = 0
          then 1 else 0) := by
  obtain ⟨a, b, c, rfl⟩ := length_three hrp
  obtain ⟨m0, m1, m2, hm'⟩ := length_three hm
  rw [zero_p_three p a b c m0 m1 m2 hm', hm']
  refine ⟨?_, by simp⟩
  simp only [lor_eq_zero, Nat.xor_eq_zero, List.mem_cons, List.mem_singleton,
    List.not_mem_nil, or_false, forall_eq_or_imp, forall_eq, List.cons.injEq, and_true]
  by_cases h1 : (a = 0 ∧ b = 0) ∧ c = 0
  · rw [if_pos h1, if_pos (Or.inl ⟨h1.1.1, h1.1.2, h1.2⟩)]
    split <;> rfl
  · by_cases h2 : (a = m0 ∧ b = m1) ∧ c = m2
    · rw [if_neg h1, if_pos h2, if_pos (Or.inr ⟨h2.1.1, h2.1.2, h2.2⟩)]
      rfl
    · rw [if_neg h1, if_neg h2, if_neg]
      · rfl
      · rintro (h | h)
        · exact h1 ⟨⟨h.1, h.2.1⟩, h.2.2⟩
        · exact h2 ⟨⟨h.1, h.2.1⟩, h.2.2⟩

/-- C11 at `rp = p->m` for the secp192r1 field modulus. -/
theorem ecc_192_zero_p_returns_witness :
    (ecc_p.length = ECC_LIMB_SIZE ∧ secp_192r1_p.m.length = ECC_LIMB_SIZE) ∧
    (ecc_192_zero_p secp_192r1_p ecc_p
        = (if (∀ x ∈ ecc_p, x = 0) ∨ ecc_p = secp_192r1_p.m then 1 else 0) ∧
      ecc_192_zero_p secp_192r1_p ecc_p
        = (if ecc_p.foldl (fun acc x => acc ||| x) 0 = 0 then 1 else 0) |||
          (if (List.zipWith (fun x m => x ^^^ m) ecc_p secp_192r1_p.m).foldl
                (fun acc x => acc ||| x) 0 = 0
            then 1 else 0)) :=
  ⟨⟨rfl, rfl⟩, ecc_192_zero_p_returns secp_192r1_p ecc_p rfl rfl⟩

/-- C20: `ecc_192_zero_p` decides divisibility by `p` on the whole range of an
`ECC_LIMB_SIZE`-limb array. For `t` holding `x < 2^192` and `p->m` holding
`p = 2^192 - 2^64 - 1` it returns `1` iff `x ≡ 0 (mod p)` (and `0` otherwise),
the only multiples of `p` in range being `0` and `p` since `2p > 2^192`; hence
the flag `ecc_192_sqrt` returns is `1` iff `r^2 ≡ c (mod p)`, whichever
representative of `r^2 - c` the helpers leave. -/
theorem ecc_192_zero_p_decides_divisibility (F : ecc_mod_arith)
    (hF : helpers_correct F secp_192r1_p) (s : sqrt_mem) (cp t : List Nat)
    (hc : field_limbs cp) (ht : field_limbs t) :
    limbs_val 64 t < 2 ^ 192 ∧
    (ecc_192_zero_p secp_192r1_p t = 1 ↔ limbs_val 64 t % p192 = 0) ∧
    (ecc_192_zero_p secp_192r1_p t = 0 ↔ limbs_val 64 t % p192 ≠ 0) ∧
    (limbs_val 64 t % p192 = 0 ↔ limbs_val 64 t = 0 ∨ limbs_val 64 t = p192) ∧
    2 ^ 192 < 2 * p192 ∧
    ((ecc_192_sqrt F secp_192r1_p s cp).2 = 1 ↔
      limbs_val 64 (ecc_192_sqrt F secp_192r1_p s cp).1.rp ^ 2 % p192
        = limbs_val 64 cp % p192) := by
  have hlt : limbs_val 64 t < 2 ^ 192 := by
    have := limbs_val_lt 64 t ht.2
    rwa [ht.1] at this
  have hz := zero_p_spec t ht
  obtain ⟨h1, h2⟩ := sqrt_result F hF s cp hc
  refine ⟨hlt, ?_, ?_, ?_, two_p192_gt, ?_⟩
  · rw [hz]; split <;> simp [*]
  · rw [hz]; split <;> simp [*]
  · constructor
    · intro h
      have h0 : limbs_val 64 t % p192 = 0 % p192 := by rw [h]; rfl
      rcases residue_or_plus_p _ 0 hlt h0 with h | h
      · exact Or.inl (by rw [h]; rfl)
      · exact Or.inr (by rw [h, Nat.zero_mod, Nat.zero_add])
    · rintro (h | h)
      · rw [h]; rfl
      · rw [h, Nat.mod_self]
  · rw [h1, h2, pow_two]
    split <;> simp [*]

/-- C20 with the reference helpers, `c = 4` and `t` holding `p`. -/
theorem ecc_192_zero_p_decides_divisibility_witness :
    (helpers_correct canonical_arith secp_192r1_p ∧ field_limbs [4, 0, 0] ∧
      field_limbs ecc_p) ∧
    (limbs_val 64 ecc_p < 2 ^ 192 ∧
    (ecc_192_zero_p secp_192r1_p ecc_p = 1 ↔ limbs_val 64 ecc_p % p192 = 0) ∧
    (ecc_192_zero_p secp_192r1_p ecc_p = 0 ↔ limbs_val 64 ecc_p % p192 ≠ 0) ∧
    (limbs_val 64 ecc_p % p192 = 0 ↔ limbs_val 64 ecc_p = 0 ∨ limbs_val 64 ecc_p = p192) ∧
    2 ^ 192 < 2 * p192 ∧
    ((ecc_192_sqrt canonical_arith secp_192r1_p sqrt_mem_zero [4, 0, 0]).2 = 1 ↔
      limbs_val 64 (ecc_192_sqrt canonical_arith secp_192r1_p sqrt_mem_zero [4, 0, 0]).1.rp ^ 2
          % p192 = limbs_val 64 [4, 0, 0] % p192)) :=
  ⟨⟨canonical_correct, by decide, by decide⟩,
    ecc_192_zero_p_decides_divisibility canonical_arith canonical_correct sqrt_mem_zero
      [4, 0, 0] ecc_p (by decide) (by decide)⟩

/-- C13: in `_nettle_secp_192r1` the field modulus and the order modulus both
have bit size `192` and limb count `ECC_LIMB_SIZE`; under the compile-time guard
`ECC_LIMB_SIZE * GMP_NUMB_BITS == 192` that limb count is
`ceil (bit_size / GMP_NUMB_BITS)`, that is `6` for 32-bit and `3` for 64-bit
limbs. -/
theorem nettle_secp_192r1_sizes (limb_size numb_bits : Nat) (p_limbs q_limbs : List Nat)
    (hguard : limb_size * numb_bits = 192) :
    (_nettle_secp_192r1 limb_size p_limbs q_limbs).p.bit_size = 192 ∧
    (_nettle_secp_192r1 limb_size p_limbs q_limbs).p.size = limb_size ∧
    (_nettle_secp_192r1 limb_size p_limbs q_limbs).q.bit_size = 192 ∧
    (_nettle_secp_192r1 limb_size p_limbs q_limbs).q.size = limb_size ∧
    limb_size
      = ((_nettle_secp_192r1 limb_size p_limbs q_limbs).p.bit_size + numb_bits - 1) / numb_bits ∧
    limb_size
      = ((_nettle_secp_192r1 limb_size p_limbs q_limbs).q.bit_size + numb_bits - 1) / numb_bits ∧
    (numb_bits = 32 → limb_size = 6) ∧ (numb_bits = 64 → limb_size = 3) ∧
    (_nettle_secp_192r1 ECC_LIMB_SIZE ecc_p q_limbs).p = secp_192r1_p := by
  have hpos : 0 < numb_bits := by
    rcases Nat.eq_zero_or_pos numb_bits with h | h
    · rw [h] at hguard; simp at hguard
    · exact h
  have hceil : limb_size = (192 + numb_bits - 1) / numb_bits := by
    rw [← hguard]
    have e : limb_size * numb_bits + numb_bits - 1 = numb_bits * limb_size + (numb_bits - 1) := by
      rw [Nat.mul_comm]; omega
    rw [e, Nat.mul_add_div hpos, Nat.div_eq_of_lt (by omega), Nat.add_zero]
  refine ⟨rfl, rfl, rfl, rfl, hceil, hceil, ?_, ?_, rfl⟩
  · intro h; rw [h] at hguard; omega
  · intro h; rw [h] at hguard; omega

/-- C13 for the 64-bit build: `ECC_LIMB_SIZE = 3`, `GMP_NUMB_BITS = 64`. -/
theorem nettle_secp_192r1_sizes_witness :
    ECC_LIMB_SIZE * 64 = 192 ∧
    ((_nettle_secp_192r1 ECC_LIMB_SIZE ecc_p []).p.bit_size = 192 ∧
    (_nettle_secp_192r1 ECC_LIMB_SIZE ecc_p []).p.size = ECC_LIMB_SIZE ∧
    (_nettle_secp_192r1 ECC_LIMB_SIZE ecc_p []).q.bit_size = 192 ∧
    (_nettle_secp_192r1 ECC_LIMB_SIZE ecc_p []).q.size = ECC_LIMB_SIZE ∧
    ECC_LIMB_SIZE = ((_nettle_secp_192r1 ECC_LIMB_SIZE ecc_p []).p.bit_size + 64 - 1) / 64 ∧
    ECC_LIMB_SIZE = ((_nettle_secp_192r1 ECC_LIMB_SIZE ecc_p []).q.bit_size + 64 - 1) / 64 ∧
    (64 = 32 → ECC_LIMB_SIZE = 6) ∧ (64 = 64 → ECC_LIMB_SIZE = 3) ∧
    (_nettle_secp_192r1 ECC_LIMB_SIZE ecc_p []).p = secp_192r1_p) :=
  ⟨rfl, nettle_secp_192r1_sizes ECC_LIMB_SIZE 64 ecc_p [] rfl⟩

/-! ## The non-residue case of `ecc_192_sqrt` -/

/-- With `r ≡ c^((p+1)/4)` and `c` not a square modulo `p`, `r^2 ≡ -c`. -/
theorem sq_of_nonresidue (r c : Nat) (hr : r % p192 = c ^ (2 ^ 190 - 2 ^ 62) % p192)
    (hns : ¬ ∃ x : Nat, x * x % p192 = c % p192) : (r * r + c) % p192 = 0 := by
  haveI : Fact (Nat.Prime p192) := ⟨p192_prime⟩
  have ha : (c : ZMod p192) ≠ 0 := by
    intro h
    apply hns
    refine ⟨0, ?_⟩
    have hd := (ZMod.natCast_zmod_eq_zero_iff_dvd c p192).1 h
    rw [Nat.zero_mul, Nat.zero_mod, Nat.mod_eq_zero_of_dvd hd]
  have hnsq : ¬ IsSquare (c : ZMod p192) := by
    rintro ⟨y, hy⟩
    apply hns
    refine ⟨y.val, ?_⟩
    rw [← ZMod.natCast_eq_natCast_iff', Nat.cast_mul, ZMod.natCast_zmod_val, hy]
  have he : (c : ZMod p192) ^ (p192 / 2) = -1 := by
    rcases ZMod.pow_div_two_eq_neg_one_or_one p192 ha with h | h
    · exact absurd ((ZMod.euler_criterion p192 ha).2 h) hnsq
    · exact h
  have hrz : (r : ZMod p192) = (c : ZMod p192) ^ (2 ^ 190 - 2 ^ 62) := by
    have := (ZMod.natCast_eq_natCast_iff' r (c ^ (2 ^ 190 - 2 ^ 62)) p192).2 hr
    rwa [Nat.cast_pow] at this
  have hexp : (2 ^ 190 - 2 ^ 62) + (2 ^ 190 - 2 ^ 62) = p192 / 2 + 1 := by decide
  have hz : ((r * r + c : Nat) : ZMod p192) = 0 := by
    rw [Nat.cast_add, Nat.cast_mul, hrz, ← pow_add, hexp, pow_succ, he]
    ring
  exact Nat.mod_eq_zero_of_dvd ((ZMod.natCast_zmod_eq_zero_iff_dvd _ _).1 hz)

/-- C17: with field helpers correct modulo `p = 2^192 - 2^64 - 1` (a prime),
for every field element `c` that is not a square modulo `p` the value `r`
written to `rp` is `c^(2^190 - 2^62)` modulo `p` and satisfies
`r^2 ≡ -c (mod p)`; it depends on `c` alone: any other correct helpers and any
other scratch contents give the same residue. The flag returned is `0`. -/
theorem ecc_192_sqrt_nonresidue_value (F F' : ecc_mod_arith)
    (hF : helpers_correct F secp_192r1_p) (hF' : helpers_correct F' secp_192r1_p)
    (s s' : sqrt_mem) (cp : List Nat) (hc : field_limbs cp)
    (hns : ¬ ∃ x : Nat, x * x % p192 = limbs_val 64 cp % p192) :
    (limbs_val 64 (ecc_192_sqrt F secp_192r1_p s cp).1.rp ^ 2 + limbs_val 64 cp) % p192 = 0 ∧
    limbs_val 64 (ecc_192_sqrt F secp_192r1_p s cp).1.rp % p192
      = limbs_val 64 cp ^ (2 ^ 190 - 2 ^ 62) % p192 ∧
    limbs_val 64 (ecc_192_sqrt F' secp_192r1_p s' cp).1.rp % p192
      = limbs_val 64 (ecc_192_sqrt F secp_192r1_p s cp).1.rp % p192 ∧
    (ecc_192_sqrt F secp_192r1_p s cp).2 = 0 := by
  obtain ⟨h1, h2⟩ := sqrt_result F hF s cp hc
  have h1' := (sqrt_result F' hF' s' cp hc).1
  have hr := (sqrt_chain F hF s cp hc).2.2.2.2.2.2.2.2
  have hr' := (sqrt_chain F' hF' s' cp hc).2.2.2.2.2.2.2.2
  refine ⟨?_, ?_, ?_, ?_⟩
  · rw [h1, pow_two]
    exact sq_of_nonresidue _ _ hr hns
  · rw [h1]; exact hr
  · rw [h1, h1', hr, hr']
  · rw [h2, if_neg]
    intro h
    exact hns ⟨_, h⟩

/-- C17 with the reference helpers at `c = p - 1`. -/
theorem ecc_192_sqrt_nonresidue_value_witness :
    (helpers_correct canonical_arith secp_192r1_p ∧
      field_limbs [2 ^ 64 - 2, 2 ^ 64 - 2, 2 ^ 64 - 1] ∧
      ¬ ∃ x : Nat, x * x % p192 = limbs_val 64 [2 ^ 64 - 2, 2 ^ 64 - 2, 2 ^ 64 - 1] % p192) ∧
    ((limbs_val 64 (ecc_192_sqrt canonical_arith secp_192r1_p sqrt_mem_zero
          [2 ^ 64 - 2, 2 ^ 64 - 2, 2 ^ 64 - 1]).1.rp ^ 2
        + limbs_val 64 [2 ^ 64 - 2, 2 ^ 64 - 2, 2 ^ 64 - 1]) % p192 = 0 ∧
    limbs_val 64 (ecc_192_sqrt canonical_arith secp_192r1_p sqrt_mem_zero
        [2 ^ 64 - 2, 2 ^ 64 - 2, 2 ^ 64 - 1]).1.rp % p192
      = limbs_val 64 [2 ^ 64 - 2, 2 ^ 64 - 2, 2 ^ 64 - 1] ^ (2 ^ 190 - 2 ^ 62) % p192 ∧
    limbs_val 64 (ecc_192_sqrt canonical_arith secp_192r1_p sqrt_mem_zero
        [2 ^ 64 - 2, 2 ^ 64 - 2, 2 ^ 64 - 1]).1.rp % p192
      = limbs_val 64 (ecc_192_sqrt canonical_arith secp_192r1_p sqrt_mem_zero
        [2 ^ 64 - 2, 2 ^ 64 - 2, 2 ^ 64 - 1]).1.rp % p192 ∧
    (ecc_192_sqrt canonical_arith secp_192r1_p sqrt_mem_zero
      [2 ^ 64 - 2, 2 ^ 64 - 2, 2 ^ 64 - 1]).2 = 0) :=
  have hv : limbs_val 64 [2 ^ 64 - 2, 2 ^ 64 - 2, 2 ^ 64 - 1] = p192 - 1 := by decide
  have hn : ¬ ∃ x : Nat,
      x * x % p192 = limbs_val 64 [2 ^ 64 - 2, 2 ^ 64 - 2, 2 ^ 64 - 1] % p192 := by
    rw [hv]; exact neg_one_nonresidue
  ⟨⟨canonical_correct, by decide, hn⟩,
    ecc_192_sqrt_nonresidue_value canonical_arith canonical_arith canonical_correct
      canonical_correct sqrt_mem_zero sqrt_mem_zero [2 ^ 64 - 2, 2 ^ 64 - 2, 2 ^ 64 - 1]
      (by decide) hn⟩

/-! ## The execution path of `ecc_192_sqrt` -/

/-- The instrumented run computes `ecc_192_sqrt` on the helpers' values. -/
theorem traced_values (T : ecc_mod_arith_traced) (p : ecc_modulo) (s : sqrt_mem)
    (cp : List Nat) :
    (ecc_192_sqrt_traced T p s cp).1 = ecc_192_sqrt T.values p s cp :=
  rfl

theorem traced_after_mem (n : Nat) (T : ecc_mod_arith_traced) (p : ecc_modulo)
    (s : sqrt_mem) (cp : List Nat) (hn : n ≤ 10) :
    (ecc_192_sqrt_traced_after n T p s cp).mem = ecc_192_sqrt_after n T.values p s cp := by
  interval_cases n <;> rfl

theorem calls_of_append (a b : List sqrt_event) : calls_of (a ++ b) = calls_of a ++ calls_of b := by
  induction a with
  | nil => rfl
  | cons e a ih => cases e <;> simp [calls_of, ih]

theorem ops_of_append (a b : List sqrt_event) : ops_of (a ++ b) = ops_of a ++ ops_of b := by
  induction a with
  | nil => rfl
  | cons e a ih => cases e <;> simp [ops_of, ih]

theorem calls_of_ops (b : List field_op) : calls_of (b.map sqrt_event.op) = [] := by
  induction b with
  | nil => rfl
  | cons o b ih => simpa [calls_of] using ih

theorem ops_of_ops (b : List field_op) : ops_of (b.map sqrt_event.op) = b := by
  induction b with
  | nil => rfl
  | cons o b ih => simp [ops_of, ih]

/-- The calls of a log after one more statement. -/
theorem calls_of_snoc (a : List sqrt_event) (c : sqrt_call) (b : List field_op) :
    calls_of (a ++ sqrt_event.call c :: b.map sqrt_event.op) = calls_of a ++ [c] := by
  rw [calls_of_append, calls_of, calls_of_ops]

/-- The field operations of a log after one more statement. -/
theorem ops_of_snoc (a : List sqrt_event) (c : sqrt_call) (b : List field_op) :
    ops_of (a ++ sqrt_event.call c :: b.map sqrt_event.op) = ops_of a ++ b := by
  simp [ops_of_append, ops_of, ops_of_ops]

theorem log_snoc_congr {a a' : List sqrt_event} {b b' : List field_op} (c : sqrt_call)
    (h1 : a = a') (h2 : b = b') :
    a ++ sqrt_event.call c :: b.map sqrt_event.op
      = a' ++ sqrt_event.call c :: b'.map sqrt_event.op := by
  rw [h1, h2]

/-- The log of `ecc_192_zero_p` is one entry per limb, whatever the limbs hold. -/
theorem zero_p_log (p : ecc_modulo) (rp : List Nat) :
    (ecc_192_zero_p_traced p rp).2
      = [sqrt_event.limb 0, sqrt_event.limb 1, sqrt_event.limb 2] :=
  rfl

/-- The instrumented zero test returns what `ecc_192_zero_p` returns. -/
theorem zero_p_traced_value (p : ecc_modulo) (rp : List Nat) :
    (ecc_192_zero_p_traced p rp).1 = ecc_192_zero_p p rp :=
  rfl

/-- Each statement appends its call and the operations its helper reports for
the operands in memory at that point. -/
theorem log_succ (T : ecc_mod_arith_traced) (p : ecc_modulo) (s : sqrt_mem) (cp : List Nat) :
    (ecc_192_sqrt_traced_after 1 T p s cp).log
      = (ecc_192_sqrt_traced_after 0 T p s cp).log ++ sqrt_event.call (.pow_2k_mul .TA .cp 1 .cp .TB)
          :: ((T.ecc_mod_pow_2k_mul p cp 1 cp (ecc_192_sqrt_traced_after 0 T p s cp).mem.TB).2).map sqrt_event.op ∧
    (ecc_192_sqrt_traced_after 2 T p s cp).log
      = (ecc_192_sqrt_traced_after 1 T p s cp).log ++ sqrt_event.call (.pow_2k_mul .TB .TA 2 .TA .TC)
          :: ((T.ecc_mod_pow_2k_mul p (ecc_192_sqrt_traced_after 1 T p s cp).mem.TA 2 (ecc_192_sqrt_traced_after 1 T p s cp).mem.TA (ecc_192_sqrt_traced_after 1 T p s cp).mem.TC).2).map sqrt_event.op ∧
    (ecc_192_sqrt_traced_after 3 T p s cp).log
      = (ecc_192_sqrt_traced_after 2 T p s cp).log ++ sqrt_event.call (.pow_2k_mul .TA .TB 4 .TB .TC)
          :: ((T.ecc_mod_pow_2k_mul p (ecc_192_sqrt_traced_after 2 T p s cp).mem.TB 4 (ecc_192_sqrt_traced_after 2 T p s cp).mem.TB (ecc_192_sqrt_traced_after 2 T p s cp).mem.TC).2).map sqrt_event.op ∧
    (ecc_192_sqrt_traced_after 4 T p s cp).log
      = (ecc_192_sqrt_traced_after 3 T p s cp).log ++ sqrt_event.call (.pow_2k_mul .TB .TA 8 .TA .TC)
          :: ((T.ecc_mod_pow_2k_mul p (ecc_192_sqrt_traced_after 3 T p s cp).mem.TA 8 (ecc_192_sqrt_traced_after 3 T p s cp).mem.TA (ecc_192_sqrt_traced_after 3 T p s cp).mem.TC).2).map sqrt_event.op ∧
    (ecc_192_sqrt_traced_after 5 T p s cp).log
      = (ecc_192_sqrt_traced_after 4 T p s cp).log ++ sqrt_event.call (.pow_2k_mul .TA .TB 16 .TB .TC)
          :: ((T.ecc_mod_pow_2k_mul p (ecc_192_sqrt_traced_after 4 T p s cp).mem.TB 16 (ecc_192_sqrt_traced_after 4 T p s cp).mem.TB (ecc_192_sqrt_traced_after 4 T p s cp).mem.TC).2).map sqrt_event.op ∧
    (ecc_192_sqrt_traced_after 6 T p s cp).log
      = (ecc_192_sqrt_traced_after 5 T p s cp).log ++ sqrt_event.call (.pow_2k_mul .TB .TA 32 .TA .TC)
          :: ((T.ecc_mod_pow_2k_mul p (ecc_192_sqrt_traced_after 5 T p s cp).mem.TA 32 (ecc_192_sqrt_traced_after 5 T p s cp).mem.TA (ecc_192_sqrt_traced_after 5 T p s cp).mem.TC).2).map sqrt_event.op ∧
    (ecc_192_sqrt_traced_after 7 T p s cp).log
      = (ecc_192_sqrt_traced_after 6 T p s cp).log ++ sqrt_event.call (.pow_2k_mul .TC .TB 64 .TB .TA)
          :: ((T.ecc_mod_pow_2k_mul p (ecc_192_sqrt_traced_after 6 T p s cp).mem.TB 64 (ecc_192_sqrt_traced_after 6 T p s cp).mem.TB (ecc_192_sqrt_traced_after 6 T p s cp).mem.TA).2).map sqrt_event.op ∧
    (ecc_192_sqrt_traced_after 8 T p s cp).log
      = (ecc_192_sqrt_traced_after 7 T p s cp).log ++ sqrt_event.call (.pow_2k .rp .TC 62 .TA)
          :: ((T.ecc_mod_pow_2k p (ecc_192_sqrt_traced_after 7 T p s cp).mem.TC 62 (ecc_192_sqrt_traced_after 7 T p s cp).mem.TA).2).map sqrt_event.op ∧
    (ecc_192_sqrt_traced_after 9 T p s cp).log
      = (ecc_192_sqrt_traced_after 8 T p s cp).log ++ sqrt_event.call (.sqr .TA .rp)
          :: ((T.ecc_mod_sqr p (ecc_192_sqrt_traced_after 8 T p s cp).mem.rp).2).map sqrt_event.op ∧
    (ecc_192_sqrt_traced_after 10 T p s cp).log
      = (ecc_192_sqrt_traced_after 9 T p s cp).log ++ sqrt_event.call (.sub .TA .TA .cp)
          :: ((T.ecc_mod_sub p (ecc_192_sqrt_traced_after 9 T p s cp).mem.TA cp).2).map sqrt_event.op ∧
    (ecc_192_sqrt_traced T p s cp).2
      = (ecc_192_sqrt_traced_after 10 T p s cp).log ++ sqrt_event.call (.zero_p .TA)
          :: [sqrt_event.limb 0, sqrt_event.limb 1, sqrt_event.limb 2] :=
  ⟨rfl, rfl, rfl, rfl, rfl, rfl, rfl, rfl, rfl, rfl, rfl⟩

/-- With constant-time helpers the log of a run does not depend on the input
or on what the scratch memory held: statement by statement, the two runs append
the same call and, by the assumption on the helpers, the same operations. -/
theorem traced_log_independent (T : ecc_mod_arith_traced) (p : ecc_modulo)
    (hT : helpers_constant_time T p) (s s' : sqrt_mem) (cp cp' : List Nat) :
    (ecc_192_sqrt_traced T p s cp).2 = (ecc_192_sqrt_traced T p s' cp').2 := by
  obtain ⟨a1, a2, a3, a4, a5, a6, a7, a8, a9, a10, a11⟩ := log_succ T p s cp
  obtain ⟨b1, b2, b3, b4, b5, b6, b7, b8, b9, b10, b11⟩ := log_succ T p s' cp'
  have l0 : (ecc_192_sqrt_traced_after 0 T p s cp).log
      = (ecc_192_sqrt_traced_after 0 T p s' cp').log := rfl
  have l1 : (ecc_192_sqrt_traced_after 1 T p s cp).log
      = (ecc_192_sqrt_traced_after 1 T p s' cp').log := by
    rw [a1, b1]
    exact log_snoc_congr _ l0 (hT.pow_2k_mul 1 _ _ _ _ _ _)
  have l2 : (ecc_192_sqrt_traced_after 2 T p s cp).log
      = (ecc_192_sqrt_traced_after 2 T p s' cp').log := by
    rw [a2, b2]
    exact log_snoc_congr _ l1 (hT.pow_2k_mul 2 _ _ _ _ _ _)
  have l3 : (ecc_192_sqrt_traced_after 3 T p s cp).log
      = (ecc_192_sqrt_traced_after 3 T p s' cp').log := by
    rw [a3, b3]
    exact log_snoc_congr _ l2 (hT.pow_2k_mul 4 _ _ _ _ _ _)
  have l4 : (ecc_192_sqrt_traced_after 4 T p s cp).log
      = (ecc_192_sqrt_traced_after 4 T p s' cp').log := by
    rw [a4, b4]
    exact log_snoc_congr _ l3 (hT.pow_2k_mul 8 _ _ _ _ _ _)
  have l5 : (ecc_192_sqrt_traced_after 5 T p s cp).log
      = (ecc_192_sqrt_traced_after 5 T p s' cp').log := by
    rw [a5, b5]
    exact log_snoc_congr _ l4 (hT.pow_2k_mul 16 _ _ _ _ _ _)
  have l6 : (ecc_192_sqrt_traced_after 6 T p s cp).log
      = (ecc_192_sqrt_traced_after 6 T p s' cp').log := by
    rw [a6, b6]
    exact log_snoc_congr _ l5 (hT.pow_2k_mul 32 _ _ _ _ _ _)
  have l7 : (ecc_192_sqrt_traced_after 7 T p s cp).log
      = (ecc_192_sqrt_traced_after 7 T p s' cp').log := by
    rw [a7, b7]
    exact log_snoc_congr _ l6 (hT.pow_2k_mul 64 _ _ _ _ _ _)
  have l8 : (ecc_192_sqrt_traced_after 8 T p s cp).log
      = (ecc_192_sqrt_traced_after 8 T p s' cp').log := by
    rw [a8, b8]
    exact log_snoc_congr _ l7 (hT.pow_2k 62 _ _ _ _)
  have l9 : (ecc_192_sqrt_traced_after 9 T p s cp).log
      = (ecc_192_sqrt_traced_after 9 T p s' cp').log := by
    rw [a9, b9]
    exact log_snoc_congr _ l8 (hT.sqr _ _)
  have l10 : (ecc_192_sqrt_traced_after 10 T p s cp).log
      = (ecc_192_sqrt_traced_after 10 T p s' cp').log := by
    rw [a10, b10]
    exact log_snoc_congr _ l9 (hT.sub _ _ _ _)
  rw [a11, b11, l10]

/-- The calls in the log of a run are the eleven calls of the source, in order,
for any helpers and any input. -/
theorem traced_calls (T : ecc_mod_arith_traced) (p : ecc_modulo) (s : sqrt_mem)
    (cp : List Nat) :
    calls_of (ecc_192_sqrt_traced T p s cp).2
      = [ .pow_2k_mul .TA .cp 1 .cp .TB, .pow_2k_mul .TB .TA 2 .TA .TC,
          .pow_2k_mul .TA .TB 4 .TB .TC, .pow_2k_mul .TB .TA 8 .TA .TC,
          .pow_2k_mul .TA .TB 16 .TB .TC, .pow_2k_mul .TB .TA 32 .TA .TC,
          .pow_2k_mul .TC .TB 64 .TB .TA, .pow_2k .rp .TC 62 .TA,
          .sqr .TA .rp, .sub .TA .TA .cp, .zero_p .TA ] := by
  obtain ⟨a1, a2, a3, a4, a5, a6, a7, a8, a9, a10, a11⟩ := log_succ T p s cp
  have c0 : calls_of (ecc_192_sqrt_traced_after 0 T p s cp).log = [] := rfl
  rw [a11, calls_of_append, a10, calls_of_snoc, a9, calls_of_snoc, a8, calls_of_snoc, a7,
    calls_of_snoc, a6, calls_of_snoc, a5, calls_of_snoc, a4, calls_of_snoc, a3, calls_of_snoc,
    a2, calls_of_snoc, a1, calls_of_snoc, c0]
  rfl

/-- With helpers that work as described, the field operations of a run are
those of the seven square-and-multiply steps, the 62 squarings, the check's
squaring and its subtraction, for any input. -/
theorem traced_ops (T : ecc_mod_arith_traced) (p : ecc_modulo)
    (hD : helpers_as_described T p) (s : sqrt_mem) (cp : List Nat) :
    ops_of (ecc_192_sqrt_traced T p s cp).2
      = List.replicate 1 field_op.sqr ++ [field_op.mul]
        ++ (List.replicate 2 field_op.sqr ++ [field_op.mul])
        ++ (List.replicate 4 field_op.sqr ++ [field_op.mul])
        ++ (List.replicate 8 field_op.sqr ++ [field_op.mul])
        ++ (List.replicate 16 field_op.sqr ++ [field_op.mul])
        ++ (List.replicate 32 field_op.sqr ++ [field_op.mul])
        ++ (List.replicate 64 field_op.sqr ++ [field_op.mul])
        ++ List.replicate 62 field_op.sqr ++ [field_op.sqr] ++ [field_op.sub] := by
  obtain ⟨a1, a2, a3, a4, a5, a6, a7, a8, a9, a10, a11⟩ := log_succ T p s cp
  have c0 : ops_of (ecc_192_sqrt_traced_after 0 T p s cp).log = [] := rfl
  rw [a11, ops_of_append, a10, ops_of_snoc, a9, ops_of_snoc, a8, ops_of_snoc, a7,
    ops_of_snoc, a6, ops_of_snoc, a5, ops_of_snoc, a4, ops_of_snoc, a3, ops_of_snoc,
    a2, ops_of_snoc, a1, ops_of_snoc, c0, hD.pow_2k_mul, hD.pow_2k_mul, hD.pow_2k_mul,
    hD.pow_2k_mul, hD.pow_2k_mul, hD.pow_2k_mul, hD.pow_2k_mul, hD.pow_2k, hD.sqr, hD.sub]
  rfl

/-- The field operations logged before the check: those of statements [1] to
[8]. -/
theorem traced_ops_before_check (T : ecc_mod_arith_traced) (p : ecc_modulo)
    (hD : helpers_as_described T p) (s : sqrt_mem) (cp : List Nat) :
    ops_of (ecc_192_sqrt_traced_after 8 T p s cp).log
      = List.replicate 1 field_op.sqr ++ [field_op.mul]
        ++ (List.replicate 2 field_op.sqr ++ [field_op.mul])
        ++ (List.replicate 4 field_op.sqr ++ [field_op.mul])
        ++ (List.replicate 8 field_op.sqr ++ [field_op.mul])
        ++ (List.replicate 16 field_op.sqr ++ [field_op.mul])
        ++ (List.replicate 32 field_op.sqr ++ [field_op.mul])
        ++ (List.replicate 64 field_op.sqr ++ [field_op.mul])
        ++ List.replicate 62 field_op.sqr := by
  obtain ⟨a1, a2, a3, a4, a5, a6, a7, a8, _⟩ := log_succ T p s cp
  have c0 : ops_of (ecc_192_sqrt_traced_after 0 T p s cp).log = [] := rfl
  rw [a8, ops_of_snoc, a7, ops_of_snoc, a6, ops_of_snoc, a5, ops_of_snoc, a4, ops_of_snoc, a3,
    ops_of_snoc, a2, ops_of_snoc, a1, ops_of_snoc, c0, hD.pow_2k_mul, hD.pow_2k_mul,
    hD.pow_2k_mul, hD.pow_2k_mul, hD.pow_2k_mul, hD.pow_2k_mul, hD.pow_2k_mul, hD.pow_2k]
  rfl

theorem sqr_iter_traced_eq (m : Nat) : ∀ k x,
    sqr_iter_traced m k x = (sqr_iter m k x, List.replicate k field_op.sqr) := by
  intro k
  induction k with
  | zero => intro x; rfl
  | succ k ih => intro x; simp [sqr_iter_traced, sqr_iter, ih, List.replicate_succ]

/-- The reference helpers work as described. -/
theorem canonical_traced_as_described (p : ecc_modulo) :
    helpers_as_described canonical_traced p := by
  refine ⟨?_, ?_, ?_, ?_⟩
  · intro x k y t; simp [canonical_traced, sqr_iter_traced_eq]
  · intro x k t; simp [canonical_traced, sqr_iter_traced_eq]
  · intro x; rfl
  · intro a b; rfl

/-- Helpers that work as described are constant-time. -/
theorem constant_time_of_described (T : ecc_mod_arith_traced) (p : ecc_modulo)
    (hD : helpers_as_described T p) : helpers_constant_time T p := by
  refine ⟨?_, ?_, ?_, ?_⟩
  · intro k x y t x' y' t'; rw [hD.pow_2k_mul, hD.pow_2k_mul]
  · intro k x t x' t'; rw [hD.pow_2k, hD.pow_2k]
  · intro x x'; rw [hD.sqr, hD.sqr]
  · intro a b a' b'; rw [hD.sub, hD.sub]

/-- The reference helpers with a log compute what `canonical_arith` computes. -/
theorem canonical_traced_values : canonical_traced.values = canonical_arith := by
  simp only [ecc_mod_arith_traced.values, canonical_traced, canonical_arith,
    sqr_iter_traced_eq]

/-- The log does depend on the input when a helper is not constant-time: with
`leaky_traced` the runs on `c = 1` and on `c = 4` differ. -/
theorem leaky_helpers_log_depends_on_input :
    (ecc_192_sqrt_traced leaky_traced secp_192r1_p sqrt_mem_zero [1, 0, 0]).2
      ≠ (ecc_192_sqrt_traced leaky_traced secp_192r1_p sqrt_mem_zero [4, 0, 0]).2 := by
  decide!

/-- The log does depend on the input for a program that branches on the check:
the early-exit variant logs differently on the square `4` and on the non-square
`p - 1`, with constant-time helpers. -/
theorem early_exit_log_depends_on_input :
    (sqrt_early_exit_traced canonical_traced secp_192r1_p sqrt_mem_zero [4, 0, 0]).2
      ≠ (sqrt_early_exit_traced canonical_traced secp_192r1_p sqrt_mem_zero
          [2 ^ 64 - 2, 2 ^ 64 - 2, 2 ^ 64 - 1]).2 := by
  decide!

/-! ## Constant-time square root -/

/-- C14: for every input `c`, square or not, and whatever the scratch memory
holds, `ecc_192_sqrt` takes the same execution path. The instrumented run
computes `ecc_192_sqrt`; with constant-time helpers its log is the same for any
two inputs; the calls logged are seven `ecc_mod_pow_2k_mul` with
`k = 1, 2, 4, 8, 16, 32, 64`, one `ecc_mod_pow_2k` with `k = 62`, one
`ecc_mod_sqr`, one `ecc_mod_sub` and one `ecc_192_zero_p`; with helpers working
as described that is 189 squarings before the check, 189 + 1 in all, and 7
multiplications; and `rp` holds what the eighth call wrote, before the check
and whatever the check returns. -/
theorem ecc_192_sqrt_constant_trace (T : ecc_mod_arith_traced) (p : ecc_modulo)
    (hT : helpers_constant_time T p) (s s' : sqrt_mem) (cp cp' : List Nat) :
    (ecc_192_sqrt_traced T p s cp).1 = ecc_192_sqrt T.values p s cp ∧
    (ecc_192_sqrt_traced T p s cp).2 = (ecc_192_sqrt_traced T p s' cp').2 ∧
    calls_of (ecc_192_sqrt_traced T p s cp).2
      = [ .pow_2k_mul .TA .cp 1 .cp .TB, .pow_2k_mul .TB .TA 2 .TA .TC,
          .pow_2k_mul .TA .TB 4 .TB .TC, .pow_2k_mul .TB .TA 8 .TA .TC,
          .pow_2k_mul .TA .TB 16 .TB .TC, .pow_2k_mul .TB .TA 32 .TA .TC,
          .pow_2k_mul .TC .TB 64 .TB .TA, .pow_2k .rp .TC 62 .TA,
          .sqr .TA .rp, .sub .TA .TA .cp, .zero_p .TA ] ∧
    (helpers_as_described T p →
      (ops_of (ecc_192_sqrt_traced_after 8 T p s cp).log).count field_op.sqr = 189 ∧
      (ops_of (ecc_192_sqrt_traced T p s cp).2).count field_op.sqr = 189 + 1 ∧
      (ops_of (ecc_192_sqrt_traced T p s cp).2).count field_op.mul = 7) ∧
    (ecc_192_sqrt T.values p s cp).1.rp = (ecc_192_sqrt_traced_after 8 T p s cp).mem.rp ∧
    (ecc_192_sqrt_traced_after 8 T p s cp).mem.rp
      = (T.ecc_mod_pow_2k p (ecc_192_sqrt_traced_after 7 T p s cp).mem.TC 62
          (ecc_192_sqrt_traced_after 7 T p s cp).mem.TA).1.1 := by
  refine ⟨traced_values T p s cp, traced_log_independent T p hT s s' cp cp',
    traced_calls T p s cp, ?_, rfl, rfl⟩
  intro hD
  rw [traced_ops T p hD s cp, traced_ops_before_check T p hD s cp]
  exact ⟨by decide!, by decide!, by decide!⟩

/-- C14 with the reference helpers, on the square `4` and the non-square
`p - 1`. -/
theorem ecc_192_sqrt_constant_trace_witness :
    (helpers_constant_time canonical_traced secp_192r1_p ∧
      helpers_as_described canonical_traced secp_192r1_p) ∧
    ((ecc_192_sqrt_traced canonical_traced secp_192r1_p sqrt_mem_zero [4, 0, 0]).1
        = ecc_192_sqrt canonical_traced.values secp_192r1_p sqrt_mem_zero [4, 0, 0] ∧
    (ecc_192_sqrt_traced canonical_traced secp_192r1_p sqrt_mem_zero [4, 0, 0]).2
      = (ecc_192_sqrt_traced canonical_traced secp_192r1_p sqrt_mem_zero
          [2 ^ 64 - 2, 2 ^ 64 - 2, 2 ^ 64 - 1]).2 ∧
    calls_of (ecc_192_sqrt_traced canonical_traced secp_192r1_p sqrt_mem_zero [4, 0, 0]).2
      = [ .pow_2k_mul .TA .cp 1 .cp .TB, .pow_2k_mul .TB .TA 2 .TA .TC,
          .pow_2k_mul .TA .TB 4 .TB .TC, .pow_2k_mul .TB .TA 8 .TA .TC,
          .pow_2k_mul .TA .TB 16 .TB .TC, .pow_2k_mul .TB .TA 32 .TA .TC,
          .pow_2k_mul .TC .TB 64 .TB .TA, .pow_2k .rp .TC 62 .TA,
          .sqr .TA .rp, .sub .TA .TA .cp, .zero_p .TA ] ∧
    (helpers_as_described canonical_traced secp_192r1_p →
      (ops_of (ecc_192_sqrt_traced_after 8 canonical_traced secp_192r1_p sqrt_mem_zero
          [4, 0, 0]).log).count field_op.sqr = 189 ∧
      (ops_of (ecc_192_sqrt_traced canonical_traced secp_192r1_p sqrt_mem_zero
          [4, 0, 0]).2).count field_op.sqr = 189 + 1 ∧
      (ops_of (ecc_192_sqrt_traced canonical_traced secp_192r1_p sqrt_mem_zero
          [4, 0, 0]).2).count field_op.mul = 7) ∧
    (ecc_192_sqrt canonical_traced.values secp_192r1_p sqrt_mem_zero [4, 0, 0]).1.rp
      = (ecc_192_sqrt_traced_after 8 canonical_traced secp_192r1_p sqrt_mem_zero
          [4, 0, 0]).mem.rp ∧
    (ecc_192_sqrt_traced_after 8 canonical_traced secp_192r1_p sqrt_mem_zero [4, 0, 0]).mem.rp
      = (canonical_traced.ecc_mod_pow_2k secp_192r1_p
          (ecc_192_sqrt_traced_after 7 canonical_traced secp_192r1_p sqrt_mem_zero
            [4, 0, 0]).mem.TC 62
          (ecc_192_sqrt_traced_after 7 canonical_traced secp_192r1_p sqrt_mem_zero
            [4, 0, 0]).mem.TA).1.1) :=
  ⟨⟨constant_time_of_described _ _ (canonical_traced_as_described _),
      canonical_traced_as_described _⟩,
    ecc_192_sqrt_constant_trace canonical_traced secp_192r1_p
      (constant_time_of_described _ _ (canonical_traced_as_described _))
      sqrt_mem_zero sqrt_mem_zero [4, 0, 0] [2 ^ 64 - 2, 2 ^ 64 - 2, 2 ^ 64 - 1]⟩

end Nettle
